import Mathlib

/-! # Celestia: frame / timeline resolution, derived caches, name lookup and resources

A shallow embedding of `src/celengine/body.cpp` and `src/celutil/resmanager.h`.

* `double` and `float` values are modelled as exact rationals (`ℚ`); rounding, infinities
  and NaN are outside of the model.
* Pointers to bodies and stars are natural-number identifiers; the set of bodies is a
  function from identifiers to timelines, so cyclic frame-centre graphs are representable.
* Loops and recursive calls whose termination depends on the shape of the frame graph or
  of the tree of planetary systems take a fuel argument and return `Option`.
* Planetary systems and their bodies refer to each other by identifier; the name index is
  a list of entries without repeated keys.
* A division of `getLuminosity` by zero has no result (`none`).
* The resource manager is parametrised by the info class: its `operator<` and its virtual
  functions `resolve` and `load` are functions of the info. A `std::map` is the list of
  its entries in the order of insertion, looked up by key equivalence; a handle is an
  unbounded integer.
-/

namespace Celestia

/-! ## Vectors and quaternions (Eigen `Vector3d`, `Quaterniond`) -/

/-- Three-component vector, `Eigen::Vector3d`. -/
structure Vec3 where
  x : ℚ
  y : ℚ
  z : ℚ
deriving DecidableEq

namespace Vec3

/-- The vector `Vector3d::Zero()`. -/
def zero : Vec3 := ⟨0, 0, 0⟩

/-- Componentwise sum. -/
def add (a b : Vec3) : Vec3 := ⟨a.x + b.x, a.y + b.y, a.z + b.z⟩

/-- Componentwise difference. -/
def sub (a b : Vec3) : Vec3 := ⟨a.x - b.x, a.y - b.y, a.z - b.z⟩

/-- Multiplication by a scalar. -/
def scale (s : ℚ) (a : Vec3) : Vec3 := ⟨s * a.x, s * a.y, s * a.z⟩

/-- Cross product, `a.cross(b)`. -/
def cross (a b : Vec3) : Vec3 :=
  ⟨a.y * b.z - a.z * b.y, a.z * b.x - a.x * b.z, a.x * b.y - a.y * b.x⟩

instance : Zero Vec3 := ⟨zero⟩
instance : Add Vec3 := ⟨add⟩
instance : Sub Vec3 := ⟨sub⟩

end Vec3

/-- Quaternion `w + xi + yj + zk`, `Eigen::Quaterniond`. -/
structure Quat where
  w : ℚ
  x : ℚ
  y : ℚ
  z : ℚ
deriving DecidableEq

namespace Quat

/-- The identity rotation, `Quaterniond::Identity()`. -/
def identity : Quat := ⟨1, 0, 0, 0⟩

/-- Vector part of a quaternion, `q.vec()`. -/
def vec (q : Quat) : Vec3 := ⟨q.x, q.y, q.z⟩

/-- Quaternion conjugate, `q.conjugate()`. -/
def conjugate (q : Quat) : Quat := ⟨q.w, -q.x, -q.y, -q.z⟩

/-- Hamilton product, `a * b` on two quaternions. -/
def mul (a b : Quat) : Quat :=
  ⟨a.w * b.w - a.x * b.x - a.y * b.y - a.z * b.z,
   a.w * b.x + a.x * b.w + a.y * b.z - a.z * b.y,
   a.w * b.y + a.y * b.w + a.z * b.x - a.x * b.z,
   a.w * b.z + a.z * b.w + a.x * b.y - a.y * b.x⟩

/-- Rotation of a vector, `q * v` (Eigen computes `v + w * uv + u × uv`
with `u = q.vec()` and `uv = 2 (u × v)`). -/
def rotate (q : Quat) (v : Vec3) : Vec3 :=
  let uv := q.vec.cross v
  let uv := uv + uv
  v + Vec3.scale q.w uv + q.vec.cross uv

instance : Mul Quat := ⟨mul⟩

end Quat

/-! ## Selection, frames, orbits, rotation models, timelines -/

/-- Modelled from the spec: `Selection` (selection.h is not part of the sources), a closed
tagged union over body, star, barycenter and none; it never owns its referent, so the
referent is an identifier. -/
inductive Selection where
  | nil
  | body (b : Nat)
  | star (s : Nat)
  | barycenter (s : Nat)
deriving DecidableEq

/-- The test `getType() == Selection::Type_Body`. -/
def Selection.isBody : Selection → Bool
  | .body _ => true
  | _ => false

/-- The accessor `Selection::star()`: the star when the selection holds one. -/
def Selection.star? : Selection → Option Nat
  | .star s => some s
  | _ => none

/-- Reference frame as consumed by `Body` (frame.h is not part of the sources): centre,
inertial flag, and orientation and angular velocity as functions of time. -/
structure ReferenceFrame where
  getCenter : Selection
  isInertial : Bool
  getOrientation : ℚ → Quat
  getAngularVelocity : ℚ → Vec3

/-- Orbit: an opaque pair of time-indexed functions, local to the owning frame. -/
structure Orbit where
  positionAtTime : ℚ → Vec3
  velocityAtTime : ℚ → Vec3

/-- Rotation model: opaque time-indexed functions. -/
structure RotationModel where
  orientationAtTime : ℚ → Quat
  angularVelocityAtTime : ℚ → Vec3
  spin : ℚ → Quat
  equatorOrientationAtTime : ℚ → Quat

/-- One phase of a timeline: the interval `[startTime, endTime)` with its orbit frame,
orbit, body frame and rotation model. -/
structure TimelinePhase where
  startTime : ℚ
  endTime : ℚ
  orbitFrame : ReferenceFrame
  orbit : Orbit
  bodyFrame : ReferenceFrame
  rotationModel : RotationModel

/-- Timeline: a sequence of phases with at least one element (a timeline without a phase
cannot be constructed). -/
structure Timeline where
  first : TimelinePhase
  rest : List TimelinePhase

/-- All phases of the timeline, in order. -/
def Timeline.phases (tl : Timeline) : List TimelinePhase := tl.first :: tl.rest

/-- The last phase of the timeline. -/
def Timeline.last (tl : Timeline) : TimelinePhase := tl.rest.getLastD tl.first

/-- The interval test `startTime <= t < endTime` of a phase. -/
def TimelinePhase.includes (p : TimelinePhase) (t : ℚ) : Bool :=
  decide (p.startTime ≤ t) && decide (t < p.endTime)

/-- Modelled from the spec: `Timeline::findPhase` (timeline.cpp is not part of the
sources). It returns the phase whose interval contains `t`; a `t` that precedes the first
phase gives the first phase and a `t` at or after the end of the last phase gives the last
phase. Where no phase contains a `t` inside the lifespan (a timeline with a gap) the last
phase is returned. -/
def Timeline.findPhase (tl : Timeline) (t : ℚ) : TimelinePhase :=
  if t < tl.first.startTime then tl.first
  else if tl.last.endTime ≤ t then tl.last
  else (tl.phases.find? (fun p => p.includes t)).getD tl.last

/-- Sortedness of the phases by start time. -/
def Timeline.sortedByStart (tl : Timeline) : Prop :=
  tl.phases.Pairwise (fun p q => p.startTime ≤ q.startTime)

/-- Contiguity: each phase ends where the next one starts. -/
def Timeline.contiguous (tl : Timeline) : Prop :=
  tl.phases.Chain' (fun p q => p.endTime = q.startTime)

/-- The universe a body is resolved in: the timeline of every body, the positions and
velocities of the terminal centres (stars and barycenters, resolved outside of `Body`),
and the operations of the high-precision coordinate type `UC` (`UniversalCoord`). -/
structure Universe (UC : Type) where
  timeline : Nat → Timeline
  starPosition : Nat → ℚ → UC
  starVelocity : Nat → ℚ → Vec3
  barycenterPosition : Nat → ℚ → UC
  barycenterVelocity : Nat → ℚ → Vec3
  origin : UC
  offsetKm : UC → Vec3 → UC
  offsetFromKm : UC → UC → Vec3

/-! ## Phase accessors of `Body` -/

/-- The accessor `Body::getOrbitFrame(tdb)`. -/
def Body.getOrbitFrame {UC : Type} (U : Universe UC) (b : Nat) (tdb : ℚ) : ReferenceFrame :=
  ((U.timeline b).findPhase tdb).orbitFrame

/-- The accessor `Body::getOrbit(tdb)`. -/
def Body.getOrbit {UC : Type} (U : Universe UC) (b : Nat) (tdb : ℚ) : Orbit :=
  ((U.timeline b).findPhase tdb).orbit

/-- The accessor `Body::getBodyFrame(tdb)`. -/
def Body.getBodyFrame {UC : Type} (U : Universe UC) (b : Nat) (tdb : ℚ) : ReferenceFrame :=
  ((U.timeline b).findPhase tdb).bodyFrame

/-- The accessor `Body::getRotationModel(tdb)`. -/
def Body.getRotationModel {UC : Type} (U : Universe UC) (b : Nat) (tdb : ℚ) :
    RotationModel :=
  ((U.timeline b).findPhase tdb).rotationModel

/-! ## Position -/

/-- State of the loop of `Body::getPosition`: the accumulated `position`, the pending local
offset `p` and the current `frame`. -/
structure PositionLoop where
  position : Vec3
  p : Vec3
  frame : ReferenceFrame

/-- The `while` loop of `Body::getPosition`; `fuel` bounds the number of evaluations of the
loop condition, and `none` means the bound was reached before the loop exited. -/
def Body.getPositionLoop {UC : Type} (U : Universe UC) (tdb : ℚ) :
    Nat → PositionLoop → Option PositionLoop
  | 0, _ => none
  | fuel + 1, s =>
    match s.frame.getCenter with
    | .body c =>
      let phase := (U.timeline c).findPhase tdb
      Body.getPositionLoop U tdb fuel
        { position := s.position + (s.frame.getOrientation tdb).conjugate.rotate s.p
          p := phase.orbit.positionAtTime tdb
          frame := phase.orbitFrame }
    | _ => some s

/-- Modelled from the spec: `Selection::getPosition` delegates to the contained variant
(selection.cpp is not part of the sources); `bodyPosition` is `Body::getPosition`. -/
def Selection.getPositionWith {UC : Type} (U : Universe UC)
    (bodyPosition : Nat → ℚ → Option UC) (sel : Selection) (tdb : ℚ) : Option UC :=
  match sel with
  | .body b => bodyPosition b tdb
  | .star s => some (U.starPosition s tdb)
  | .barycenter s => some (U.barycenterPosition s tdb)
  | .nil => some U.origin

/-- The part of `Body::getPosition` after the loop: the pending offset is added and the
sum offsets the position of the terminal centre. -/
def Body.getPositionExit {UC : Type} (U : Universe UC) (bodyPosition : Nat → ℚ → Option UC)
    (tdb : ℚ) (s : PositionLoop) : Option UC :=
  let position := s.position + (s.frame.getOrientation tdb).conjugate.rotate s.p
  match s.frame.getCenter.star? with
  | some st => some (U.offsetKm (U.starPosition st tdb) position)
  | none =>
    (Selection.getPositionWith U bodyPosition s.frame.getCenter tdb).map
      (fun c => U.offsetKm c position)

/-- The function `Body::getPosition(tdb)` of body `b`; `fuel` bounds the evaluations of the
loop condition. -/
def Body.getPosition {UC : Type} (U : Universe UC) : Nat → Nat → ℚ → Option UC
  | 0, _, _ => none
  | fuel + 1, b, tdb =>
    let phase := (U.timeline b).findPhase tdb
    match Body.getPositionLoop U tdb (fuel + 1)
        { position := Vec3.zero, p := phase.orbit.positionAtTime tdb,
          frame := phase.orbitFrame } with
    | none => none
    | some s => Body.getPositionExit U (fun c t => Body.getPosition U fuel c t) tdb s

/-- The function `Selection::getPosition(tdb)`. -/
def Selection.getPosition {UC : Type} (U : Universe UC) (fuel : Nat) (sel : Selection)
    (tdb : ℚ) : Option UC :=
  Selection.getPositionWith U (fun c t => Body.getPosition U fuel c t) sel tdb

/-- The chain of orbit-frame centres starting at `frame` has exactly `n` bodies on it and
then reaches a centre that is not a body. -/
def Body.frameChain {UC : Type} (U : Universe UC) (tdb : ℚ) : Nat → ReferenceFrame → Bool
  | 0, frame => !frame.getCenter.isBody
  | n + 1, frame =>
    match frame.getCenter with
    | .body c => Body.frameChain U tdb n (Body.getOrbitFrame U c tdb)
    | _ => false

/-- The chain of orbit-frame centres of body `b` at `tdb` has exactly `n` bodies on it and
ends at a star, a barycenter or the empty selection. -/
def Body.centreChain {UC : Type} (U : Universe UC) (tdb : ℚ) (n b : Nat) : Bool :=
  Body.frameChain U tdb n (Body.getOrbitFrame U b tdb)

/-- The body that the chain of orbit-frame centres reaches from body `b` after `k` steps,
when all the centres on the way are bodies. -/
def Body.centreAfter {UC : Type} (U : Universe UC) (tdb : ℚ) : Nat → Nat → Option Nat
  | 0, b => some b
  | k + 1, b =>
    match (Body.getOrbitFrame U b tdb).getCenter with
    | .body c => Body.centreAfter U tdb k c
    | _ => none

/-- The state of the loop of `Body::getPosition` of body `b` on entry. -/
def Body.getPositionStart {UC : Type} (U : Universe UC) (b : Nat) (tdb : ℚ) : PositionLoop :=
  { position := Vec3.zero
    p := ((U.timeline b).findPhase tdb).orbit.positionAtTime tdb
    frame := ((U.timeline b).findPhase tdb).orbitFrame }

/-! ## Orientation, velocity, angular velocity -/

/-- The function `Body::getOrientation(tdb)`. -/
def Body.getOrientation {UC : Type} (U : Universe UC) (b : Nat) (tdb : ℚ) : Quat :=
  let phase := (U.timeline b).findPhase tdb
  phase.rotationModel.orientationAtTime tdb * phase.bodyFrame.getOrientation tdb

/-- The function `Body::getEclipticToBodyFixed(tdb)`. -/
def Body.getEclipticToBodyFixed {UC : Type} (U : Universe UC) (b : Nat) (tdb : ℚ) : Quat :=
  let phase := (U.timeline b).findPhase tdb
  phase.rotationModel.orientationAtTime tdb * phase.bodyFrame.getOrientation tdb

/-- The function `Body::getEquatorialToBodyFixed(tdb)`. -/
def Body.getEquatorialToBodyFixed {UC : Type} (U : Universe UC) (b : Nat) (tdb : ℚ) : Quat :=
  let phase := (U.timeline b).findPhase tdb
  phase.rotationModel.spin tdb

/-- Modelled from the spec: `Selection::getVelocity` delegates to the contained variant
(selection.cpp is not part of the sources); `bodyVelocity` is `Body::getVelocity`. -/
def Selection.getVelocityWith {UC : Type} (U : Universe UC)
    (bodyVelocity : Nat → ℚ → Option Vec3) (sel : Selection) (tdb : ℚ) : Option Vec3 :=
  match sel with
  | .body b => bodyVelocity b tdb
  | .star s => some (U.starVelocity s tdb)
  | .barycenter s => some (U.barycenterVelocity s tdb)
  | .nil => some Vec3.zero

/-- The function `Body::getVelocity(tdb)` of body `b`; `fuel` bounds the depth of the
recursion through the centres and the loops of the position queries. -/
def Body.getVelocity {UC : Type} (U : Universe UC) : Nat → Nat → ℚ → Option Vec3
  | 0, _, _ => none
  | fuel + 1, b, tdb =>
    let phase := (U.timeline b).findPhase tdb
    let orbitFrame := phase.orbitFrame
    let v := phase.orbit.velocityAtTime tdb
    match Selection.getVelocityWith U (fun c t => Body.getVelocity U fuel c t)
        orbitFrame.getCenter tdb with
    | none => none
    | some centerVelocity =>
      let v := (orbitFrame.getOrientation tdb).conjugate.rotate v + centerVelocity
      if !orbitFrame.isInertial then
        match Selection.getPosition U (fuel + 1) (.body b) tdb,
            Selection.getPosition U (fuel + 1) orbitFrame.getCenter tdb with
        | some pb, some pc =>
          let r := U.offsetFromKm pb pc
          some (v + (orbitFrame.getAngularVelocity tdb).cross r)
        | _, _ => none
      else some v

/-- The function `Selection::getVelocity(tdb)`. -/
def Selection.getVelocity {UC : Type} (U : Universe UC) (fuel : Nat) (sel : Selection)
    (tdb : ℚ) : Option Vec3 :=
  Selection.getVelocityWith U (fun c t => Body.getVelocity U fuel c t) sel tdb

/-- The function `Body::getAngularVelocity(tdb)`. -/
def Body.getAngularVelocity {UC : Type} (U : Universe UC) (b : Nat) (tdb : ℚ) : Vec3 :=
  let phase := (U.timeline b).findPhase tdb
  let v := phase.rotationModel.angularVelocityAtTime tdb
  let bodyFrame := phase.bodyFrame
  let v := (bodyFrame.getOrientation tdb).conjugate.rotate v
  if !bodyFrame.isInertial then v + bodyFrame.getAngularVelocity tdb else v

/-! ## Attributes of a body and the derived culling radius -/

/-- Constants that `body.cpp` takes from headers outside of the sources: the classification
flags of `Body` (body.h), `InvalidResource` (reshandle.h), `celestia::numbers::sqrt3_v`
and `astro::AUtoKilometers(1.0f)`. -/
structure Constants where
  Planet : Nat
  Moon : Nat
  Asteroid : Nat
  Comet : Nat
  Spacecraft : Nat
  Invisible : Nat
  DwarfPlanet : Nat
  MinorMoon : Nat
  Unknown : Nat
  InvalidResource : Nat
  sqrt3 : ℚ
  auKm : ℚ

/-- The values of the constants in the Celestia headers (single-bit classification flags,
`InvalidResource = -1` as an unsigned 32-bit value, a rational approximation of the
square root of three, and one astronomical unit in kilometres). -/
def Constants.celestia : Constants where
  Planet := 0x01
  Moon := 0x02
  Asteroid := 0x04
  Comet := 0x08
  Spacecraft := 0x10
  Invisible := 0x20
  DwarfPlanet := 0x100
  MinorMoon := 0x1000
  Unknown := 0x10000
  InvalidResource := 4294967295
  sqrt3 := 17320508 / 10000000
  auKm := 1495978707 / 10

/-- The fields of `Atmosphere` read by `Body`. -/
structure Atmosphere where
  height : ℚ
  cloudHeight : ℚ
deriving DecidableEq

/-- The field of `RingSystem` read by `Body`. -/
structure RingSystem where
  outerRadius : ℚ
deriving DecidableEq

/-- A reference mark: its tag, the value of `boundingSphereRadius()`, and the address of
the object, which is what a list of pointers to marks compares. -/
structure ReferenceMark where
  getTag : String
  boundingSphereRadius : ℚ
  address : Nat := 0
deriving DecidableEq

/-- The surface of a body, as far as `Body` sets it (surface.h is not part of the
sources): the value `Surface(Color::White)` or any other surface. -/
inductive Surface where
  | white
  | other (code : Nat)
deriving DecidableEq

/-- The visibility policy of an orbit, `Body::VisibilityPolicy`. -/
inductive VisibilityPolicy where
  | NeverVisible
  | UseClassVisibility
  | AlwaysVisible
deriving DecidableEq

/-- The part of `FrameTree` read by `Body`: the cached mask of the children's classes. -/
structure FrameTree where
  childClassMask : Nat
deriving DecidableEq

/-- The attribute state of a `Body`. Owned objects held through a pointer that may be null
are `Option`s; `timeline` is the handle of the timeline the body holds. The fields
`markChangedCalls` and `notified` record effects: the number of calls of
`Body::markChanged` and the handles of the timelines whose `markChanged` was called, latest
first. The vector `names` is never empty: it is `primaryName` (`names[0]`) followed by
`aliases`. The parent `system` and the `satellites` are identifiers of planetary systems;
alternate surfaces and locations are held by identifier. -/
structure Body where
  radius : ℚ := 1
  semiAxes : Vec3 := ⟨1, 1, 1⟩
  mass : ℚ := 0
  density : ℚ := 0
  bondAlbedo : ℚ := 1 / 2
  geomAlbedo : ℚ := 1 / 2
  reflectivity : ℚ := 1 / 2
  temperature : ℚ := 0
  tempDiscrepancy : ℚ := 0
  geometry : Nat
  atmosphere : Option Atmosphere := none
  rings : Option RingSystem := none
  classification : Nat
  referenceMarks : Option (List ReferenceMark) := none
  frameTree : Option FrameTree := none
  timeline : Option Nat := none
  cullingRadius : ℚ := 0
  markChangedCalls : Nat := 0
  notified : List Nat := []
  primaryName : String := ""
  aliases : List String := []
  localizedName : String := ""
  primaryNameLocalized : Bool := false
  system : Option Nat := none
  satellites : Option Nat := none
  geometryOrientation : Quat := Quat.identity
  surface : Surface := Surface.white
  visible : Bool := true
  clickable : Bool := true
  visibleAsPoint : Bool := true
  overrideOrbitColor : Bool := false
  orbitVisibility : VisibilityPolicy := VisibilityPolicy.UseClassVisibility
  altSurfaces : Option (List (String × Nat)) := none
  locations : Option (List Nat) := none

/-- The function `Body::markChanged()`: the timeline, when there is one, is notified. -/
def Body.markChanged (b : Body) : Body :=
  match b.timeline with
  | some tl => { b with markChangedCalls := b.markChangedCalls + 1, notified := tl :: b.notified }
  | none => { b with markChangedCalls := b.markChangedCalls + 1 }

/-- The function `Body::getBoundingRadius()`. -/
def Body.getBoundingRadius (K : Constants) (b : Body) : ℚ :=
  if b.geometry = K.InvalidResource then b.radius else b.radius * K.sqrt3

/-- The function `Body::getCullingRadius()`. -/
def Body.getCullingRadius (b : Body) : ℚ := b.cullingRadius

/-- The function `Body::getClassification()`. -/
def Body.getClassification (b : Body) : Nat := b.classification

/-- The function `std::max(a, b)`, which is `(a < b) ? b : a`. -/
def stdMax (a b : ℚ) : ℚ := if a < b then b else a

/-- The radius that `Body::recomputeCullingRadius()` computes in its local `r`. -/
def Body.computedCullingRadius (K : Constants) (b : Body) : ℚ :=
  let r := b.getBoundingRadius K
  let r := match b.atmosphere with
    | some a => r + stdMax a.height a.cloudHeight
    | none => r
  let r := match b.rings with
    | some rg => stdMax r rg.outerRadius
    | none => r
  let r := match b.referenceMarks with
    | some marks => marks.foldl (fun r rm => stdMax r rm.boundingSphereRadius) r
    | none => r
  if b.classification = K.Comet then stdMax r K.auKm else r

/-- The function `Body::recomputeCullingRadius()`. -/
def Body.recomputeCullingRadius (K : Constants) (b : Body) : Body :=
  let r := b.computedCullingRadius K
  if r ≠ b.cullingRadius then
    Body.markChanged { b with cullingRadius := r }
  else b

/-- The function `Body::getOrbitClassification()`. -/
def Body.getOrbitClassification (K : Constants) (b : Body) : Nat :=
  if b.classification ≠ K.Invisible then b.classification
  else
    match b.frameTree with
    | none => b.classification
    | some frameTree =>
      let orbitClass := frameTree.childClassMask
      if orbitClass &&& K.Planet ≠ 0 then K.Planet
      else if orbitClass &&& K.DwarfPlanet ≠ 0 then K.DwarfPlanet
      else if orbitClass &&& K.Asteroid ≠ 0 then K.Asteroid
      else if orbitClass &&& K.Moon ≠ 0 then K.Moon
      else if orbitClass &&& K.MinorMoon ≠ 0 then K.MinorMoon
      else if orbitClass &&& K.Spacecraft ≠ 0 then K.Spacecraft
      else K.Invisible

/-- The priority order of the classes an invisible body can take from its children. -/
def orbitClassOrder (K : Constants) : List Nat :=
  [K.Planet, K.DwarfPlanet, K.Asteroid, K.Moon, K.MinorMoon, K.Spacecraft]

/-- The culling radius as the specification words it: the largest of the bounding radius,
the atmosphere's height and cloud height, the outer radius of the rings, the bounding
radius of every reference mark, and one astronomical unit for a comet. -/
def Body.cullingRadiusAsMaximum (K : Constants) (b : Body) : ℚ :=
  let atmosphere := match b.atmosphere with
    | some a => [a.height, a.cloudHeight]
    | none => []
  let rings := match b.rings with
    | some rg => [rg.outerRadius]
    | none => []
  let marks := match b.referenceMarks with
    | some l => l.map (fun rm => rm.boundingSphereRadius)
    | none => []
  let comet := if b.classification = K.Comet then [K.auKm] else []
  (atmosphere ++ rings ++ marks ++ comet).foldl max (b.getBoundingRadius K)

/-- The culling radius with the atmosphere stacked on the body: the largest of the bounding
radius plus the larger of the atmosphere's height and cloud height, the outer radius of the
rings, the bounding radius of every reference mark, and one astronomical unit for a comet. -/
def Body.cullingRadiusStacked (K : Constants) (b : Body) : ℚ :=
  let shell := match b.atmosphere with
    | some a => b.getBoundingRadius K + max a.height a.cloudHeight
    | none => b.getBoundingRadius K
  let rings := match b.rings with
    | some rg => [rg.outerRadius]
    | none => []
  let marks := match b.referenceMarks with
    | some l => l.map (fun rm => rm.boundingSphereRadius)
    | none => []
  let comet := if b.classification = K.Comet then [K.auKm] else []
  (rings ++ marks ++ comet).foldl max shell

/-! ## Mutators of the body attributes -/

/-- The function `Body::setTimeline(newTimeline)`; the deallocation of the old timeline is
not modelled. -/
def Body.setTimeline (b : Body) (newTimeline : Option Nat) : Body :=
  if b.timeline ≠ newTimeline then
    Body.markChanged { b with timeline := newTimeline }
  else b

/-- The function `Body::getTimeline()`. -/
def Body.getTimeline (b : Body) : Option Nat := b.timeline

/-- The largest coefficient of a vector, `v.maxCoeff()`. -/
def Vec3.maxCoeff (v : Vec3) : ℚ := max (max v.x v.y) v.z

/-- The function `Body::setSemiAxes(semiAxes)`. -/
def Body.setSemiAxes (K : Constants) (b : Body) (semiAxes : Vec3) : Body :=
  Body.recomputeCullingRadius K { b with semiAxes := semiAxes, radius := semiAxes.maxCoeff }

/-- The function `Body::setGeometry(geometry)`. -/
def Body.setGeometry (b : Body) (geometry : Nat) : Body :=
  { b with geometry := geometry }

/-- The function `Body::setRings(rings)`. -/
def Body.setRings (K : Constants) (b : Body) (rings : RingSystem) : Body :=
  Body.recomputeCullingRadius K { b with rings := some rings }

/-- The function `Body::setAtmosphere(atmosphere)`. -/
def Body.setAtmosphere (K : Constants) (b : Body) (atmosphere : Atmosphere) : Body :=
  Body.recomputeCullingRadius K { b with atmosphere := some atmosphere }

/-- The function `Body::setClassification(classification)`. -/
def Body.setClassification (K : Constants) (b : Body) (classification : Nat) : Body :=
  Body.markChanged (Body.recomputeCullingRadius K { b with classification := classification })

/-- The function `Body::addReferenceMark(refMark)`. -/
def Body.addReferenceMark (K : Constants) (b : Body) (refMark : ReferenceMark) : Body :=
  let marks := match b.referenceMarks with
    | some marks => marks
    | none => []
  Body.recomputeCullingRadius K { b with referenceMarks := some (marks ++ [refMark]) }

/-- The assignments of `Body::setDefaultProperties()`, before the culling radius is
recomputed. -/
def Body.withDefaults (K : Constants) (b : Body) : Body :=
  { b with
    radius := 1
    semiAxes := ⟨1, 1, 1⟩
    mass := 0
    density := 0
    bondAlbedo := 1 / 2
    geomAlbedo := 1 / 2
    reflectivity := 1 / 2
    temperature := 0
    tempDiscrepancy := 0
    geometryOrientation := Quat.identity
    geometry := K.InvalidResource
    surface := Surface.white
    atmosphere := none
    rings := none
    classification := K.Unknown
    visible := true
    clickable := true
    visibleAsPoint := true
    overrideOrbitColor := false
    orbitVisibility := VisibilityPolicy.UseClassVisibility }

/-- The function `Body::setDefaultProperties()`. -/
def Body.setDefaultProperties (K : Constants) (b : Body) : Body :=
  Body.recomputeCullingRadius K (Body.withDefaults K b)

/-- The function `Body::getSemiAxes()`. -/
def Body.getSemiAxes (b : Body) : Vec3 := b.semiAxes

/-- The function `Body::getRadius()`. -/
def Body.getRadius (b : Body) : ℚ := b.radius

/-- The function `Body::getReflectivity()`. -/
def Body.getReflectivity (b : Body) : ℚ := b.reflectivity

/-- The function `Body::isSphere()`. -/
def Body.isSphere (K : Constants) (b : Body) : Bool :=
  decide (b.geometry = K.InvalidResource) &&
    decide (b.semiAxes.x = b.semiAxes.y) && decide (b.semiAxes.x = b.semiAxes.z)

/-- The function `Body::isEllipsoid()`. -/
def Body.isEllipsoid (K : Constants) (b : Body) : Bool :=
  decide (b.geometry = K.InvalidResource)

/-- The function `Body::findReferenceMark(tag)`: the first mark of the list with the tag,
or the null pointer. -/
def Body.findReferenceMark (b : Body) (tag : String) : Option ReferenceMark :=
  match b.referenceMarks with
  | some marks => marks.find? (fun rm => decide (rm.getTag = tag))
  | none => none

/-- The function `Body::removeReferenceMark(tag)`; the member `remove` of the list takes
out every element that equals the pointer found. -/
def Body.removeReferenceMark (K : Constants) (b : Body) (tag : String) : Body :=
  match b.referenceMarks with
  | some marks =>
    match b.findReferenceMark tag with
    | some refMark =>
      Body.recomputeCullingRadius K
        { b with
          referenceMarks := some (marks.filter (fun rm => decide (rm.address ≠ refMark.address))) }
    | none => b
  | none => b

/-- Constants and functions that `getLuminosity` takes from headers outside of the
sources: `astro::SOLAR_POWER` (astro.h), `sphereArea` and `circleArea` (mathlib.h). -/
structure Astro where
  SOLAR_POWER : ℚ
  sphereArea : ℚ → ℚ
  circleArea : ℚ → ℚ

/-- The solar power in watts, and the areas with 355/113 for the circle constant. -/
def Astro.celestia : Astro where
  SOLAR_POWER := 384620000000000000000000000
  sphereArea := fun r => 4 * (355 / 113) * r * r
  circleArea := fun r => (355 / 113) * r * r

/-- Division of floating-point numbers: a zero divisor gives an infinity or a NaN, which
is not a rational number and is `none` here. -/
def fdiv (a b : ℚ) : Option ℚ := if b = 0 then none else some (a / b)

/-- The function `Body::getLuminosity(sunLuminosity, distanceFromSun)`; `none` is a result
that is not a finite number. -/
def Body.getLuminosity (A : Astro) (b : Body) (sunLuminosity distanceFromSun : ℚ) :
    Option ℚ :=
  let power := A.SOLAR_POWER * sunLuminosity
  match fdiv power (A.sphereArea (distanceFromSun * 1000)) with
  | none => none
  | some satIrradiance =>
    let incidentEnergy := satIrradiance * A.circleArea (b.radius * 1000)
    let reflectedEnergy := incidentEnergy * b.getReflectivity
    fdiv reflectedEnergy A.SOLAR_POWER

/-- The cached culling radius is the one `recomputeCullingRadius` would compute from the
attributes of the body. -/
def Body.cullingRadiusCurrent (K : Constants) (b : Body) : Prop :=
  b.getCullingRadius = b.computedCullingRadius K

/-! ## Names of a body -/

/-- The function `Body::getNames()`: the primary name followed by the aliases. -/
def Body.getNames (b : Body) : List String := b.primaryName :: b.aliases

/-- The function `Body::hasLocalizedName()`. -/
def Body.hasLocalizedName (b : Body) : Bool := b.primaryNameLocalized

/-- The function `Body::getName(i18n)`. -/
def Body.getName (b : Body) (i18n : Bool) : String :=
  if i18n && b.hasLocalizedName then b.localizedName else b.primaryName

/-- The function `Body::getLocalizedName()`. -/
def Body.getLocalizedName (b : Body) : String :=
  if b.hasLocalizedName then b.localizedName else b.primaryName

/-- The function `Body::getSatellites()`. -/
def Body.getSatellites (b : Body) : Option Nat := b.satellites

/-! ## Planetary systems -/

/-- String functions and declarations that `body.cpp` takes from headers outside of the
sources: `UTF8StringCompare` with two and with three arguments and `UTF8Length` (utf8.h),
the translation `D_` (gettext.h), and the default value of the last parameter of
`PlanetarySystem::getCompletion` (body.h). -/
structure Strings where
  UTF8StringCompare : String → String → Int
  UTF8StringCompareN : String → String → Nat → Int
  UTF8Length : String → Nat
  D_ : String → String
  getCompletionDefault : Bool

/-- Modelled from the spec: `ObjectIndex` (body.h is not part of the sources), the index
from names to bodies with exact lookup; a `std::map`, so no key occurs twice. The order of
the entries stands for the order of iteration, which the ordering of the map fixes. -/
structure ObjectIndex where
  entries : List (String × Nat)
  nodup : (entries.map Prod.fst).Nodup

/-- Lookup in a list of entries: the body of the first entry with the key. -/
def ObjectIndex.lookup (name : String) : List (String × Nat) → Option Nat
  | [] => none
  | e :: rest => if e.1 = name then some e.2 else ObjectIndex.lookup name rest

/-- The member `find(name)` of the index, as the body found. -/
def ObjectIndex.find (idx : ObjectIndex) (name : String) : Option Nat :=
  ObjectIndex.lookup name idx.entries

/-- The member `insert(make_pair(name, body))` of the index: an index that already has the
key is left as it is. -/
def ObjectIndex.insert (idx : ObjectIndex) (name : String) (body : Nat) : ObjectIndex :=
  if h : name ∈ idx.entries.map Prod.fst then idx
  else
    { entries := idx.entries ++ [(name, body)]
      nodup := by
        rw [List.map_append, List.nodup_append]
        refine ⟨idx.nodup, List.nodup_singleton _, ?_⟩
        intro a ha hb
        rw [List.map_cons, List.map_nil, List.mem_singleton] at hb
        have hname : a = name := hb
        subst hname
        exact h ha }

/-- The member `erase(iter)` of the index, for the iterator that `find(name)` returned. -/
def ObjectIndex.erase (idx : ObjectIndex) (name : String) : ObjectIndex where
  entries := idx.entries.filter (fun e => decide (e.1 ≠ name))
  nodup := (List.filter_sublist idx.entries).map Prod.fst |>.nodup idx.nodup

/-- The planetary system: the star, the primary body, the list of satellites and the
index of bodies by name. -/
structure PlanetarySystem where
  star : Option Nat := none
  primary : Option Nat := none
  satellites : List Nat := []
  objectIndex : ObjectIndex := ⟨[], List.nodup_nil⟩

/-- The bodies and the planetary systems that pointers refer to. -/
structure World where
  bodies : Nat → Body
  systems : Nat → PlanetarySystem

/-- The function `PlanetarySystem::addAlias(body, alias)`; the assertion on the system of
the body is not modelled. -/
def PlanetarySystem.addAlias (sys : PlanetarySystem) (body : Nat) (aliasName : String) :
    PlanetarySystem :=
  { sys with objectIndex := sys.objectIndex.insert aliasName body }

/-- The function `PlanetarySystem::removeAlias(body, alias)`. -/
def PlanetarySystem.removeAlias (sys : PlanetarySystem) (body : Nat) (aliasName : String) :
    PlanetarySystem :=
  match sys.objectIndex.find aliasName with
  | some found =>
    if found = body then { sys with objectIndex := sys.objectIndex.erase aliasName } else sys
  | none => sys

/-- The function `PlanetarySystem::addBodyToNameIndex(body)`. -/
def PlanetarySystem.addBodyToNameIndex (bodies : Nat → Body) (sys : PlanetarySystem)
    (body : Nat) : PlanetarySystem :=
  (bodies body).getNames.foldl
    (fun s name => { s with objectIndex := s.objectIndex.insert name body }) sys

/-- The function `PlanetarySystem::removeBodyFromNameIndex(body)`. -/
def PlanetarySystem.removeBodyFromNameIndex (bodies : Nat → Body) (sys : PlanetarySystem)
    (body : Nat) : PlanetarySystem :=
  (bodies body).getNames.foldl (fun s name => s.removeAlias body name) sys

/-- Assignment through the iterator that `std::find` returns: the first occurrence of
`old` becomes `new`. -/
def replaceFirst (old new : Nat) : List Nat → List Nat
  | [] => []
  | x :: rest => if x = old then new :: rest else x :: replaceFirst old new rest

/-- The function `PlanetarySystem::replaceBody(oldBody, newBody)`. -/
def PlanetarySystem.replaceBody (bodies : Nat → Body) (sys : PlanetarySystem)
    (oldBody newBody : Nat) : PlanetarySystem :=
  let sys := { sys with satellites := replaceFirst oldBody newBody sys.satellites }
  let sys := sys.removeBodyFromNameIndex bodies oldBody
  sys.addBodyToNameIndex bodies newBody

/-- The loop over the satellites in `PlanetarySystem::find`; `findIn` is the recursive call
on the system of a satellite. The outer `none` means that a recursive call ran out of
fuel, `some none` is the null pointer. -/
def PlanetarySystem.findInSatellites (W : World) (E : Strings)
    (findIn : Nat → Option (Option Nat)) (name : String) (i18n : Bool) :
    List Nat → Option (Option Nat)
  | [] => some none
  | sat :: rest =>
    if E.UTF8StringCompare ((W.bodies sat).getName false) name = 0 then some (some sat)
    else if i18n && decide (E.UTF8StringCompare ((W.bodies sat).getName true) name = 0) then
      some (some sat)
    else
      match (W.bodies sat).getSatellites with
      | some sub =>
        match findIn sub with
        | none => none
        | some (some body) => some (some body)
        | some none => PlanetarySystem.findInSatellites W E findIn name i18n rest
      | none => PlanetarySystem.findInSatellites W E findIn name i18n rest

/-- The first part of `PlanetarySystem::find`: the index lookup, and the body it returns
when the hit is not rejected. -/
def PlanetarySystem.findInIndex (W : World) (sys : PlanetarySystem) (name : String)
    (i18n : Bool) : Option Nat :=
  match sys.objectIndex.find name with
  | some matchedBody =>
    if i18n then some matchedBody
    else if !(W.bodies matchedBody).hasLocalizedName ||
        decide (name ≠ (W.bodies matchedBody).getLocalizedName) then some matchedBody
    else none
  | none => none

/-- The function `PlanetarySystem::find(name, deepSearch, i18n)` of system `s`; `fuel`
bounds the depth of the recursion through the satellite systems. -/
def PlanetarySystem.find (W : World) (E : Strings) :
    Nat → Nat → String → Bool → Bool → Option (Option Nat)
  | 0, _, _, _, _ => none
  | fuel + 1, s, name, deepSearch, i18n =>
    match PlanetarySystem.findInIndex W (W.systems s) name i18n with
    | some matchedBody => some (some matchedBody)
    | none =>
      if deepSearch then
        PlanetarySystem.findInSatellites W E
          (fun sub => PlanetarySystem.find W E fuel sub name deepSearch i18n) name i18n
          (W.systems s).satellites
      else some none

/-- The loop over the index in `PlanetarySystem::getCompletion`. -/
def PlanetarySystem.completionOfIndex (E : Strings) (name : String) (i18n : Bool) :
    List (String × Nat) → List String
  | [] => []
  | e :: rest =>
    let key := e.1
    let here :=
      if E.UTF8StringCompareN key name (E.UTF8Length name) = 0 then [key]
      else if i18n then
        let lname := E.D_ key
        if lname ≠ key ∧ E.UTF8StringCompareN lname name (E.UTF8Length name) = 0 then
          [lname]
        else []
      else []
    here ++ PlanetarySystem.completionOfIndex E name i18n rest

/-- The loop over the satellites in `PlanetarySystem::getCompletion`; `completionIn` is the
recursive call on the system of a satellite. -/
def PlanetarySystem.completionOfSatellites (W : World)
    (completionIn : Nat → Option (List String)) : List Nat → Option (List String)
  | [] => some []
  | sat :: rest =>
    match (W.bodies sat).getSatellites with
    | some sub =>
      match completionIn sub, PlanetarySystem.completionOfSatellites W completionIn rest with
      | some bodies, some more => some (bodies ++ more)
      | _, _ => none
    | none => PlanetarySystem.completionOfSatellites W completionIn rest

/-- The function `PlanetarySystem::getCompletion(name, i18n, deepSearch)` of system `s`;
the recursive call leaves the last parameter to its default value. -/
def PlanetarySystem.getCompletion (W : World) (E : Strings) :
    Nat → Nat → String → Bool → Bool → Option (List String)
  | 0, _, _, _, _ => none
  | fuel + 1, s, name, i18n, deepSearch =>
    let completion :=
      PlanetarySystem.completionOfIndex E name i18n (W.systems s).objectIndex.entries
    if deepSearch then
      (PlanetarySystem.completionOfSatellites W
        (fun sub => PlanetarySystem.getCompletion W E fuel sub name i18n
          E.getCompletionDefault) (W.systems s).satellites).map (fun more => completion ++ more)
    else some completion

/-- The function `PlanetarySystem::addBody(body)`. -/
def PlanetarySystem.addBody (bodies : Nat → Body) (sys : PlanetarySystem) (body : Nat) :
    PlanetarySystem :=
  PlanetarySystem.addBodyToNameIndex bodies
    { sys with satellites := sys.satellites ++ [body] } body

/-- The position of the first occurrence of `body`, as `std::find` over the satellites
gives it. -/
def firstIndex (body : Nat) : List Nat → Option Nat
  | [] => none
  | x :: rest => if x = body then some 0 else (firstIndex body rest).map (fun i => i + 1)

/-- The function `PlanetarySystem::getOrder(body)`. -/
def PlanetarySystem.getOrder (sys : PlanetarySystem) (body : Nat) : Int :=
  match firstIndex body sys.satellites with
  | none => -1
  | some i => (i : Int)

/-- The world after the system `s` was replaced by `sys`. -/
def World.setSystem (W : World) (s : Nat) (sys : PlanetarySystem) : World :=
  { W with systems := fun t => if t = s then sys else W.systems t }

/-- The world after `replaceBody(oldBody, newBody)` on system `s`. -/
def World.replaceBody (W : World) (s oldBody newBody : Nat) : World :=
  W.setSystem s ((W.systems s).replaceBody W.bodies oldBody newBody)

/-- The satellite systems at any depth below a system, the system itself included. -/
inductive World.SystemBelow (W : World) : Nat → Nat → Prop where
  | refl (s : Nat) : World.SystemBelow W s s
  | step (s sat sub t : Nat) :
      sat ∈ (W.systems s).satellites → (W.bodies sat).getSatellites = some sub →
      World.SystemBelow W sub t → World.SystemBelow W s t

/-- Body `b` is a satellite at some depth below system `s`. -/
def World.Below (W : World) (s b : Nat) : Prop :=
  ∃ t, World.SystemBelow W s t ∧ b ∈ (W.systems t).satellites

/-- Body `r` is a legitimate result of a search for `name` from system `s` that ignores
localized names: in a system below `s` (or `s` itself) the index maps `name` to `r`, or
`r` is a satellite there whose primary name compares equal to `name`. -/
def World.FoundFor (W : World) (E : Strings) (s : Nat) (name : String) (r : Nat) : Prop :=
  ∃ t, World.SystemBelow W s t ∧
    ((W.systems t).objectIndex.find name = some r ∨
      (r ∈ (W.systems t).satellites ∧
        E.UTF8StringCompare ((W.bodies r).getName false) name = 0))

/-- The string `x` has the prefix `name`, as `getCompletion` tests it: the comparison of
the first `UTF8Length(name)` characters gives equality. -/
def Strings.hasPrefix (E : Strings) (name x : String) : Prop :=
  E.UTF8StringCompareN x name (E.UTF8Length name) = 0

/-- The string `x` is offered for the index key `key`: it is the key when the key has the
prefix; otherwise, with `i18n`, it is the translation of the key when that differs from
the key and has the prefix. -/
def Strings.offers (E : Strings) (name : String) (i18n : Bool) (key x : String) : Prop :=
  (E.hasPrefix name key ∧ x = key) ∨
    (¬ E.hasPrefix name key ∧ i18n = true ∧ E.D_ key ≠ key ∧ E.hasPrefix name (E.D_ key) ∧
      x = E.D_ key)

/-- The tree of satellite systems below system `s` has at most `d` levels under `s`. -/
def World.depthLe (W : World) : Nat → Nat → Bool
  | 0, s => (W.systems s).satellites.all (fun sat => (W.bodies sat).getSatellites.isNone)
  | d + 1, s =>
    (W.systems s).satellites.all (fun sat =>
      match (W.bodies sat).getSatellites with
      | some sub => World.depthLe W d sub
      | none => true)

/-! ## A concrete system: a star, a planet, a moon and a probe -/

/-- A unit quaternion that is not its own conjugate. -/
def Example.tilt : Quat := ⟨3 / 5, 4 / 5, 0, 0⟩

/-- A frame with a fixed orientation and a fixed angular velocity. -/
def Example.fixedFrame (center : Selection) (inertial : Bool) (q : Quat) (w : Vec3) :
    ReferenceFrame where
  getCenter := center
  isInertial := inertial
  getOrientation := fun _ => q
  getAngularVelocity := fun _ => w

/-- A rotation model whose orientation differs from its spin. -/
def Example.rotation : RotationModel where
  orientationAtTime := fun _ => Example.tilt
  angularVelocityAtTime := fun _ => ⟨0, 1, 0⟩
  spin := fun _ => Quat.identity
  equatorOrientationAtTime := fun _ => Example.tilt

/-- A phase over `[startTime, endTime)` with a fixed offset and velocity in its orbit
frame, and a tilted body frame that is inertial exactly when the orbit frame is. -/
def Example.phase (startTime endTime : ℚ) (orbitFrame : ReferenceFrame) (pos vel : Vec3) :
    TimelinePhase where
  startTime := startTime
  endTime := endTime
  orbitFrame := orbitFrame
  orbit := { positionAtTime := fun _ => pos, velocityAtTime := fun _ => vel }
  bodyFrame :=
    Example.fixedFrame orbitFrame.getCenter orbitFrame.isInertial Example.tilt ⟨0, 0, 1⟩
  rotationModel := Example.rotation

/-- The timeline of the planet (body 1): one phase, around star 0. -/
def Example.planetTimeline : Timeline where
  first := Example.phase 0 100
    (Example.fixedFrame (.star 0) true Quat.identity Vec3.zero) ⟨10, 0, 0⟩ ⟨0, 2, 0⟩
  rest := []

/-- The timeline of the moon (body 2): one phase, in a tilted frame around the planet. -/
def Example.moonTimeline : Timeline where
  first := Example.phase 0 100
    (Example.fixedFrame (.body 1) true Example.tilt Vec3.zero) ⟨0, 1, 0⟩ ⟨0, 0, 1⟩
  rest := []

/-- The timeline of the probe (body 3): one phase, in a rotating frame around the
planet. -/
def Example.probeTimeline : Timeline where
  first := Example.phase 0 100
    (Example.fixedFrame (.body 1) false Quat.identity ⟨0, 0, 1⟩) ⟨1, 0, 0⟩ ⟨0, 0, 0⟩
  rest := []

/-- The timeline of a body whose orbit frame is centred on body `c`. -/
def Example.aroundBody (c : Nat) : Timeline where
  first := Example.phase 0 100
    (Example.fixedFrame (.body c) true Quat.identity Vec3.zero) ⟨1, 0, 0⟩ ⟨0, 0, 0⟩
  rest := []

/-- A timeline of three phases `[0, 10)`, `[10, 20)`, `[20, 30)`. -/
def Example.threePhases : Timeline where
  first := Example.phase 0 10
    (Example.fixedFrame (.star 0) true Quat.identity Vec3.zero) ⟨1, 0, 0⟩ ⟨0, 0, 0⟩
  rest :=
    [Example.phase 10 20
      (Example.fixedFrame (.star 0) true Quat.identity Vec3.zero) ⟨2, 0, 0⟩ ⟨0, 0, 0⟩,
     Example.phase 20 30
      (Example.fixedFrame (.star 0) true Quat.identity Vec3.zero) ⟨3, 0, 0⟩ ⟨0, 0, 0⟩]

/-- The system: star 0 at a fixed place, planet 1, moon 2, probe 3 and body 4 with three
phases; body 5 is centred on itself, and bodies 6 and 7 are centred on each other;
coordinates are plain vectors, so `offsetKm` is vector addition. -/
def Example.universe : Universe Vec3 where
  timeline := fun b =>
    match b with
    | 2 => Example.moonTimeline
    | 3 => Example.probeTimeline
    | 4 => Example.threePhases
    | 5 => Example.aroundBody 5
    | 6 => Example.aroundBody 7
    | 7 => Example.aroundBody 6
    | _ => Example.planetTimeline
  starPosition := fun _ _ => ⟨1000, 0, 0⟩
  starVelocity := fun _ _ => ⟨0, 0, 5⟩
  barycenterPosition := fun _ _ => Vec3.zero
  barycenterVelocity := fun _ _ => Vec3.zero
  origin := Vec3.zero
  offsetKm := fun u v => u + v
  offsetFromKm := fun a b => a - b

/-- A planet of radius 6378 km with an atmosphere 60 km high and clouds at 7 km. -/
def Example.earth : Body where
  radius := 6378
  semiAxes := ⟨6378, 6378, 6378⟩
  geometry := Constants.celestia.InvalidResource
  atmosphere := some ⟨60, 7⟩
  classification := Constants.celestia.Planet
  timeline := some 0

/-- A body of radius 1 without geometry, atmosphere, rings or marks, whose cached culling
radius is current, and which holds timeline 0. -/
def Example.unitBody : Body where
  geometry := Constants.celestia.InvalidResource
  classification := Constants.celestia.Planet
  timeline := some 0
  cullingRadius := 1

/-- A reference mark with bounding radius zero. -/
def Example.smallMark : ReferenceMark := { getTag := "axes", boundingSphereRadius := 0 }

/-- The unit body with three reference marks: "grid", then two marks "axes". -/
def Example.marked : Body :=
  { Example.unitBody with
    referenceMarks := some
      [{ getTag := "grid", boundingSphereRadius := 1, address := 1 },
       { getTag := "axes", boundingSphereRadius := 2, address := 2 },
       { getTag := "axes", boundingSphereRadius := 3, address := 3 }] }

/-- A body of radius 1 with a mesh (geometry 7), whose cached culling radius is current. -/
def Example.meshed : Body where
  geometry := 7
  classification := Constants.celestia.Planet
  timeline := some 0
  cullingRadius := 17320508 / 10000000

/-- The meshed body after its mesh was taken away by `setGeometry`. -/
def Example.unmeshed : Body :=
  Body.setGeometry Example.meshed Constants.celestia.InvalidResource

/-! ## A concrete tree of planetary systems -/

/-- Exact comparison of strings, comparison of the first `n` characters, and a
translation that knows one word. -/
def Example.strings : Strings where
  UTF8StringCompare := fun a b => if a = b then 0 else 1
  UTF8StringCompareN := fun a b n => if a.data.take n = b.data.take n then 0 else 1
  UTF8Length := fun s => s.data.length
  D_ := fun s => if s = "Mars" then "Marte" else s
  getCompletionDefault := true

/-- A body with the given names and satellite system. -/
def Example.named (primaryName : String) (aliases : List String)
    (satellites : Option Nat) : Body where
  geometry := Constants.celestia.InvalidResource
  classification := Constants.celestia.Planet
  primaryName := primaryName
  aliases := aliases
  satellites := satellites

/-- System 0 holds Mars (body 1, also known by its localized name "Marte"), Vesta (body 4,
with the alias "Luna") and body 6; Mars has system 1 with Phobos (body 2), which has
system 2 with Stickney (body 3). Body 5, "Moon" with the alias "Luna", is in no system.
System 3 holds Mars alone and knows it by its primary name only. -/
def Example.world : World where
  bodies := fun b =>
    match b with
    | 1 => { Example.named "Mars" ["Marte"] (some 1) with
              localizedName := "Marte", primaryNameLocalized := true }
    | 2 => Example.named "Phobos" [] (some 2)
    | 3 => Example.named "Stickney" ["Crater"] none
    | 4 => Example.named "Vesta" ["Luna"] none
    | 5 => Example.named "Moon" ["Luna"] none
    | _ => Example.named "Old" [] none
  systems := fun s =>
    match s with
    | 0 =>
      { satellites := [1, 4, 6]
        objectIndex :=
          ⟨[("Mars", 1), ("Marte", 1), ("Vesta", 4), ("Luna", 4), ("Old", 6)], by decide⟩ }
    | 1 => { satellites := [2], objectIndex := ⟨[("Phobos", 2)], by decide⟩ }
    | 2 => { satellites := [3], objectIndex := ⟨[("Stickney", 3), ("Crater", 3)], by decide⟩ }
    | 3 => { satellites := [1], objectIndex := ⟨[("Mars", 1)], by decide⟩ }
    | _ => {}

/-- A comparison of strings that ignores the case of the letters, as a normalising
`UTF8StringCompare` does; the translation knows one word, "mars", which it capitalises. -/
def Example.folding : Strings where
  UTF8StringCompare := fun a b =>
    if a.data.map Char.toLower = b.data.map Char.toLower then 0 else 1
  UTF8StringCompareN := fun a b n =>
    if (a.data.take n).map Char.toLower = (b.data.take n).map Char.toLower then 0 else 1
  UTF8Length := fun s => s.data.length
  D_ := fun s => if s = "mars" then "Mars" else s
  getCompletionDefault := true

/-- A system whose only satellite, body 1, has the primary name "mars", the localized name
"Mars" and the alias "Mars"; the index knows it by both names. -/
def Example.foldingWorld : World where
  bodies := fun _ =>
    { Example.named "mars" ["Mars"] none with
      localizedName := "Mars", primaryNameLocalized := true }
  systems := fun s =>
    match s with
    | 0 => { satellites := [1], objectIndex := ⟨[("mars", 1), ("Mars", 1)], by decide⟩ }
    | _ => {}

/-! ## The resource manager (`resmanager.h`) -/

/-- The enumeration `ResourceState`. -/
inductive ResourceState
  | ResourceNotLoaded
  | ResourceLoaded
  | ResourceLoadingFailed
  deriving DecidableEq, Repr

/-- The class template `ResourceInfo<T>`, as a class derived from it sees it: `data` stands
for the members that the derived class adds. A path is a string; a resource pointer is
`none` for the null pointer and `some` of an address otherwise. The defaults of `state`
and `resource` are what the constructor sets. -/
structure ResourceInfo (D : Type) where
  data : D
  state : ResourceState := ResourceState.ResourceNotLoaded
  resolvedName : String := ""
  resource : Option Nat := none
  deriving DecidableEq

/-- What a class `T` derived from `ResourceInfo` supplies to `ResourceManager<T>`: the
`operator<` that orders the keys of the handle map, and the two virtual functions
`resolve(baseDir)` and `load(resolvedName)`, called on an info. -/
structure InfoClass (D : Type) where
  lt : ResourceInfo D → ResourceInfo D → Bool
  resolve : ResourceInfo D → String → String
  load : ResourceInfo D → String → Option Nat

/-- Key equivalence of `std::map`: neither key is less than the other. -/
def InfoClass.equiv {D : Type} (C : InfoClass D) (a b : ResourceInfo D) : Bool :=
  !C.lt a b && !C.lt b a

/-- The requirement of `std::map` on its comparison: a strict weak ordering. -/
structure InfoClass.StrictWeakOrder {D : Type} (C : InfoClass D) : Prop where
  irrefl : ∀ a, C.lt a a = false
  trans : ∀ a b c, C.lt a b = true → C.lt b c = true → C.lt a c = true
  equiv_trans : ∀ a b c, C.equiv a b = true → C.equiv b c = true → C.equiv a c = true

/-- The member `find(key)` of `std::map`, on the entries of the map in the order of their
insertion: the entry whose key is equivalent to `key`, or `none` for `end()`. -/
def mapFind {κ V : Type} (same : κ → κ → Bool) (m : List (κ × V)) (key : κ) :
    Option (κ × V) :=
  m.find? (fun e => same e.1 key)

/-- The member `insert(value)` of `std::map`: nothing is inserted when the map has an
entry with an equivalent key. -/
def mapInsert {κ V : Type} (same : κ → κ → Bool) (m : List (κ × V)) (e : κ × V) :
    List (κ × V) :=
  match mapFind same m e.1 with
  | some _ => m
  | none => m ++ [e]

/-- Equality of paths, the key equivalence of the map `loadedResources`. -/
def samePath (a b : String) : Bool := decide (a = b)

/-- The class template `ResourceManager<T>`. A `ResourceHandle` is an `int`. The two lists
`resolveCalls` and `loadCalls` are not in the source: they record, in order, the handles
for which `find` called `resolve` and `load`. -/
structure ResourceManager (D : Type) where
  baseDir : String
  resources : List (ResourceInfo D) := []
  handles : List (ResourceInfo D × Int) := []
  loadedResources : List (String × Option Nat) := []
  resolveCalls : List Int := []
  loadCalls : List Int := []
  deriving DecidableEq

/-- The constructor `ResourceManager(baseDir)`. -/
def ResourceManager.create (D : Type) (baseDir : String) : ResourceManager D :=
  { baseDir := baseDir }

/-- The function `ResourceManager::getHandle(info)`: the handle returned and the manager
afterwards. -/
def ResourceManager.getHandle {D : Type} (C : InfoClass D) (M : ResourceManager D)
    (info : ResourceInfo D) : Int × ResourceManager D :=
  match mapFind C.equiv M.handles info with
  | some e => (e.2, M)
  | none =>
    let h : Int := (M.handles.length : Int)
    (h, { M with
            resources := M.resources ++ [info]
            handles := mapInsert C.equiv M.handles (info, h) })

/-- The last statement of `ResourceManager::find`: the resource of the entry when its state
is `ResourceLoaded`, the null pointer otherwise. -/
def ResourceInfo.returned {D : Type} (r : ResourceInfo D) : Option Nat :=
  if r.state = ResourceState.ResourceLoaded then r.resource else none

/-- The function `ResourceManager::find(h)`: the pointer returned and the manager
afterwards. The branch of the `match` for `none` is an access outside the vector
`resources`; it is not reached while `resources` and `handles` have the same size. -/
def ResourceManager.find {D : Type} (C : InfoClass D) (M : ResourceManager D) (h : Int) :
    Option Nat × ResourceManager D :=
  if h ≥ (M.handles.length : Int) ∨ h < 0 then (none, M)
  else
    match M.resources[h.toNat]? with
    | none => (none, M)
    | some r =>
      if r.state = ResourceState.ResourceNotLoaded then
        let name := C.resolve r M.baseDir
        let r1 : ResourceInfo D := { r with resolvedName := name }
        match mapFind samePath M.loadedResources name with
        | some e =>
          let r2 : ResourceInfo D :=
            { r1 with resource := e.2, state := ResourceState.ResourceLoaded }
          (r2.returned,
            { M with
                resources := M.resources.set h.toNat r2
                resolveCalls := M.resolveCalls ++ [h] })
        | none =>
          match C.load r1 name with
          | none =>
            let r2 : ResourceInfo D :=
              { r1 with resource := none, state := ResourceState.ResourceLoadingFailed }
            (r2.returned,
              { M with
                  resources := M.resources.set h.toNat r2
                  resolveCalls := M.resolveCalls ++ [h]
                  loadCalls := M.loadCalls ++ [h] })
          | some p =>
            let r2 : ResourceInfo D :=
              { r1 with resource := some p, state := ResourceState.ResourceLoaded }
            (r2.returned,
              { M with
                  resources := M.resources.set h.toNat r2
                  loadedResources := mapInsert samePath M.loadedResources (name, some p)
                  resolveCalls := M.resolveCalls ++ [h]
                  loadCalls := M.loadCalls ++ [h] })
      else (r.returned, M)

/-- The function `ResourceManager::getResourceInfo(h)`; `none` is the null pointer. -/
def ResourceManager.getResourceInfo {D : Type} (M : ResourceManager D) (h : Int) :
    Option (ResourceInfo D) :=
  if h ≥ (M.handles.length : Int) ∨ h < 0 then none else M.resources[h.toNat]?

/-- A call of one of the two mutating member functions of a resource manager. -/
inductive Call (D : Type)
  | getHandle (info : ResourceInfo D)
  | find (h : Int)

/-- The manager after a call. -/
def ResourceManager.call {D : Type} (C : InfoClass D) (M : ResourceManager D) :
    Call D → ResourceManager D
  | Call.getHandle info => (M.getHandle C info).2
  | Call.find h => (M.find C h).2

/-- The manager after a sequence of calls. -/
def ResourceManager.run {D : Type} (C : InfoClass D) (M : ResourceManager D)
    (calls : List (Call D)) : ResourceManager D :=
  calls.foldl (fun m c => m.call C c) M

/-- An info in the state in which the constructor of `ResourceInfo` leaves it: not loaded,
with a null resource. -/
def ResourceInfo.constructed {D : Type} (info : ResourceInfo D) : Prop :=
  info.state = ResourceState.ResourceNotLoaded ∧ info.resource = none

/-- Every info that the calls pass to `getHandle` is in the state of the constructor. -/
def Call.constructed {D : Type} : Call D → Prop
  | Call.getHandle info => info.constructed
  | Call.find _ => True

/-- The handles that a sequence of `getHandle` calls returns, and the manager afterwards. -/
def ResourceManager.getHandles {D : Type} (C : InfoClass D) :
    ResourceManager D → List (ResourceInfo D) → List Int × ResourceManager D
  | M, [] => ([], M)
  | M, info :: rest =>
    let first := M.getHandle C info
    let others := ResourceManager.getHandles C first.2 rest
    (first.1 :: others.1, others.2)

/-- The distinct infos of a sequence in the order of their first occurrence: an info is
dropped when an equivalent one came before it. `acc` holds the distinct infos so far. -/
def InfoClass.distinctFrom {D : Type} (C : InfoClass D) (acc : List (ResourceInfo D)) :
    List (ResourceInfo D) → List (ResourceInfo D)
  | [] => acc
  | info :: rest =>
    if acc.any (fun r => C.equiv r info) then C.distinctFrom acc rest
    else C.distinctFrom (acc ++ [info]) rest

/-- The distinct infos of a sequence in the order of their first occurrence. -/
def InfoClass.distinct {D : Type} (C : InfoClass D) (infos : List (ResourceInfo D)) :
    List (ResourceInfo D) :=
  C.distinctFrom [] infos

/-- The path that the info of the handle `h` resolves to: the path that `find` recorded
in `resolvedName`, or what `resolve` returns as long as the info is not loaded. -/
def ResourceManager.resolvedPath {D : Type} (C : InfoClass D) (M : ResourceManager D)
    (h : Int) : Option String :=
  match M.getResourceInfo h with
  | none => none
  | some r =>
    if r.state = ResourceState.ResourceNotLoaded then some (C.resolve r M.baseDir)
    else some r.resolvedName

/-- The state of the info of the handle `h`. -/
def ResourceManager.stateOf {D : Type} (M : ResourceManager D) (h : Int) :
    Option ResourceState :=
  (M.getResourceInfo h).map (fun r => r.state)

/-- An info class for the examples: texture infos named by a number, ordered by it; all
of them resolve to the one file "tex.png" in the base directory, and loading fails for
the info with the number 2 and gives the resource 7 for the others. -/
def Example.textures : InfoClass Nat where
  lt := fun a b => decide (a.data < b.data)
  resolve := fun _ baseDir => baseDir ++ "/tex.png"
  load := fun r _ => if r.data = 2 then none else some 7

/-- The consistency of the tables of a resource manager, kept by `getHandle` and `find`:
the two tables have the same size; a loaded info holds a non-null resource, which the
map `loadedResources` has under the resolved name of the info; every entry of that map
is a non-null resource held by a loaded info; `resolve` and `load` were called at most
once for a handle, and only for handles whose info is no longer in the state
`ResourceNotLoaded`. -/
structure ResourceManager.Sound {D : Type} (M : ResourceManager D) : Prop where
  sizes : M.resources.length = M.handles.length
  loaded : ∀ r ∈ M.resources, r.state = ResourceState.ResourceLoaded →
    ∃ x, r.resource = some x ∧
      mapFind samePath M.loadedResources r.resolvedName = some (r.resolvedName, some x)
  held : ∀ e ∈ M.loadedResources, ∃ x, e.2 = some x ∧
    ∃ r ∈ M.resources, r.state = ResourceState.ResourceLoaded ∧ r.resolvedName = e.1 ∧
      r.resource = some x
  resolved : ∀ h ∈ M.resolveCalls, ∃ (k : Nat) (r : ResourceInfo D), h = (k : Int) ∧
    M.resources[k]? = some r ∧ r.state ≠ ResourceState.ResourceNotLoaded
  loadedSub : ∀ h ∈ M.loadCalls, h ∈ M.resolveCalls
  resolveOnce : M.resolveCalls.Nodup
  loadOnce : M.loadCalls.Nodup

instance ResourceInfo.decidableConstructed {D : Type} (info : ResourceInfo D) :
    Decidable info.constructed :=
  inferInstanceAs (Decidable (_ ∧ _))

instance Call.decidableConstructed {D : Type} : (c : Call D) → Decidable c.constructed
  | Call.getHandle info => ResourceInfo.decidableConstructed info
  | Call.find _ => isTrue trivial

/-- Two texture infos are registered, the one with the number 2 first; then `find` is
called for both handles: loading fails for handle 0 and succeeds for handle 1. -/
def Example.calls : List (Call Nat) :=
  [Call.getHandle { data := 2 }, Call.getHandle { data := 1 }, Call.find 0, Call.find 1]

/-- The texture manager after `Example.calls`. -/
def Example.manager : ResourceManager Nat :=
  (ResourceManager.create Nat "base").run Example.textures Example.calls

/-- The numbering of the handles, kept by `getHandle`: the handle map has the info of the
position `k` of the table `resources` under the handle `k`, and no two infos of the
table are equivalent keys. -/
structure ResourceManager.Dense {D : Type} (C : InfoClass D) (M : ResourceManager D) :
    Prop where
  sizes : M.resources.length = M.handles.length
  numbered : ∀ (k : Nat) (r : ResourceInfo D), M.resources[k]? = some r →
    M.handles[k]? = some (r, (k : Int))
  apart : ∀ (i j : Nat) (a b : ResourceInfo D), i < j → M.resources[i]? = some a →
    M.resources[j]? = some b → C.equiv a b = false

/-! # Theorems -/

/-! ## Vector algebra -/

theorem Vec3.add_def (a b : Vec3) : a + b = ⟨a.x + b.x, a.y + b.y, a.z + b.z⟩ := rfl

theorem Vec3.sub_def (a b : Vec3) : a - b = ⟨a.x - b.x, a.y - b.y, a.z - b.z⟩ := rfl

theorem Quat.mul_def (a b : Quat) : a * b = Quat.mul a b := rfl

theorem Vec3.vadd_assoc (a b c : Vec3) : a + b + c = a + (b + c) := by
  simp only [Vec3.add_def, add_assoc]

theorem Vec3.vadd_comm (a b : Vec3) : a + b = b + a := by
  simp only [Vec3.add_def, add_comm]

theorem Vec3.vzero_add (a : Vec3) : Vec3.zero + a = a := by
  simp [Vec3.add_def, Vec3.zero]

/-! ## The loop of `getPosition` -/

/-- Adding a constant to the accumulator of the loop adds it to the accumulator of the
result. -/
theorem getPositionLoop_shift {UC : Type} (U : Universe UC) (tdb : ℚ) (a : Vec3) :
    ∀ (fuel : Nat) (s : PositionLoop),
      Body.getPositionLoop U tdb fuel { s with position := a + s.position } =
        (Body.getPositionLoop U tdb fuel s).map
          (fun r => { r with position := a + r.position }) := by
  intro fuel
  induction fuel with
  | zero => intro s; rfl
  | succ n ih =>
    intro s
    rcases s with ⟨position, p, frame⟩
    cases hc : frame.getCenter with
    | body c =>
      simp only [Body.getPositionLoop, hc]
      rw [Vec3.vadd_assoc]
      exact ih ⟨position + (frame.getOrientation tdb).conjugate.rotate p,
        ((U.timeline c).findPhase tdb).orbit.positionAtTime tdb,
        ((U.timeline c).findPhase tdb).orbitFrame⟩
    | nil => simp [Body.getPositionLoop, hc]
    | star st => simp [Body.getPositionLoop, hc]
    | barycenter st => simp [Body.getPositionLoop, hc]

/-- The loop leaves only at a frame whose centre is not a body. -/
theorem getPositionLoop_exit {UC : Type} (U : Universe UC) (tdb : ℚ) :
    ∀ (fuel : Nat) (s r : PositionLoop),
      Body.getPositionLoop U tdb fuel s = some r → r.frame.getCenter.isBody = false := by
  intro fuel
  induction fuel with
  | zero => intro s r h; simp [Body.getPositionLoop] at h
  | succ n ih =>
    intro s r h
    cases hc : s.frame.getCenter with
    | body c =>
      simp only [Body.getPositionLoop, hc] at h
      exact ih _ _ h
    | nil =>
      simp only [Body.getPositionLoop, hc, Option.some.injEq] at h
      subst h; simp [hc, Selection.isBody]
    | star st =>
      simp only [Body.getPositionLoop, hc, Option.some.injEq] at h
      subst h; simp [hc, Selection.isBody]
    | barycenter st =>
      simp only [Body.getPositionLoop, hc, Option.some.injEq] at h
      subst h; simp [hc, Selection.isBody]

/-- With a chain of `n` body centres the loop exits within `n + 1` evaluations of its
condition, and more fuel does not change the result. -/
theorem getPositionLoop_total {UC : Type} (U : Universe UC) (tdb : ℚ) :
    ∀ (n : Nat) (s : PositionLoop), Body.frameChain U tdb n s.frame = true →
      ∃ r, ∀ k, Body.getPositionLoop U tdb (n + 1 + k) s = some r := by
  intro n
  induction n with
  | zero =>
    intro s h
    refine ⟨s, fun k => ?_⟩
    have hk : 0 + 1 + k = k + 1 := by omega
    rw [hk]
    cases hc : s.frame.getCenter with
    | body c => simp [Body.frameChain, hc, Selection.isBody] at h
    | nil => simp [Body.getPositionLoop, hc]
    | star st => simp [Body.getPositionLoop, hc]
    | barycenter st => simp [Body.getPositionLoop, hc]
  | succ n ih =>
    intro s h
    cases hc : s.frame.getCenter with
    | body c =>
      simp only [Body.frameChain, hc] at h
      obtain ⟨r, hr⟩ := ih
        { position := s.position + (s.frame.getOrientation tdb).conjugate.rotate s.p
          p := ((U.timeline c).findPhase tdb).orbit.positionAtTime tdb
          frame := ((U.timeline c).findPhase tdb).orbitFrame } h
      refine ⟨r, fun k => ?_⟩
      have hk : n + 1 + 1 + k = (n + 1 + k) + 1 := by omega
      rw [hk]
      simp only [Body.getPositionLoop, hc]
      exact hr k
    | nil => simp [Body.frameChain, hc] at h
    | star st => simp [Body.frameChain, hc] at h
    | barycenter st => simp [Body.frameChain, hc] at h

/-- At a selection that is not a body, `Selection::getPosition` does not consult the
position of any body. -/
theorem getPositionWith_congr {UC : Type} (U : Universe UC)
    (f g : Nat → ℚ → Option UC) (sel : Selection) (tdb : ℚ) (h : sel.isBody = false) :
    Selection.getPositionWith U f sel tdb = Selection.getPositionWith U g sel tdb := by
  cases sel <;> simp_all [Selection.getPositionWith, Selection.isBody]

theorem getPositionExit_congr {UC : Type} (U : Universe UC)
    (f g : Nat → ℚ → Option UC) (tdb : ℚ) (s : PositionLoop)
    (h : s.frame.getCenter.isBody = false) :
    Body.getPositionExit U f tdb s = Body.getPositionExit U g tdb s := by
  simp only [Body.getPositionExit, getPositionWith_congr U f g _ tdb h]

/-- The exit of `getPosition` always produces a coordinate when the centre is not a
body. -/
theorem getPositionExit_isSome {UC : Type} (U : Universe UC)
    (f : Nat → ℚ → Option UC) (tdb : ℚ) (s : PositionLoop)
    (h : s.frame.getCenter.isBody = false) :
    ∃ x, Body.getPositionExit U f tdb s = some x := by
  cases hc : s.frame.getCenter <;>
    simp_all [Body.getPositionExit, Selection.getPositionWith, Selection.isBody,
      Selection.star?]

/-- Shifting the accumulator by `a` before the exit offsets the result by `a`, when
`offsetKm` is additive. -/
theorem getPositionExit_shift {UC : Type} (U : Universe UC)
    (hadd : ∀ u a b, U.offsetKm (U.offsetKm u a) b = U.offsetKm u (a + b))
    (f : Nat → ℚ → Option UC) (tdb : ℚ) (a : Vec3) (s : PositionLoop) :
    Body.getPositionExit U f tdb { s with position := a + s.position } =
      (Body.getPositionExit U f tdb s).map (fun x => U.offsetKm x a) := by
  have e : ∀ v : Vec3, a + s.position + v = s.position + v + a := by
    intro v
    rw [Vec3.vadd_comm a, Vec3.vadd_assoc, Vec3.vadd_comm a, Vec3.vadd_assoc]
  simp only [Body.getPositionExit, e]
  cases s.frame.getCenter.star? with
  | some st => simp [hadd]
  | none =>
    cases Selection.getPositionWith U f s.frame.getCenter tdb <;> simp [hadd]

/-- C1: position composition. When the active orbit frame of body `B` at `tdb` is centred
on body `P`, the chain of centres from `P` reaches a centre that is not a body after `n`
bodies, and `offsetKm` is additive, then `getPosition` returns for both bodies (with any
fuel from `n + 1` resp. `n + 2` on) and the position of `B` is the position of `P` offset
by the conjugate of the orientation of the orbit frame of `B` applied to the local orbit
position of `B`. -/
theorem getPosition_composition {UC : Type} (U : Universe UC)
    (hadd : ∀ u a b, U.offsetKm (U.offsetKm u a) b = U.offsetKm u (a + b))
    (B P n : Nat) (tdb : ℚ)
    (hcentre : (Body.getOrbitFrame U B tdb).getCenter = Selection.body P)
    (hchain : Body.centreChain U tdb n P = true) :
    ∃ xP, ∀ k, Body.getPosition U (n + 1 + k) P tdb = some xP ∧
      Body.getPosition U (n + 2 + k) B tdb =
        some (U.offsetKm xP
          (((Body.getOrbitFrame U B tdb).getOrientation tdb).conjugate.rotate
            ((Body.getOrbit U B tdb).positionAtTime tdb))) := by
  obtain ⟨r, hr⟩ := getPositionLoop_total U tdb n
    { position := Vec3.zero
      p := ((U.timeline P).findPhase tdb).orbit.positionAtTime tdb
      frame := ((U.timeline P).findPhase tdb).orbitFrame } hchain
  have hexit := getPositionLoop_exit U tdb _ _ r (hr 0)
  obtain ⟨x, hx⟩ := getPositionExit_isSome U (fun _ _ => none) tdb r hexit
  refine ⟨x, fun k => ⟨?_, ?_⟩⟩
  · have hk : n + 1 + k = (n + k) + 1 := by omega
    have hk2 : n + k + 1 = n + 1 + k := by omega
    rw [hk]
    simp only [Body.getPosition]
    rw [hk2, hr k]
    simp only []
    rw [getPositionExit_congr U _ (fun _ _ => none) tdb r hexit, hx]
  · have hk : n + 2 + k = (n + 1 + k) + 1 := by omega
    rw [hk]
    simp only [Body.getOrbitFrame, Body.getOrbit] at hcentre ⊢
    simp only [Body.getPosition, Body.getPositionLoop, hcentre]
    generalize (((U.timeline B).findPhase tdb).orbitFrame.getOrientation tdb).conjugate.rotate
      (((U.timeline B).findPhase tdb).orbit.positionAtTime tdb) = a
    have hs := getPositionLoop_shift U tdb a (n + 1 + k)
      { position := Vec3.zero
        p := ((U.timeline P).findPhase tdb).orbit.positionAtTime tdb
        frame := ((U.timeline P).findPhase tdb).orbitFrame }
    simp only [] at hs
    rw [Vec3.vadd_comm Vec3.zero a, hs, hr k]
    simp only [Option.map_some']
    have he := getPositionExit_shift U hadd (fun _ _ => none) tdb a r
    have hcg := getPositionExit_congr U (fun c t => Body.getPosition U (n + 1 + k) c t)
      (fun _ _ => none) tdb ⟨a + r.position, r.p, r.frame⟩ hexit
    rw [hcg, he, hx]
    rfl

/-- A timeline of one phase resolves every time to that phase. -/
theorem findPhase_single (p : TimelinePhase) (t : ℚ) :
    Timeline.findPhase { first := p, rest := [] } t = p := by
  simp only [Timeline.findPhase, Timeline.last, Timeline.phases, List.getLastD, List.find?]
  split_ifs <;> first | rfl | (cases p.includes t <;> rfl)

/-- Witness for C1: the moon (body 2) around the planet (body 1) around star 0. -/
theorem getPosition_composition_witness :
    ∃ xP, ∀ k, Body.getPosition Example.universe (0 + 1 + k) 1 5 = some xP ∧
      Body.getPosition Example.universe (0 + 2 + k) 2 5 =
        some (Example.universe.offsetKm xP
          (((Body.getOrbitFrame Example.universe 2 5).getOrientation 5).conjugate.rotate
            ((Body.getOrbit Example.universe 2 5).positionAtTime 5))) :=
  getPosition_composition Example.universe
    (fun u a b => Vec3.vadd_assoc u a b) 2 1 0 5
    (by simp [Body.getOrbitFrame, Example.universe, Example.moonTimeline, findPhase_single,
          Example.phase, Example.fixedFrame])
    (by simp [Body.centreChain, Body.frameChain, Body.getOrbitFrame, Example.universe,
          Example.planetTimeline, findPhase_single, Example.phase, Example.fixedFrame,
          Selection.isBody])

/-! ## Velocity -/

/-- With a chain of `n` body centres `getPosition` returns with any fuel from `n + 1` on,
and the result does not depend on the fuel. -/
theorem getPosition_total {UC : Type} (U : Universe UC) (b n : Nat) (tdb : ℚ)
    (hchain : Body.centreChain U tdb n b = true) :
    ∃ x, ∀ k, Body.getPosition U (n + 1 + k) b tdb = some x := by
  obtain ⟨r, hr⟩ := getPositionLoop_total U tdb n
    { position := Vec3.zero
      p := ((U.timeline b).findPhase tdb).orbit.positionAtTime tdb
      frame := ((U.timeline b).findPhase tdb).orbitFrame } hchain
  have hexit := getPositionLoop_exit U tdb _ _ r (hr 0)
  obtain ⟨x, hx⟩ := getPositionExit_isSome U (fun _ _ => none) tdb r hexit
  refine ⟨x, fun k => ?_⟩
  have hk : n + 1 + k = (n + k) + 1 := by omega
  have hk2 : n + k + 1 = n + 1 + k := by omega
  rw [hk]
  simp only [Body.getPosition]
  rw [hk2, hr k]
  simp only []
  rw [getPositionExit_congr U _ (fun _ _ => none) tdb r hexit, hx]

/-- The centre of the orbit frame of a body with a chain of `n` body centres is either a
body with a chain of `n - 1` body centres, or not a body and `n = 0`. -/
theorem centreChain_cases {UC : Type} (U : Universe UC) (b n : Nat) (tdb : ℚ)
    (hchain : Body.centreChain U tdb n b = true) :
    (∃ c m, (Body.getOrbitFrame U b tdb).getCenter = Selection.body c ∧ n = m + 1 ∧
        Body.centreChain U tdb m c = true) ∨
      ((Body.getOrbitFrame U b tdb).getCenter.isBody = false ∧ n = 0) := by
  unfold Body.centreChain at hchain
  cases n with
  | zero =>
    right
    simpa [Body.frameChain] using hchain
  | succ m =>
    left
    cases hc : (Body.getOrbitFrame U b tdb).getCenter with
    | body c =>
      refine ⟨c, m, rfl, rfl, ?_⟩
      simpa [Body.frameChain, hc, Body.centreChain] using hchain
    | nil => simp [Body.frameChain, hc] at hchain
    | star st => simp [Body.frameChain, hc] at hchain
    | barycenter st => simp [Body.frameChain, hc] at hchain

/-- The position of the centre of the orbit frame is available with the fuel that the
body itself needs. -/
theorem centre_getPosition_total {UC : Type} (U : Universe UC) (b n : Nat) (tdb : ℚ)
    (hchain : Body.centreChain U tdb n b = true) :
    ∃ x, ∀ k, Selection.getPosition U (n + 1 + k)
      (Body.getOrbitFrame U b tdb).getCenter tdb = some x := by
  rcases centreChain_cases U b n tdb hchain with ⟨c, m, hc, hn, hm⟩ | ⟨hnb, _⟩
  · obtain ⟨x, hx⟩ := getPosition_total U c m tdb hm
    refine ⟨x, fun k => ?_⟩
    have hk : n + 1 + k = m + 1 + (k + 1) := by omega
    rw [hc, hk]
    simpa [Selection.getPosition, Selection.getPositionWith] using hx (k + 1)
  · cases hc : (Body.getOrbitFrame U b tdb).getCenter with
    | body c => simp [hc, Selection.isBody] at hnb
    | nil => exact ⟨_, fun k => rfl⟩
    | star st => exact ⟨_, fun k => rfl⟩
    | barycenter st => exact ⟨_, fun k => rfl⟩

/-- One unfolding of `getVelocity`, given the velocity of the centre. -/
theorem getVelocity_step {UC : Type} (U : Universe UC) (b n : Nat) (tdb : ℚ)
    (hchain : Body.centreChain U tdb n b = true) (cv : Vec3)
    (hcv : ∀ k, Selection.getVelocity U (n + k) (Body.getOrbitFrame U b tdb).getCenter tdb =
      some cv) :
    ((Body.getOrbitFrame U b tdb).isInertial = true →
        ∀ k, Body.getVelocity U (n + 1 + k) b tdb =
          some (((Body.getOrbitFrame U b tdb).getOrientation tdb).conjugate.rotate
            ((Body.getOrbit U b tdb).velocityAtTime tdb) + cv)) ∧
      ((Body.getOrbitFrame U b tdb).isInertial = false →
        ∃ pb pc, ∀ k, Body.getPosition U (n + 1 + k) b tdb = some pb ∧
          Selection.getPosition U (n + 1 + k) (Body.getOrbitFrame U b tdb).getCenter tdb =
            some pc ∧
          Body.getVelocity U (n + 1 + k) b tdb =
            some (((Body.getOrbitFrame U b tdb).getOrientation tdb).conjugate.rotate
                ((Body.getOrbit U b tdb).velocityAtTime tdb) + cv +
              ((Body.getOrbitFrame U b tdb).getAngularVelocity tdb).cross
                (U.offsetFromKm pb pc))) := by
  have hk : ∀ k, n + 1 + k = (n + k) + 1 := fun k => by omega
  constructor
  · intro hin k
    have h1 := hcv k
    simp only [Selection.getVelocity, Body.getOrbitFrame] at h1 hin
    rw [hk]
    simp only [Body.getVelocity, Body.getOrbitFrame, Body.getOrbit, h1, hin]
    simp
  · intro hin
    obtain ⟨pb, hpb⟩ := getPosition_total U b n tdb hchain
    obtain ⟨pc, hpc⟩ := centre_getPosition_total U b n tdb hchain
    refine ⟨pb, pc, fun k => ⟨hpb k, hpc k, ?_⟩⟩
    have h1 := hcv k
    have h2 := hpb k
    have h3 := hpc k
    simp only [Selection.getVelocity, Body.getOrbitFrame] at h1 hin h3
    rw [hk] at h2 h3 ⊢
    have h2' : Selection.getPosition U (n + k + 1) (Selection.body b) tdb = some pb := h2
    simp only [Body.getVelocity, Body.getOrbitFrame, Body.getOrbit, h1, hin, h3, h2']
    simp

/-- With a chain of `n` body centres `getVelocity` returns with any fuel from `n + 1` on,
and the result does not depend on the fuel. -/
theorem getVelocity_total {UC : Type} (U : Universe UC) (tdb : ℚ) :
    ∀ (n b : Nat), Body.centreChain U tdb n b = true →
      ∃ v, ∀ k, Body.getVelocity U (n + 1 + k) b tdb = some v := by
  intro n
  induction n with
  | zero =>
    intro b hchain
    have hcv : ∃ cv, ∀ k, Selection.getVelocity U (0 + k)
        (Body.getOrbitFrame U b tdb).getCenter tdb = some cv := by
      rcases centreChain_cases U b 0 tdb hchain with ⟨c, m, _, hn, _⟩ | ⟨hnb, _⟩
      · omega
      · cases hc : (Body.getOrbitFrame U b tdb).getCenter with
        | body c => simp [hc, Selection.isBody] at hnb
        | nil => exact ⟨_, fun k => rfl⟩
        | star st => exact ⟨_, fun k => rfl⟩
        | barycenter st => exact ⟨_, fun k => rfl⟩
    obtain ⟨cv, hcv⟩ := hcv
    obtain ⟨h1, h2⟩ := getVelocity_step U b 0 tdb hchain cv hcv
    cases hin : (Body.getOrbitFrame U b tdb).isInertial with
    | true => exact ⟨_, h1 hin⟩
    | false =>
      obtain ⟨pb, pc, h⟩ := h2 hin
      exact ⟨_, fun k => (h k).2.2⟩
  | succ m ih =>
    intro b hchain
    have hcv : ∃ cv, ∀ k, Selection.getVelocity U (m + 1 + k)
        (Body.getOrbitFrame U b tdb).getCenter tdb = some cv := by
      rcases centreChain_cases U b (m + 1) tdb hchain with ⟨c, m', hc, hn, hm⟩ | ⟨_, hn⟩
      · have hmm : m' = m := by omega
        subst hmm
        obtain ⟨v, hv⟩ := ih c hm
        refine ⟨v, fun k => ?_⟩
        rw [hc]
        simpa [Selection.getVelocity, Selection.getVelocityWith] using hv k
      · omega
    obtain ⟨cv, hcv⟩ := hcv
    obtain ⟨h1, h2⟩ := getVelocity_step U b (m + 1) tdb hchain cv hcv
    cases hin : (Body.getOrbitFrame U b tdb).isInertial with
    | true => exact ⟨_, h1 hin⟩
    | false =>
      obtain ⟨pb, pc, h⟩ := h2 hin
      exact ⟨_, fun k => (h k).2.2⟩

/-- The velocity of the centre of the orbit frame is available with one unit of fuel less
than the body itself needs. -/
theorem centre_getVelocity_total {UC : Type} (U : Universe UC) (b n : Nat) (tdb : ℚ)
    (hchain : Body.centreChain U tdb n b = true) :
    ∃ cv, ∀ k, Selection.getVelocity U (n + k)
      (Body.getOrbitFrame U b tdb).getCenter tdb = some cv := by
  rcases centreChain_cases U b n tdb hchain with ⟨c, m, hc, hn, hm⟩ | ⟨hnb, _⟩
  · obtain ⟨v, hv⟩ := getVelocity_total U tdb m c hm
    refine ⟨v, fun k => ?_⟩
    rw [hc, hn]
    simpa [Selection.getVelocity, Selection.getVelocityWith] using hv k
  · cases hc : (Body.getOrbitFrame U b tdb).getCenter with
    | body c => simp [hc, Selection.isBody] at hnb
    | nil => exact ⟨_, fun k => rfl⟩
    | star st => exact ⟨_, fun k => rfl⟩
    | barycenter st => exact ⟨_, fun k => rfl⟩

/-- C2: velocity formula. For a body whose chain of orbit-frame centres ends after `n`
bodies, the centre of the active orbit frame has a velocity `cv`, and `getVelocity` returns
(with any fuel from `n + 1` on) the conjugate of the frame orientation applied to the local
orbit velocity plus `cv` when the orbit frame is inertial, and that value plus the cross
product of the frame's angular velocity with the offset of the body's position from the
centre's position when the orbit frame is not inertial. -/
theorem getVelocity_formula {UC : Type} (U : Universe UC) (b n : Nat) (tdb : ℚ)
    (hchain : Body.centreChain U tdb n b = true) :
    ∃ cv, (∀ k, Selection.getVelocity U (n + k) (Body.getOrbitFrame U b tdb).getCenter tdb =
        some cv) ∧
      ((Body.getOrbitFrame U b tdb).isInertial = true →
        ∀ k, Body.getVelocity U (n + 1 + k) b tdb =
          some (((Body.getOrbitFrame U b tdb).getOrientation tdb).conjugate.rotate
            ((Body.getOrbit U b tdb).velocityAtTime tdb) + cv)) ∧
      ((Body.getOrbitFrame U b tdb).isInertial = false →
        ∃ pb pc, ∀ k, Body.getPosition U (n + 1 + k) b tdb = some pb ∧
          Selection.getPosition U (n + 1 + k) (Body.getOrbitFrame U b tdb).getCenter tdb =
            some pc ∧
          Body.getVelocity U (n + 1 + k) b tdb =
            some (((Body.getOrbitFrame U b tdb).getOrientation tdb).conjugate.rotate
                ((Body.getOrbit U b tdb).velocityAtTime tdb) + cv +
              ((Body.getOrbitFrame U b tdb).getAngularVelocity tdb).cross
                (U.offsetFromKm pb pc))) := by
  obtain ⟨cv, hcv⟩ := centre_getVelocity_total U b n tdb hchain
  exact ⟨cv, hcv, getVelocity_step U b n tdb hchain cv hcv⟩

/-- Witness for C2: the probe (body 3) in its rotating frame around the planet. -/
theorem getVelocity_formula_witness :
    ∃ cv, (∀ k, Selection.getVelocity Example.universe (1 + k)
        (Body.getOrbitFrame Example.universe 3 5).getCenter 5 = some cv) ∧
      ((Body.getOrbitFrame Example.universe 3 5).isInertial = true →
        ∀ k, Body.getVelocity Example.universe (1 + 1 + k) 3 5 =
          some (((Body.getOrbitFrame Example.universe 3 5).getOrientation 5).conjugate.rotate
            ((Body.getOrbit Example.universe 3 5).velocityAtTime 5) + cv)) ∧
      ((Body.getOrbitFrame Example.universe 3 5).isInertial = false →
        ∃ pb pc, ∀ k, Body.getPosition Example.universe (1 + 1 + k) 3 5 = some pb ∧
          Selection.getPosition Example.universe (1 + 1 + k)
            (Body.getOrbitFrame Example.universe 3 5).getCenter 5 = some pc ∧
          Body.getVelocity Example.universe (1 + 1 + k) 3 5 =
            some (((Body.getOrbitFrame Example.universe 3 5).getOrientation 5).conjugate.rotate
                ((Body.getOrbit Example.universe 3 5).velocityAtTime 5) + cv +
              ((Body.getOrbitFrame Example.universe 3 5).getAngularVelocity 5).cross
                (Example.universe.offsetFromKm pb pc))) :=
  getVelocity_formula Example.universe 3 1 5
    (by simp [Body.centreChain, Body.frameChain, Body.getOrbitFrame, Example.universe,
          Example.planetTimeline, Example.probeTimeline, findPhase_single, Example.phase,
          Example.fixedFrame, Selection.isBody])

/-- C3 fails as stated: for the planet of the example system, whose rotation model has a
spin different from its orientation, `getOrientation` is not the spin composed with the
orientation of the body frame. -/
theorem getOrientation_ne_spin :
    Body.getOrientation Example.universe 1 5 ≠
      (Body.getRotationModel Example.universe 1 5).spin 5 *
        (Body.getBodyFrame Example.universe 1 5).getOrientation 5 := by
  simp only [Body.getOrientation, Body.getRotationModel, Body.getBodyFrame, Example.universe,
    Example.planetTimeline, findPhase_single, Example.phase, Example.fixedFrame,
    Example.rotation, Example.tilt, Quat.identity]
  intro h
  have hw := congrArg Quat.w h
  simp only [Quat.mul_def, Quat.mul] at hw
  norm_num at hw

/-- C3, amended: `getOrientation` is the orientation of the rotation model at `tdb`
(`orientationAtTime`, not `spin`) composed with the orientation of the body frame of the
active phase; it is the same rotation as `getEclipticToBodyFixed`, while the spin alone is
what `getEquatorialToBodyFixed` returns. -/
theorem getOrientation_formula {UC : Type} (U : Universe UC) (b : Nat) (tdb : ℚ) :
    Body.getOrientation U b tdb =
        ((U.timeline b).findPhase tdb).rotationModel.orientationAtTime tdb *
          ((U.timeline b).findPhase tdb).bodyFrame.getOrientation tdb ∧
      Body.getOrientation U b tdb = Body.getEclipticToBodyFixed U b tdb ∧
      Body.getEquatorialToBodyFixed U b tdb =
        ((U.timeline b).findPhase tdb).rotationModel.spin tdb :=
  ⟨rfl, rfl, rfl⟩

/-- C4 fails as stated: for the planet of the example system, whose body frame is
inertial, `getAngularVelocity` is not the frame orientation applied to the angular
velocity of the rotation model. -/
theorem getAngularVelocity_ne_unconjugated :
    (Body.getBodyFrame Example.universe 1 5).isInertial = true ∧
      Body.getAngularVelocity Example.universe 1 5 ≠
        ((Body.getBodyFrame Example.universe 1 5).getOrientation 5).rotate
          ((Body.getRotationModel Example.universe 1 5).angularVelocityAtTime 5) := by
  simp only [Body.getAngularVelocity, Body.getRotationModel, Body.getBodyFrame,
    Example.universe, Example.planetTimeline, findPhase_single, Example.phase,
    Example.fixedFrame, Example.rotation, Example.tilt]
  refine ⟨trivial, ?_⟩
  intro h
  have hz := congrArg Vec3.z h
  simp [Quat.rotate, Quat.conjugate, Quat.vec, Vec3.cross, Vec3.scale, Vec3.add_def] at hz
  norm_num at hz

/-- C4, amended: with an inertial body frame, `getAngularVelocity` is the conjugate of the
orientation of the body frame applied to the angular velocity of the rotation model. -/
theorem getAngularVelocity_inertial {UC : Type} (U : Universe UC) (b : Nat) (tdb : ℚ)
    (hin : (Body.getBodyFrame U b tdb).isInertial = true) :
    Body.getAngularVelocity U b tdb =
      ((Body.getBodyFrame U b tdb).getOrientation tdb).conjugate.rotate
        ((Body.getRotationModel U b tdb).angularVelocityAtTime tdb) := by
  simp only [Body.getBodyFrame] at hin
  simp [Body.getAngularVelocity, Body.getBodyFrame, Body.getRotationModel, hin]

/-- Witness for the amended C4: the planet of the example system. -/
theorem getAngularVelocity_inertial_witness :
    Body.getAngularVelocity Example.universe 1 5 =
      ((Body.getBodyFrame Example.universe 1 5).getOrientation 5).conjugate.rotate
        ((Body.getRotationModel Example.universe 1 5).angularVelocityAtTime 5) :=
  getAngularVelocity_inertial Example.universe 1 5
    (by simp [Body.getBodyFrame, Example.universe, Example.planetTimeline, findPhase_single,
          Example.phase, Example.fixedFrame])

/-- C5: angular velocities add linearly. When the active body frame of `b` in `U` is not
inertial, and `b'` in `U'` has at `tdb` the same body-frame orientation and the same
rotation-model angular velocity but an inertial body frame, then `getAngularVelocity` of
`b` is `getAngularVelocity` of `b'` plus the angular velocity of the body frame of `b`;
nothing else is added. -/
theorem getAngularVelocity_linear {UC UC' : Type} (U : Universe UC) (U' : Universe UC')
    (b b' : Nat) (tdb : ℚ)
    (hrot : (Body.getBodyFrame U b tdb).isInertial = false)
    (hin : (Body.getBodyFrame U' b' tdb).isInertial = true)
    (hori : (Body.getBodyFrame U' b' tdb).getOrientation tdb =
      (Body.getBodyFrame U b tdb).getOrientation tdb)
    (hmodel : (Body.getRotationModel U' b' tdb).angularVelocityAtTime tdb =
      (Body.getRotationModel U b tdb).angularVelocityAtTime tdb) :
    Body.getAngularVelocity U b tdb =
      Body.getAngularVelocity U' b' tdb + (Body.getBodyFrame U b tdb).getAngularVelocity tdb := by
  simp only [Body.getBodyFrame, Body.getRotationModel] at hrot hin hori hmodel
  simp [Body.getAngularVelocity, Body.getBodyFrame, hrot, hin, hori, hmodel]

/-- Witness for C5: the probe (rotating body frame) against the moon (inertial body frame
with the same orientation and rotation model). -/
theorem getAngularVelocity_linear_witness :
    Body.getAngularVelocity Example.universe 3 5 =
      Body.getAngularVelocity Example.universe 2 5 +
        (Body.getBodyFrame Example.universe 3 5).getAngularVelocity 5 :=
  getAngularVelocity_linear Example.universe Example.universe 3 2 5
    (by simp [Body.getBodyFrame, Example.universe, Example.probeTimeline, findPhase_single,
          Example.phase, Example.fixedFrame])
    (by simp [Body.getBodyFrame, Example.universe, Example.moonTimeline, findPhase_single,
          Example.phase, Example.fixedFrame])
    (by simp [Body.getBodyFrame, Example.universe, Example.moonTimeline,
          Example.probeTimeline, findPhase_single, Example.phase, Example.fixedFrame])
    (by simp [Body.getRotationModel, Example.universe, Example.moonTimeline,
          Example.probeTimeline, findPhase_single, Example.phase])

/-! ## Phase lookup -/

theorem includes_iff (p : TimelinePhase) (t : ℚ) :
    p.includes t = true ↔ p.startTime ≤ t ∧ t < p.endTime := by
  simp [TimelinePhase.includes]

/-- In a contiguous sequence of phases every time between the start of the first phase and
the end of the last phase lies in some phase. -/
theorem exists_includes (t : ℚ) :
    ∀ (p : TimelinePhase) (rest : List TimelinePhase),
      (p :: rest).Chain' (fun a b => a.endTime = b.startTime) →
      p.startTime ≤ t → t < (rest.getLastD p).endTime →
      ∃ q ∈ p :: rest, q.includes t = true := by
  intro p rest
  induction rest generalizing p with
  | nil =>
    intro _ h0 h1
    exact ⟨p, List.mem_cons_self _ _, (includes_iff p t).2 ⟨h0, h1⟩⟩
  | cons q rs ih =>
    intro hc h0 h1
    rw [List.chain'_cons] at hc
    by_cases hlt : t < p.endTime
    · exact ⟨p, List.mem_cons_self _ _, (includes_iff p t).2 ⟨h0, hlt⟩⟩
    · have hq : q.startTime ≤ t := by
        rw [← hc.1]
        exact not_lt.1 hlt
      rw [List.getLastD_cons] at h1
      obtain ⟨r, hr, hin⟩ := ih q hc.2 hq h1
      exact ⟨r, List.mem_cons_of_mem _ hr, hin⟩

/-- In a sequence of phases that is sorted by start time and contiguous, a phase ends no
later than any later phase starts. -/
theorem endTime_le_startTime (l : List TimelinePhase)
    (hs : l.Pairwise (fun a b => a.startTime ≤ b.startTime))
    (hc : l.Chain' (fun a b => a.endTime = b.startTime))
    (i j : Fin l.length) (hij : i < j) :
    (l.get i).endTime ≤ (l.get j).startTime := by
  have hj : j.val < l.length := j.isLt
  have hi1 : i.val < l.length - 1 := by
    have : i.val < j.val := hij
    omega
  have hstep := List.chain'_iff_get.1 hc i.val hi1
  by_cases hnext : i.val + 1 = j.val
  · have hjeq : j = ⟨i.val + 1, by omega⟩ := Fin.ext hnext.symm
    rw [hjeq]
    exact le_of_eq hstep
  · have hlt : (⟨i.val + 1, by omega⟩ : Fin l.length) < j := by
      have : i.val < j.val := hij
      show i.val + 1 < j.val
      omega
    have hsorted := List.pairwise_iff_get.1 hs ⟨i.val + 1, by omega⟩ j hlt
    exact le_trans (le_of_eq hstep) hsorted

/-- In a sorted, contiguous sequence of phases at most one position holds a phase whose
interval contains `t`. -/
theorem includes_unique (l : List TimelinePhase)
    (hs : l.Pairwise (fun a b => a.startTime ≤ b.startTime))
    (hc : l.Chain' (fun a b => a.endTime = b.startTime)) (t : ℚ)
    (i j : Fin l.length)
    (hi : (l.get i).startTime ≤ t ∧ t < (l.get i).endTime)
    (hj : (l.get j).startTime ≤ t ∧ t < (l.get j).endTime) : j = i := by
  rcases lt_trichotomy i j with h | h | h
  · have := endTime_le_startTime l hs hc i j h
    exact absurd (lt_of_lt_of_le hi.2 (le_trans this hj.1)) (lt_irrefl _)
  · exact h.symm
  · have := endTime_le_startTime l hs hc j i h
    exact absurd (lt_of_lt_of_le hj.2 (le_trans this hi.1)) (lt_irrefl _)

/-- Inside the lifespan of a sorted, contiguous timeline `findPhase` returns a phase whose
interval contains `t`, and no other position of the timeline holds such a phase. -/
theorem findPhase_inside (tl : Timeline) (t : ℚ)
    (hsorted : tl.sortedByStart) (hcontig : tl.contiguous)
    (hstart : tl.first.startTime ≤ t) (hend : t < tl.last.endTime) :
    ∃ i : Fin tl.phases.length,
      tl.findPhase t = tl.phases.get i ∧
      ((tl.phases.get i).startTime ≤ t ∧ t < (tl.phases.get i).endTime) ∧
      ∀ j : Fin tl.phases.length,
        (tl.phases.get j).startTime ≤ t → t < (tl.phases.get j).endTime → j = i := by
  obtain ⟨q, hq, hin⟩ := exists_includes t tl.first tl.rest hcontig hstart hend
  have hfind : ∃ r, tl.phases.find? (fun p => p.includes t) = some r := by
    cases hf : tl.phases.find? (fun p => p.includes t) with
    | none =>
      rw [List.find?_eq_none] at hf
      exact absurd hin (hf q hq)
    | some r => exact ⟨r, rfl⟩
  obtain ⟨r, hr⟩ := hfind
  have hrin := List.find?_some hr
  simp only [] at hrin
  obtain ⟨i, hi⟩ := List.mem_iff_get.1 (List.mem_of_find?_eq_some hr)
  have hcont : (tl.phases.get i).startTime ≤ t ∧ t < (tl.phases.get i).endTime := by
    rw [hi]
    exact (includes_iff r t).1 hrin
  refine ⟨i, ?_, hcont, fun j h0 h1 => includes_unique tl.phases hsorted hcontig t i j hcont ⟨h0, h1⟩⟩
  unfold Timeline.findPhase
  rw [if_neg (not_lt.2 hstart), if_neg (not_le.2 hend), hr, hi]
  rfl

/-- C6: phase lookup. For a body whose timeline is sorted by start time and contiguous,
and a time `t` from the start of the first phase to before the end of the last phase, a
unique position `i` of the timeline holds a phase with `startTime ≤ t < endTime`;
`findPhase` returns that phase, and `getOrbit`, `getOrbitFrame`, `getBodyFrame` and
`getRotationModel` return its orbit, orbit frame, body frame and rotation model. -/
theorem findPhase_unique {UC : Type} (U : Universe UC) (b : Nat) (t : ℚ)
    (hsorted : (U.timeline b).sortedByStart) (hcontig : (U.timeline b).contiguous)
    (hstart : (U.timeline b).first.startTime ≤ t)
    (hend : t < (U.timeline b).last.endTime) :
    ∃ i : Fin (U.timeline b).phases.length,
      (((U.timeline b).phases.get i).startTime ≤ t ∧
        t < ((U.timeline b).phases.get i).endTime) ∧
      (∀ j : Fin (U.timeline b).phases.length,
        ((U.timeline b).phases.get j).startTime ≤ t →
          t < ((U.timeline b).phases.get j).endTime → j = i) ∧
      (U.timeline b).findPhase t = (U.timeline b).phases.get i ∧
      Body.getOrbit U b t = ((U.timeline b).phases.get i).orbit ∧
      Body.getOrbitFrame U b t = ((U.timeline b).phases.get i).orbitFrame ∧
      Body.getBodyFrame U b t = ((U.timeline b).phases.get i).bodyFrame ∧
      Body.getRotationModel U b t = ((U.timeline b).phases.get i).rotationModel := by
  obtain ⟨i, hf, hcont, huniq⟩ := findPhase_inside (U.timeline b) t hsorted hcontig hstart hend
  refine ⟨i, hcont, huniq, hf, ?_, ?_, ?_, ?_⟩ <;>
    simp only [Body.getOrbit, Body.getOrbitFrame, Body.getBodyFrame, Body.getRotationModel, hf]

/-- Witness for C6: body 4 of the example system, with phases `[0, 10)`, `[10, 20)` and
`[20, 30)`, at `t = 15`. -/
theorem findPhase_unique_witness :
    ∃ i : Fin (Example.universe.timeline 4).phases.length,
      (((Example.universe.timeline 4).phases.get i).startTime ≤ 15 ∧
        15 < ((Example.universe.timeline 4).phases.get i).endTime) ∧
      (∀ j : Fin (Example.universe.timeline 4).phases.length,
        ((Example.universe.timeline 4).phases.get j).startTime ≤ 15 →
          15 < ((Example.universe.timeline 4).phases.get j).endTime → j = i) ∧
      (Example.universe.timeline 4).findPhase 15 = (Example.universe.timeline 4).phases.get i ∧
      Body.getOrbit Example.universe 4 15 =
        ((Example.universe.timeline 4).phases.get i).orbit ∧
      Body.getOrbitFrame Example.universe 4 15 =
        ((Example.universe.timeline 4).phases.get i).orbitFrame ∧
      Body.getBodyFrame Example.universe 4 15 =
        ((Example.universe.timeline 4).phases.get i).bodyFrame ∧
      Body.getRotationModel Example.universe 4 15 =
        ((Example.universe.timeline 4).phases.get i).rotationModel :=
  findPhase_unique Example.universe 4 15
    (by
      simp only [Example.universe, Timeline.sortedByStart, Timeline.phases,
        Example.threePhases, Example.phase]
      simp
      norm_num)
    (by
      simp [Example.universe, Timeline.contiguous, Timeline.phases, Example.threePhases,
        Example.phase])
    (by simp [Example.universe, Example.threePhases, Example.phase])
    (by
      simp only [Example.universe, Timeline.last, Example.threePhases, Example.phase,
        List.getLastD]
      norm_num)

/-- The position and velocity queries of a body are evaluated on the phase that
`findPhase` gives: the loop of `getPosition` is entered with the position on the orbit of
that phase and with its orbit frame, and `getVelocity` is the velocity on its orbit, turned
by its orbit frame, plus the velocity of the centre of that frame (plus the term of the
rotating frame). With a chain of `n` body centres both queries return. -/
theorem position_velocity_on_phase {UC : Type} (U : Universe UC) (b : Nat) (t : ℚ)
    (P : TimelinePhase) (hf : (U.timeline b).findPhase t = P) :
    (∀ fuel, Body.getPosition U (fuel + 1) b t =
      (Body.getPositionLoop U t (fuel + 1)
        { position := Vec3.zero, p := P.orbit.positionAtTime t, frame := P.orbitFrame }).bind
        (Body.getPositionExit U (fun c t2 => Body.getPosition U fuel c t2) t)) ∧
    (∀ n, Body.centreChain U t n b = true →
      (∃ x, ∀ k, Body.getPosition U (n + 1 + k) b t = some x) ∧
      (∃ v, ∀ k, Body.getVelocity U (n + 1 + k) b t = some v) ∧
      ∃ cv, (∀ k, Selection.getVelocity U (n + k) P.orbitFrame.getCenter t = some cv) ∧
        (P.orbitFrame.isInertial = true →
          ∀ k, Body.getVelocity U (n + 1 + k) b t =
            some ((P.orbitFrame.getOrientation t).conjugate.rotate
              (P.orbit.velocityAtTime t) + cv)) ∧
        (P.orbitFrame.isInertial = false →
          ∃ pb pc, ∀ k, Body.getPosition U (n + 1 + k) b t = some pb ∧
            Selection.getPosition U (n + 1 + k) P.orbitFrame.getCenter t = some pc ∧
            Body.getVelocity U (n + 1 + k) b t =
              some ((P.orbitFrame.getOrientation t).conjugate.rotate
                  (P.orbit.velocityAtTime t) + cv +
                (P.orbitFrame.getAngularVelocity t).cross (U.offsetFromKm pb pc)))) := by
  have hof : Body.getOrbitFrame U b t = P.orbitFrame := by
    simp only [Body.getOrbitFrame, hf]
  have ho : Body.getOrbit U b t = P.orbit := by
    simp only [Body.getOrbit, hf]
  constructor
  · intro fuel
    simp only [Body.getPosition, hf]
    cases Body.getPositionLoop U t (fuel + 1)
        { position := Vec3.zero, p := P.orbit.positionAtTime t, frame := P.orbitFrame } with
    | none => rfl
    | some s => rfl
  · intro n hchain
    obtain ⟨cv, hcv⟩ := centre_getVelocity_total U b n t hchain
    have hstep := getVelocity_step U b n t hchain cv hcv
    rw [hof, ho] at hstep
    rw [hof] at hcv
    exact ⟨getPosition_total U b n t hchain, getVelocity_total U t n b hchain, cv, hcv,
      hstep.1, hstep.2⟩

/-- C7: clamping law. Let the timeline of a body have a lifespan that is not inverted (the
first phase starts no later than the last phase ends), and let `P` be the boundary phase
nearest to `t`: the first phase for a `t` before its start, the last phase for a `t` at or
after its end. Then `findPhase(t)` is `P`, the four phase accessors return the parts of
`P`, and the four resolution queries are evaluated on `P` instead of failing:
`getOrientation` and `getAngularVelocity` are computed from the rotation model and the
body frame of `P`; the loop of `getPosition` is entered with the position on the orbit of
`P` and the orbit frame of `P`; `getVelocity` is the velocity on the orbit of `P`, turned
by the orbit frame of `P`, plus the velocity of the centre (plus the term of a rotating
frame); and `getPosition` and `getVelocity` return a value whenever the chain of
orbit-frame centres ends after finitely many bodies. -/
theorem findPhase_clamp {UC : Type} (U : Universe UC) (b : Nat) (t : ℚ) (P : TimelinePhase)
    (hlife : (U.timeline b).first.startTime ≤ (U.timeline b).last.endTime)
    (hout : (t < (U.timeline b).first.startTime ∧ P = (U.timeline b).first) ∨
      ((U.timeline b).last.endTime ≤ t ∧ P = (U.timeline b).last)) :
    (U.timeline b).findPhase t = P ∧
    Body.getOrbit U b t = P.orbit ∧
    Body.getOrbitFrame U b t = P.orbitFrame ∧
    Body.getBodyFrame U b t = P.bodyFrame ∧
    Body.getRotationModel U b t = P.rotationModel ∧
    Body.getOrientation U b t =
      P.rotationModel.orientationAtTime t * P.bodyFrame.getOrientation t ∧
    Body.getAngularVelocity U b t =
      (if !P.bodyFrame.isInertial then
        (P.bodyFrame.getOrientation t).conjugate.rotate
            (P.rotationModel.angularVelocityAtTime t) +
          P.bodyFrame.getAngularVelocity t
      else
        (P.bodyFrame.getOrientation t).conjugate.rotate
          (P.rotationModel.angularVelocityAtTime t)) ∧
    (∀ fuel, Body.getPosition U (fuel + 1) b t =
      (Body.getPositionLoop U t (fuel + 1)
        { position := Vec3.zero, p := P.orbit.positionAtTime t, frame := P.orbitFrame }).bind
        (Body.getPositionExit U (fun c t2 => Body.getPosition U fuel c t2) t)) ∧
    (∀ n, Body.centreChain U t n b = true →
      (∃ x, ∀ k, Body.getPosition U (n + 1 + k) b t = some x) ∧
      (∃ v, ∀ k, Body.getVelocity U (n + 1 + k) b t = some v) ∧
      ∃ cv, (∀ k, Selection.getVelocity U (n + k) P.orbitFrame.getCenter t = some cv) ∧
        (P.orbitFrame.isInertial = true →
          ∀ k, Body.getVelocity U (n + 1 + k) b t =
            some ((P.orbitFrame.getOrientation t).conjugate.rotate
              (P.orbit.velocityAtTime t) + cv)) ∧
        (P.orbitFrame.isInertial = false →
          ∃ pb pc, ∀ k, Body.getPosition U (n + 1 + k) b t = some pb ∧
            Selection.getPosition U (n + 1 + k) P.orbitFrame.getCenter t = some pc ∧
            Body.getVelocity U (n + 1 + k) b t =
              some ((P.orbitFrame.getOrientation t).conjugate.rotate
                  (P.orbit.velocityAtTime t) + cv +
                (P.orbitFrame.getAngularVelocity t).cross (U.offsetFromKm pb pc)))) := by
  have hf : (U.timeline b).findPhase t = P := by
    rcases hout with ⟨h, hP⟩ | ⟨h, hP⟩
    · unfold Timeline.findPhase
      rw [if_pos h, hP]
    · unfold Timeline.findPhase
      rw [if_neg (not_lt.2 (le_trans hlife h)), if_pos h, hP]
  obtain ⟨hpos, hchain⟩ := position_velocity_on_phase U b t P hf
  refine ⟨hf, ?_, ?_, ?_, ?_, ?_, ?_, hpos, hchain⟩ <;>
    simp only [Body.getOrbit, Body.getOrbitFrame, Body.getBodyFrame, Body.getRotationModel,
      Body.getOrientation, Body.getAngularVelocity, hf]

/-- The chain of centres of body 4 of the example system at the times -1 and 30: its
orbit frames are centred on star 0. -/
theorem threePhases_chain :
    Body.centreChain Example.universe (-1) 0 4 = true ∧
      Body.centreChain Example.universe 30 0 4 = true := by
  constructor
  · simp only [Body.centreChain, Body.frameChain, Body.getOrbitFrame, Example.universe,
      Timeline.findPhase, Example.threePhases, Example.phase, Example.fixedFrame,
      Selection.isBody]
    norm_num
  · simp only [Body.centreChain, Body.frameChain, Body.getOrbitFrame, Example.universe,
      Timeline.findPhase, Timeline.last, List.getLastD, Example.threePhases, Example.phase,
      Example.fixedFrame, Selection.isBody]
    norm_num

/-- Witness for C7: body 4 of the example system, with lifespan `[0, 30)`, around star 0:
the time `-1` is resolved on the first phase and the time `30` on the last phase,
`getPosition` and `getVelocity` return at both times, and the positions are those of the
first phase (1 km from the star at 1000) and of the last phase (3 km from it). -/
theorem findPhase_clamp_witness :
    ((Example.universe.timeline 4).findPhase (-1) = (Example.universe.timeline 4).first ∧
      (Example.universe.timeline 4).findPhase 30 = (Example.universe.timeline 4).last) ∧
    ((∃ x, ∀ k, Body.getPosition Example.universe (0 + 1 + k) 4 (-1) = some x) ∧
      (∃ v, ∀ k, Body.getVelocity Example.universe (0 + 1 + k) 4 (-1) = some v)) ∧
    ((∃ x, ∀ k, Body.getPosition Example.universe (0 + 1 + k) 4 30 = some x) ∧
      (∃ v, ∀ k, Body.getVelocity Example.universe (0 + 1 + k) 4 30 = some v)) ∧
    (Body.getPosition Example.universe (0 + 1) 4 (-1) = some ⟨1001, 0, 0⟩ ∧
      Body.getPosition Example.universe (0 + 1) 4 30 = some ⟨1003, 0, 0⟩) :=
  have hlife : (Example.universe.timeline 4).first.startTime ≤
      (Example.universe.timeline 4).last.endTime := by
    simp only [Example.universe, Timeline.last, Example.threePhases, Example.phase,
      List.getLastD]
    norm_num
  have hbefore := findPhase_clamp Example.universe 4 (-1) (Example.universe.timeline 4).first
    hlife (Or.inl ⟨by
      simp only [Example.universe, Example.threePhases, Example.phase]
      norm_num, rfl⟩)
  have hafter := findPhase_clamp Example.universe 4 30 (Example.universe.timeline 4).last
    hlife (Or.inr ⟨by
      simp only [Example.universe, Timeline.last, Example.threePhases, Example.phase,
        List.getLastD]
      norm_num, rfl⟩)
  ⟨⟨hbefore.1, hafter.1⟩,
    ⟨(hbefore.2.2.2.2.2.2.2.2 0 threePhases_chain.1).1,
      (hbefore.2.2.2.2.2.2.2.2 0 threePhases_chain.1).2.1⟩,
    ⟨(hafter.2.2.2.2.2.2.2.2 0 threePhases_chain.2).1,
      (hafter.2.2.2.2.2.2.2.2 0 threePhases_chain.2).2.1⟩,
    ⟨(hbefore.2.2.2.2.2.2.2.1 0).trans (by
        simp [Body.getPositionLoop, Body.getPositionExit, Example.universe,
          Example.threePhases, Example.phase, Example.fixedFrame, Selection.star?,
          Vec3.add_def, Vec3.zero, Quat.conjugate, Quat.rotate, Quat.identity, Quat.vec,
          Vec3.cross, Vec3.scale]
        norm_num),
      (hafter.2.2.2.2.2.2.2.1 0).trans (by
        simp [Body.getPositionLoop, Body.getPositionExit, Example.universe, Timeline.last,
          List.getLastD, Example.threePhases, Example.phase, Example.fixedFrame,
          Selection.star?, Vec3.add_def, Vec3.zero, Quat.conjugate, Quat.rotate,
          Quat.identity, Quat.vec, Vec3.cross, Vec3.scale]
        norm_num)⟩⟩

/-! ## Orbit classification -/

/-- C8: orbit classification. `getOrbitClassification` returns the body's own
classification when that is not `Invisible` or the body has no frame tree; otherwise it
returns the first class of the order Planet, DwarfPlanet, Asteroid, Moon, MinorMoon,
Spacecraft whose bit is set in the child class mask of the frame tree, and `Invisible` when
none is set. With the flag values of Celestia, an invisible body whose children are a moon
and an asteroid is classified `Asteroid`, and one with an empty mask or with only comets
below it stays `Invisible`. -/
theorem getOrbitClassification_spec :
    (∀ (K : Constants) (b : Body),
      Body.getOrbitClassification K b =
        match b.frameTree with
        | none => b.classification
        | some frameTree =>
          if b.classification ≠ K.Invisible then b.classification
          else ((orbitClassOrder K).find?
            (fun c => decide (frameTree.childClassMask &&& c ≠ 0))).getD K.Invisible) ∧
    Body.getOrbitClassification Constants.celestia
        { geometry := Constants.celestia.InvalidResource
          classification := Constants.celestia.Invisible
          frameTree := some ⟨Constants.celestia.Moon ||| Constants.celestia.Asteroid⟩ } =
      Constants.celestia.Asteroid ∧
    Body.getOrbitClassification Constants.celestia
        { geometry := Constants.celestia.InvalidResource
          classification := Constants.celestia.Invisible
          frameTree := some ⟨0⟩ } = Constants.celestia.Invisible ∧
    Body.getOrbitClassification Constants.celestia
        { geometry := Constants.celestia.InvalidResource
          classification := Constants.celestia.Invisible
          frameTree := some ⟨Constants.celestia.Comet⟩ } = Constants.celestia.Invisible := by
  refine ⟨?_, by decide, by decide, by decide⟩
  intro K b
  unfold Body.getOrbitClassification
  cases b.frameTree with
  | none => simp
  | some frameTree =>
    by_cases hc : b.classification = K.Invisible
    · simp only [hc, ne_eq, not_true_eq_false, if_false, orbitClassOrder, List.find?,
        decide_not]
      by_cases h1 : frameTree.childClassMask &&& K.Planet = 0
      · by_cases h2 : frameTree.childClassMask &&& K.DwarfPlanet = 0
        · by_cases h3 : frameTree.childClassMask &&& K.Asteroid = 0
          · by_cases h4 : frameTree.childClassMask &&& K.Moon = 0
            · by_cases h5 : frameTree.childClassMask &&& K.MinorMoon = 0
              · by_cases h6 : frameTree.childClassMask &&& K.Spacecraft = 0
                · simp [h1, h2, h3, h4, h5, h6]
                · simp [h1, h2, h3, h4, h5, h6]
              · simp [h1, h2, h3, h4, h5]
            · simp [h1, h2, h3, h4]
          · simp [h1, h2, h3]
        · simp [h1, h2]
      · simp [h1]
    · simp [hc]

/-! ## Culling radius -/

theorem stdMax_eq_max (a b : ℚ) : stdMax a b = max a b := by
  unfold stdMax
  split_ifs with h
  · exact (max_eq_right (le_of_lt h)).symm
  · exact (max_eq_left (not_lt.1 h)).symm

/-- The loop over the reference marks folds `max` over their radii. -/
theorem foldl_marks (marks : List ReferenceMark) (r : ℚ) :
    marks.foldl (fun r rm => stdMax r rm.boundingSphereRadius) r =
      (marks.map (fun rm => rm.boundingSphereRadius)).foldl max r := by
  induction marks generalizing r with
  | nil => rfl
  | cons m ms ih =>
    simp only [List.foldl_cons, List.map_cons]
    rw [ih, stdMax_eq_max]

/-- The radius computed by `recomputeCullingRadius` is the stacked maximum. -/
theorem computedCullingRadius_eq (K : Constants) (b : Body) :
    b.computedCullingRadius K = b.cullingRadiusStacked K := by
  unfold Body.computedCullingRadius Body.cullingRadiusStacked
  simp only [foldl_marks]
  simp only [stdMax_eq_max]
  cases b.atmosphere <;> cases b.rings <;> cases b.referenceMarks <;>
    by_cases hc : b.classification = K.Comet <;>
    simp [hc, List.foldl_append]

/-- After `recomputeCullingRadius` the cached radius is the computed one. -/
theorem recomputeCullingRadius_cullingRadius (K : Constants) (b : Body) :
    (b.recomputeCullingRadius K).cullingRadius = b.computedCullingRadius K := by
  unfold Body.recomputeCullingRadius
  by_cases h : b.computedCullingRadius K = b.cullingRadius
  · simp [h]
  · simp only [ne_eq, h, not_false_eq_true, if_true, Body.markChanged]
    cases b.timeline <;> rfl

/-- The computed radius does not read the cached radius or the effect records. -/
theorem computedCullingRadius_recompute (K : Constants) (b : Body) :
    (b.recomputeCullingRadius K).computedCullingRadius K = b.computedCullingRadius K := by
  unfold Body.recomputeCullingRadius
  by_cases h : b.computedCullingRadius K = b.cullingRadius
  · simp [h]
  · simp only [ne_eq, h, not_false_eq_true, if_true, Body.markChanged]
    cases b.timeline <;> rfl

/-- C9 fails as stated: for a planet of radius 6378 km with an atmosphere 60 km high the
recomputed culling radius is 6438 km, not the largest of the listed values (6378 km). -/
theorem cullingRadius_ne_maximum :
    (Example.earth.recomputeCullingRadius Constants.celestia).getCullingRadius = 6438 ∧
      Example.earth.cullingRadiusAsMaximum Constants.celestia = 6378 ∧
      (Example.earth.recomputeCullingRadius Constants.celestia).getCullingRadius ≠
        Example.earth.cullingRadiusAsMaximum Constants.celestia := by
  have h1 : (Example.earth.recomputeCullingRadius Constants.celestia).getCullingRadius =
      6438 := by
    rw [Body.getCullingRadius, recomputeCullingRadius_cullingRadius]
    simp only [Body.computedCullingRadius, Body.getBoundingRadius, Example.earth,
      Constants.celestia, stdMax]
    norm_num
  have h2 : Example.earth.cullingRadiusAsMaximum Constants.celestia = 6378 := by
    simp only [Body.cullingRadiusAsMaximum, Body.getBoundingRadius, Example.earth,
      Constants.celestia, List.append_nil, List.nil_append, List.foldl, List.cons_append]
    norm_num [max_def]
  refine ⟨h1, h2, ?_⟩
  rw [h1, h2]
  norm_num

/-- C9, amended: after `recomputeCullingRadius` the cached culling radius is the largest of
the bounding radius plus the larger of the atmosphere's height and cloud height (the plain
bounding radius without an atmosphere), the outer radius of the rings when present, the
bounding radius of every reference mark, and one astronomical unit for a comet. -/
theorem cullingRadius_stacked (K : Constants) (b : Body) :
    (b.recomputeCullingRadius K).getCullingRadius = b.cullingRadiusStacked K := by
  rw [Body.getCullingRadius, recomputeCullingRadius_cullingRadius, computedCullingRadius_eq]

theorem stdMax_le_stdMax {a a' b b' : ℚ} (ha : a ≤ a') (hb : b ≤ b') :
    stdMax a b ≤ stdMax a' b' := by
  rw [stdMax_eq_max, stdMax_eq_max]
  exact max_le_max ha hb

theorem le_stdMax_left (a b : ℚ) : a ≤ stdMax a b := by
  rw [stdMax_eq_max]
  exact le_max_left a b

/-- The loop over the reference marks is monotone in its start value. -/
theorem foldl_marks_mono (marks : List ReferenceMark) {r r' : ℚ} (h : r ≤ r') :
    marks.foldl (fun r rm => stdMax r rm.boundingSphereRadius) r ≤
      marks.foldl (fun r rm => stdMax r rm.boundingSphereRadius) r' := by
  induction marks generalizing r r' with
  | nil => exact h
  | cons m ms ih =>
    simp only [List.foldl_cons]
    exact ih (stdMax_le_stdMax h (le_refl _))

/-- The steps of `recomputeCullingRadius` after the atmosphere: rings, reference marks and
the comet floor, from the start value `r`. -/
theorem computedCullingRadius_mono (K : Constants) (b b' : Body)
    (hclass : b'.classification = b.classification)
    (hstart :
      (match b.atmosphere with
        | some a => b.getBoundingRadius K + stdMax a.height a.cloudHeight
        | none => b.getBoundingRadius K) ≤
      (match b'.atmosphere with
        | some a => b'.getBoundingRadius K + stdMax a.height a.cloudHeight
        | none => b'.getBoundingRadius K))
    (hrings : ∀ r r' : ℚ, r ≤ r' →
      (match b.rings with
        | some rg => stdMax r rg.outerRadius
        | none => r) ≤
      (match b'.rings with
        | some rg => stdMax r' rg.outerRadius
        | none => r'))
    (hmarks : ∀ r r' : ℚ, r ≤ r' →
      (match b.referenceMarks with
        | some marks =>
          marks.foldl (fun r (rm : ReferenceMark) => stdMax r rm.boundingSphereRadius) r
        | none => r) ≤
      (match b'.referenceMarks with
        | some marks =>
          marks.foldl (fun r (rm : ReferenceMark) => stdMax r rm.boundingSphereRadius) r'
        | none => r')) :
    b.computedCullingRadius K ≤ b'.computedCullingRadius K := by
  unfold Body.computedCullingRadius
  simp only [hclass]
  have h3 := hmarks _ _ (hrings _ _ hstart)
  split_ifs
  · exact stdMax_le_stdMax h3 (le_refl _)
  · exact h3

/-- After `recomputeCullingRadius` the cache is current. -/
theorem recomputeCullingRadius_current (K : Constants) (b : Body) :
    (b.recomputeCullingRadius K).cullingRadiusCurrent K := by
  unfold Body.cullingRadiusCurrent Body.getCullingRadius
  rw [recomputeCullingRadius_cullingRadius, computedCullingRadius_recompute]

theorem marks_step_refl (ms : Option (List ReferenceMark)) (r r' : ℚ) (h : r ≤ r') :
    (match ms with
      | some marks =>
        marks.foldl (fun r (rm : ReferenceMark) => stdMax r rm.boundingSphereRadius) r
      | none => r) ≤
    (match ms with
      | some marks =>
        marks.foldl (fun r (rm : ReferenceMark) => stdMax r rm.boundingSphereRadius) r'
      | none => r') := by
  cases ms with
  | none => exact h
  | some marks => exact foldl_marks_mono marks h

theorem rings_step_refl (rs : Option RingSystem) (r r' : ℚ) (h : r ≤ r') :
    (match rs with
      | some rg => stdMax r rg.outerRadius
      | none => r) ≤
    (match rs with
      | some rg => stdMax r' rg.outerRadius
      | none => r') := by
  cases rs with
  | none => exact h
  | some rg => exact stdMax_le_stdMax h (le_refl _)

/-- The attributes that the culling radius is computed from are not changed by
`recomputeCullingRadius`. -/
theorem recomputeCullingRadius_attributes (K : Constants) (b : Body) :
    (b.recomputeCullingRadius K).radius = b.radius ∧
      (b.recomputeCullingRadius K).geometry = b.geometry ∧
      (b.recomputeCullingRadius K).atmosphere = b.atmosphere ∧
      (b.recomputeCullingRadius K).rings = b.rings ∧
      (b.recomputeCullingRadius K).referenceMarks = b.referenceMarks ∧
      (b.recomputeCullingRadius K).classification = b.classification := by
  unfold Body.recomputeCullingRadius
  by_cases h : b.computedCullingRadius K = b.cullingRadius
  · simp [h]
  · simp only [ne_eq, h, not_false_eq_true, if_true, Body.markChanged]
    cases b.timeline <;> exact ⟨rfl, rfl, rfl, rfl, rfl, rfl⟩

/-- Adding a reference mark does not lower the computed radius. -/
theorem computed_addReferenceMark (K : Constants) (b : Body) (m : ReferenceMark) :
    b.computedCullingRadius K ≤ (b.addReferenceMark K m).computedCullingRadius K := by
  unfold Body.addReferenceMark
  rw [computedCullingRadius_recompute]
  refine computedCullingRadius_mono K b
    { b with referenceMarks := some ((match b.referenceMarks with
        | some marks => marks
        | none => []) ++ [m]) }
    rfl (le_refl _) (rings_step_refl b.rings) ?_
  intro r r' h
  cases b.referenceMarks with
  | none =>
    simp only [List.nil_append, List.foldl_cons, List.foldl_nil]
    exact le_trans h (le_stdMax_left _ _)
  | some marks =>
    simp only [List.foldl_append, List.foldl_cons, List.foldl_nil]
    exact le_trans (foldl_marks_mono marks h) (le_stdMax_left _ _)

/-- Setting rings that are at least as large as the old ones does not lower the computed
radius. -/
theorem computed_setRings (K : Constants) (b : Body) (rings : RingSystem)
    (h : match b.rings with
      | none => True
      | some old => old.outerRadius ≤ rings.outerRadius) :
    b.computedCullingRadius K ≤ (b.setRings K rings).computedCullingRadius K := by
  unfold Body.setRings
  rw [computedCullingRadius_recompute]
  refine computedCullingRadius_mono K b { b with rings := some rings }
    rfl (le_refl _) ?_ (marks_step_refl b.referenceMarks)
  intro r r' hr
  cases hb : b.rings with
  | none => exact le_trans hr (le_stdMax_left _ _)
  | some old =>
    rw [hb] at h
    exact stdMax_le_stdMax hr h

/-- Setting an atmosphere that is at least as high as the old one, or on a body without
one an atmosphere that does not reach below the surface, does not lower the computed
radius. -/
theorem computed_setAtmosphere (K : Constants) (b : Body) (a : Atmosphere)
    (h : match b.atmosphere with
      | none => 0 ≤ max a.height a.cloudHeight
      | some old => old.height ≤ a.height ∧ old.cloudHeight ≤ a.cloudHeight) :
    b.computedCullingRadius K ≤ (b.setAtmosphere K a).computedCullingRadius K := by
  unfold Body.setAtmosphere
  rw [computedCullingRadius_recompute]
  refine computedCullingRadius_mono K b { b with atmosphere := some a }
    rfl ?_ (rings_step_refl b.rings) (marks_step_refl b.referenceMarks)
  cases hb : b.atmosphere with
  | none =>
    rw [hb] at h
    simp only [Body.getBoundingRadius, stdMax_eq_max]
    linarith
  | some old =>
    rw [hb] at h
    simp only [Body.getBoundingRadius]
    have := stdMax_le_stdMax h.1 h.2
    linarith

/-- C11 fails as stated, in two ways. A body of radius 1 with a current culling radius of
1 and no atmosphere gets the culling radius 1/2 from `setAtmosphere` with the heights
`-1/2` and `-1`. A body whose cached radius is stale (it had a mesh and a current cache,
and `setGeometry` took the mesh away) gets the culling radius 1 from `addReferenceMark`,
below the cached value. -/
theorem cullingRadius_can_decrease :
    (Example.unitBody.atmosphere = none ∧
      (Example.unitBody.setAtmosphere Constants.celestia ⟨-1 / 2, -1⟩).getCullingRadius <
        Example.unitBody.getCullingRadius) ∧
    (Example.meshed.cullingRadiusCurrent Constants.celestia ∧
      (Example.unmeshed.addReferenceMark Constants.celestia
          Example.smallMark).getCullingRadius <
        Example.unmeshed.getCullingRadius) := by
  refine ⟨⟨rfl, ?_⟩, ?_, ?_⟩
  · rw [Body.getCullingRadius, Body.setAtmosphere, recomputeCullingRadius_cullingRadius]
    simp only [Body.computedCullingRadius, Body.getBoundingRadius, Example.unitBody,
      Constants.celestia, stdMax, Body.getCullingRadius]
    norm_num
  · simp only [Body.cullingRadiusCurrent, Body.getCullingRadius, Body.computedCullingRadius,
      Body.getBoundingRadius, Example.meshed, Constants.celestia]
    norm_num
  · rw [Body.getCullingRadius, Body.addReferenceMark, recomputeCullingRadius_cullingRadius]
    simp only [Example.unmeshed, Body.setGeometry, Body.computedCullingRadius,
      Body.getBoundingRadius, Example.meshed, Example.smallMark, Constants.celestia, stdMax,
      Body.getCullingRadius, List.nil_append, List.foldl_cons, List.foldl_nil]
    norm_num

/-- C11, amended: for a body whose cached culling radius is current, `getCullingRadius`
does not decrease by `addReferenceMark` of any mark, by `setRings` when the body had no
rings or the new outer radius is at least the old one, and by `setAtmosphere` when the new
height and cloud height are at least the old ones or, on a body without an atmosphere, the
larger of the two heights is not negative. -/
theorem cullingRadius_monotone (K : Constants) (b : Body) (hcur : b.cullingRadiusCurrent K) :
    (∀ m : ReferenceMark, b.getCullingRadius ≤ (b.addReferenceMark K m).getCullingRadius) ∧
    (∀ rings : RingSystem,
      (match b.rings with
        | none => True
        | some old => old.outerRadius ≤ rings.outerRadius) →
      b.getCullingRadius ≤ (b.setRings K rings).getCullingRadius) ∧
    (∀ a : Atmosphere,
      (match b.atmosphere with
        | none => 0 ≤ max a.height a.cloudHeight
        | some old => old.height ≤ a.height ∧ old.cloudHeight ≤ a.cloudHeight) →
      b.getCullingRadius ≤ (b.setAtmosphere K a).getCullingRadius) := by
  unfold Body.cullingRadiusCurrent at hcur
  refine ⟨fun m => ?_, fun rings h => ?_, fun a h => ?_⟩
  · have hnew := recomputeCullingRadius_current K
      { b with referenceMarks := some ((match b.referenceMarks with
          | some marks => marks
          | none => []) ++ [m]) }
    have hm := computed_addReferenceMark K b m
    unfold Body.addReferenceMark at hm ⊢
    unfold Body.cullingRadiusCurrent at hnew
    rw [hcur, hnew]
    exact hm
  · have hnew := recomputeCullingRadius_current K { b with rings := some rings }
    have hm := computed_setRings K b rings h
    unfold Body.setRings at hm ⊢
    unfold Body.cullingRadiusCurrent at hnew
    rw [hcur, hnew]
    exact hm
  · have hnew := recomputeCullingRadius_current K { b with atmosphere := some a }
    have hm := computed_setAtmosphere K b a h
    unfold Body.setAtmosphere at hm ⊢
    unfold Body.cullingRadiusCurrent at hnew
    rw [hcur, hnew]
    exact hm

/-- Witness for the amended C11: the unit body, with a small mark, rings of outer radius 5
and an atmosphere 60 km high. -/
theorem cullingRadius_monotone_witness :
    Example.unitBody.getCullingRadius ≤
        (Example.unitBody.addReferenceMark Constants.celestia
          Example.smallMark).getCullingRadius ∧
      Example.unitBody.getCullingRadius ≤
        (Example.unitBody.setRings Constants.celestia ⟨5⟩).getCullingRadius ∧
      Example.unitBody.getCullingRadius ≤
        (Example.unitBody.setAtmosphere Constants.celestia ⟨60, 7⟩).getCullingRadius :=
  have hcur : Example.unitBody.cullingRadiusCurrent Constants.celestia := by
    simp only [Body.cullingRadiusCurrent, Body.getCullingRadius, Body.computedCullingRadius,
      Body.getBoundingRadius, Example.unitBody, Constants.celestia]
    norm_num
  ⟨(cullingRadius_monotone Constants.celestia Example.unitBody hcur).1 Example.smallMark,
   (cullingRadius_monotone Constants.celestia Example.unitBody hcur).2.1 ⟨5⟩ trivial,
   (cullingRadius_monotone Constants.celestia Example.unitBody hcur).2.2 ⟨60, 7⟩ (by
      show (0 : ℚ) ≤ max 60 7
      norm_num)⟩

/-- `markChanged` does not touch the culling radius or what it is computed from. -/
theorem markChanged_current (K : Constants) (b : Body) (h : b.cullingRadiusCurrent K) :
    (Body.markChanged b).cullingRadiusCurrent K := by
  unfold Body.cullingRadiusCurrent Body.getCullingRadius at h ⊢
  unfold Body.markChanged
  cases b.timeline <;> exact h

/-- The mutators that end in `recomputeCullingRadius` leave the cache current. -/
theorem recomputing_mutators_current (K : Constants) (b : Body) :
    (∀ v, (b.setSemiAxes K v).cullingRadiusCurrent K) ∧
      (∀ r, (b.setRings K r).cullingRadiusCurrent K) ∧
      (∀ a, (b.setAtmosphere K a).cullingRadiusCurrent K) ∧
      (∀ c, (b.setClassification K c).cullingRadiusCurrent K) ∧
      (∀ m, (b.addReferenceMark K m).cullingRadiusCurrent K) :=
  ⟨fun _ => recomputeCullingRadius_current K _, fun _ => recomputeCullingRadius_current K _,
    fun _ => recomputeCullingRadius_current K _,
    fun _ => markChanged_current K _ (recomputeCullingRadius_current K _),
    fun _ => recomputeCullingRadius_current K _⟩

/-- C12 at its failing input: the unit body has a current cache (culling radius 1 for
radius 1 without a mesh); after `setGeometry(7)` the cached culling radius is still 1
while `recomputeCullingRadius` would compute the radius times the square root of three,
so the cache is stale. -/
theorem setGeometry_leaves_cache_stale :
    Example.unitBody.cullingRadiusCurrent Constants.celestia ∧
      (Body.setGeometry Example.unitBody 7).getCullingRadius = 1 ∧
      (Body.setGeometry Example.unitBody 7).computedCullingRadius Constants.celestia =
        17320508 / 10000000 ∧
      ¬ (Body.setGeometry Example.unitBody 7).cullingRadiusCurrent Constants.celestia := by
  have h1 : (Body.setGeometry Example.unitBody 7).getCullingRadius = 1 := rfl
  have h2 : (Body.setGeometry Example.unitBody 7).computedCullingRadius Constants.celestia =
      17320508 / 10000000 := by
    simp only [Body.setGeometry, Body.computedCullingRadius, Body.getBoundingRadius,
      Example.unitBody, Constants.celestia]
    norm_num
  refine ⟨?_, h1, h2, ?_⟩
  · simp only [Body.cullingRadiusCurrent, Body.getCullingRadius, Body.computedCullingRadius,
      Body.getBoundingRadius, Example.unitBody, Constants.celestia]
    norm_num
  · unfold Body.cullingRadiusCurrent
    rw [h1, h2]
    norm_num

/-- C13: timeline replacement. For a timeline `n` that the body does not hold,
`setTimeline(n)` makes `getTimeline` return `n`, calls `markChanged` once, which notifies
`n`, and changes nothing else; `setTimeline` with the timeline the body holds returns the
body unchanged. -/
theorem setTimeline_spec (b : Body) (n : Nat) (h : b.timeline ≠ some n) :
    (b.setTimeline (some n)).getTimeline = some n ∧
      b.setTimeline (some n) =
        { b with
          timeline := some n
          markChangedCalls := b.markChangedCalls + 1
          notified := n :: b.notified } ∧
      b.setTimeline b.timeline = b := by
  refine ⟨?_, ?_, ?_⟩
  · simp [Body.setTimeline, h, Body.markChanged, Body.getTimeline]
  · simp [Body.setTimeline, h, Body.markChanged]
  · simp [Body.setTimeline]

/-- Witness for C13: the unit body, which holds timeline 0, is given timeline 1. -/
theorem setTimeline_spec_witness :
    (Example.unitBody.setTimeline (some 1)).getTimeline = some 1 ∧
      Example.unitBody.setTimeline (some 1) =
        { Example.unitBody with
          timeline := some 1
          markChangedCalls := Example.unitBody.markChangedCalls + 1
          notified := 1 :: Example.unitBody.notified } ∧
      Example.unitBody.setTimeline Example.unitBody.timeline = Example.unitBody :=
  setTimeline_spec Example.unitBody 1 (by simp [Example.unitBody])

/-! ## The name index -/

theorem lookup_eq_none_iff (name : String) (l : List (String × Nat)) :
    ObjectIndex.lookup name l = none ↔ name ∉ l.map Prod.fst := by
  induction l with
  | nil => simp [ObjectIndex.lookup]
  | cons e rest ih =>
    by_cases h : e.1 = name
    · simp [ObjectIndex.lookup, h]
    · have h' : ¬ name = e.1 := fun h2 => h h2.symm
      simp only [ObjectIndex.lookup, h, if_false, ih, List.map_cons, List.mem_cons, h',
        false_or]

theorem mem_of_lookup_eq_some (name : String) (v : Nat) (l : List (String × Nat))
    (h : ObjectIndex.lookup name l = some v) : (name, v) ∈ l := by
  induction l with
  | nil => simp [ObjectIndex.lookup] at h
  | cons e rest ih =>
    by_cases he : e.1 = name
    · simp only [ObjectIndex.lookup, he, if_true, Option.some.injEq] at h
      have : e = (name, v) := Prod.ext he h
      rw [this]
      exact List.mem_cons_self _ _
    · simp only [ObjectIndex.lookup, he, if_false] at h
      exact List.mem_cons_of_mem _ (ih h)

/-- In a list without repeated keys, an entry is what the lookup of its key gives. -/
theorem lookup_of_mem (name : String) (v : Nat) (l : List (String × Nat))
    (hn : (l.map Prod.fst).Nodup) (h : (name, v) ∈ l) :
    ObjectIndex.lookup name l = some v := by
  induction l with
  | nil => simp at h
  | cons e rest ih =>
    rw [List.map_cons, List.nodup_cons] at hn
    rcases List.mem_cons.1 h with h1 | h1
    · simp [ObjectIndex.lookup, ← h1]
    · have hkey : name ∈ rest.map Prod.fst := List.mem_map_of_mem Prod.fst h1
      have hne : ¬ e.1 = name := fun h2 => hn.1 (h2 ▸ hkey)
      simp only [ObjectIndex.lookup, hne, if_false]
      exact ih hn.2 h1

theorem lookup_cons (k : String) (e : String × Nat) (rest : List (String × Nat)) :
    ObjectIndex.lookup k (e :: rest) =
      if e.1 = k then some e.2 else ObjectIndex.lookup k rest := rfl

theorem lookup_append_singleton (k name : String) (v : Nat) (l : List (String × Nat)) :
    ObjectIndex.lookup k (l ++ [(name, v)]) =
      match ObjectIndex.lookup k l with
      | some found => some found
      | none => if name = k then some v else none := by
  induction l with
  | nil => simp [ObjectIndex.lookup]
  | cons e rest ih =>
    rw [List.cons_append, lookup_cons, lookup_cons]
    by_cases h : e.1 = k
    · rw [if_pos h, if_pos h]
    · rw [if_neg h, if_neg h]
      exact ih

theorem lookup_filter (k name : String) (l : List (String × Nat)) :
    ObjectIndex.lookup k (l.filter (fun e => decide (e.1 ≠ name))) =
      if k = name then none else ObjectIndex.lookup k l := by
  induction l with
  | nil =>
    rw [List.filter_nil]
    split_ifs <;> rfl
  | cons e rest ih =>
    rw [List.filter_cons]
    by_cases h : e.1 = name
    · have hd : decide (e.1 ≠ name) = false := by simp [h]
      rw [hd, if_neg Bool.false_ne_true, ih, lookup_cons]
      by_cases hk : k = name
      · rw [if_pos hk, if_pos hk]
      · have hek : ¬ e.1 = k := fun h2 => hk (h2 ▸ h)
        rw [if_neg hk, if_neg hk, if_neg hek]
    · have hd : decide (e.1 ≠ name) = true := by simp [h]
      rw [hd, if_pos rfl, lookup_cons, ih, lookup_cons]
      by_cases hk : k = name
      · have hek : ¬ e.1 = k := fun h2 => h (h2.trans hk)
        rw [if_pos hk, if_pos hk, if_neg hek]
      · rw [if_neg hk, if_neg hk]

/-- What `find` gives after `insert`: an existing entry for the name stays. -/
theorem find_insert (idx : ObjectIndex) (name : String) (body : Nat) (k : String) :
    (idx.insert name body).find k =
      if k = name then some ((idx.find name).getD body) else idx.find k := by
  unfold ObjectIndex.insert ObjectIndex.find
  by_cases hmem : name ∈ idx.entries.map Prod.fst
  · rw [dif_pos hmem]
    by_cases hk : k = name
    · subst hk
      rw [if_pos rfl]
      cases hl : ObjectIndex.lookup k idx.entries with
      | none => exact absurd hmem ((lookup_eq_none_iff k idx.entries).1 hl)
      | some v => rfl
    · rw [if_neg hk]
  · rw [dif_neg hmem]
    simp only [lookup_append_singleton]
    by_cases hk : k = name
    · subst hk
      rw [(lookup_eq_none_iff k idx.entries).2 hmem]
      simp
    · have hk' : ¬ name = k := fun h => hk h.symm
      rw [if_neg hk]
      cases ObjectIndex.lookup k idx.entries <;> simp [hk']

/-- What `find` gives after `erase`. -/
theorem find_erase (idx : ObjectIndex) (name k : String) :
    (idx.erase name).find k = if k = name then none else idx.find k := by
  unfold ObjectIndex.erase ObjectIndex.find
  exact lookup_filter k name idx.entries

/-- Every entry after `insert` is an old entry or maps to the inserted body. -/
theorem mem_insert (idx : ObjectIndex) (name : String) (body : Nat) (e : String × Nat)
    (h : e ∈ (idx.insert name body).entries) : e ∈ idx.entries ∨ e = (name, body) := by
  unfold ObjectIndex.insert at h
  by_cases hmem : name ∈ idx.entries.map Prod.fst
  · rw [dif_pos hmem] at h
    exact Or.inl h
  · rw [dif_neg hmem] at h
    simpa using h

/-! ## Aliases -/

/-- What the index gives for an alias after `addAlias`: the body that held the alias
before, when there was one. -/
theorem find_addAlias (sys : PlanetarySystem) (body : Nat) (aliasName : String) :
    (sys.addAlias body aliasName).objectIndex.find aliasName =
      some ((sys.objectIndex.find aliasName).getD body) := by
  unfold PlanetarySystem.addAlias
  simp only [find_insert, if_true]

/-- C18 at its failing input: in system 0 of the example the alias "Luna" belongs to
Vesta (body 4); after `addAlias(body 6, "Luna")` the index still maps "Luna" to body 4,
the old entry is not replaced. -/
theorem addAlias_keeps_old_entry :
    (Example.world.systems 0).objectIndex.find "Luna" = some 4 ∧
      ((Example.world.systems 0).addAlias 6 "Luna").objectIndex.find "Luna" = some 4 ∧
      ((Example.world.systems 0).addAlias 6 "Luna").objectIndex.find "Luna" ≠ some 6 := by
  decide

/-- C19: `removeAlias` is guarded. The satellites are never changed; the system is
unchanged when the alias is absent or mapped to another body; otherwise the entries that
remain are the old entries other than the one for the alias, one entry fewer, and the
lookup of every other name is what it was. -/
theorem removeAlias_guarded (sys : PlanetarySystem) (body : Nat) (aliasName : String) :
    (sys.removeAlias body aliasName).satellites = sys.satellites ∧
      (sys.objectIndex.find aliasName ≠ some body → sys.removeAlias body aliasName = sys) ∧
      (sys.objectIndex.find aliasName = some body →
        (∀ e, e ∈ (sys.removeAlias body aliasName).objectIndex.entries ↔
          e ∈ sys.objectIndex.entries ∧ e ≠ (aliasName, body)) ∧
        (sys.removeAlias body aliasName).objectIndex.entries.length + 1 =
          sys.objectIndex.entries.length ∧
        (sys.removeAlias body aliasName).objectIndex.find aliasName = none ∧
        ∀ k, k ≠ aliasName →
          (sys.removeAlias body aliasName).objectIndex.find k = sys.objectIndex.find k) := by
  refine ⟨?_, ?_, ?_⟩
  · unfold PlanetarySystem.removeAlias
    cases sys.objectIndex.find aliasName with
    | none => rfl
    | some found => by_cases h : found = body <;> simp [h]
  · intro h
    unfold PlanetarySystem.removeAlias
    cases hf : sys.objectIndex.find aliasName with
    | none => rfl
    | some found =>
      have hne : ¬ found = body := fun h2 => h (by rw [hf, h2])
      simp [hne]
  · intro h
    have hrm : sys.removeAlias body aliasName =
        { sys with objectIndex := sys.objectIndex.erase aliasName } := by
      unfold PlanetarySystem.removeAlias
      simp [h]
    have hmem : (aliasName, body) ∈ sys.objectIndex.entries :=
      mem_of_lookup_eq_some aliasName body _ h
    rw [hrm]
    refine ⟨?_, ?_, ?_, ?_⟩
    · intro e
      simp only [ObjectIndex.erase, List.mem_filter, decide_eq_true_eq]
      constructor
      · rintro ⟨he, hk⟩
        exact ⟨he, fun h2 => hk (by rw [h2])⟩
      · rintro ⟨he, hk⟩
        refine ⟨he, fun h2 => hk ?_⟩
        have hl := lookup_of_mem e.1 e.2 _ sys.objectIndex.nodup he
        rw [h2] at hl
        have : ObjectIndex.lookup aliasName sys.objectIndex.entries = some body := h
        rw [this] at hl
        exact Prod.ext h2 (Option.some.inj hl).symm
    · simp only [ObjectIndex.erase]
      have hcount : ∀ (l : List (String × Nat)), (l.map Prod.fst).Nodup →
          (aliasName, body) ∈ l →
          (l.filter (fun e => decide (e.1 ≠ aliasName))).length + 1 = l.length := by
        intro l
        induction l with
        | nil => intro _ hm; simp at hm
        | cons e rest ih =>
          intro hn hm
          rw [List.map_cons, List.nodup_cons] at hn
          rw [List.filter_cons]
          by_cases hk : e.1 = aliasName
          · have hd : decide (e.1 ≠ aliasName) = false := by simp [hk]
            rw [hd, if_neg Bool.false_ne_true, List.length_cons]
            have hall : List.filter (fun e => decide (e.1 ≠ aliasName)) rest = rest := by
              rw [List.filter_eq_self]
              intro x hx
              simp only [decide_eq_true_eq]
              intro hxk
              exact hn.1 (by rw [hk, ← hxk]; exact List.mem_map_of_mem Prod.fst hx)
            rw [hall]
          · have hd : decide (e.1 ≠ aliasName) = true := by simp [hk]
            rw [hd, if_pos rfl, List.length_cons, List.length_cons]
            have hrest : (aliasName, body) ∈ rest := by
              rcases List.mem_cons.1 hm with h1 | h1
              · exact absurd (by rw [← h1]) hk
              · exact h1
            rw [ih hn.2 hrest]
      exact hcount _ sys.objectIndex.nodup hmem
    · simp only [find_erase, if_true]
    · intro k hk
      simp only [find_erase, if_neg hk]

/-! ## Replacing a body -/

/-- After `removeAlias(body, alias)` every entry is an old entry, and none is the entry
of the alias for the body. -/
theorem mem_removeAlias (sys : PlanetarySystem) (body : Nat) (aliasName : String)
    (e : String × Nat) (h : e ∈ (sys.removeAlias body aliasName).objectIndex.entries) :
    e ∈ sys.objectIndex.entries ∧ e ≠ (aliasName, body) := by
  unfold PlanetarySystem.removeAlias at h
  cases hf : sys.objectIndex.find aliasName with
  | none =>
    rw [hf] at h
    refine ⟨h, fun h2 => ?_⟩
    have hl := lookup_of_mem e.1 e.2 _ sys.objectIndex.nodup h
    rw [h2] at hl
    have hf' : ObjectIndex.lookup aliasName sys.objectIndex.entries = none := hf
    rw [hf'] at hl
    exact Option.noConfusion hl
  | some found =>
    rw [hf] at h
    by_cases hb : found = body
    · simp only [hb, if_true, ObjectIndex.erase, List.mem_filter, decide_eq_true_eq] at h
      exact ⟨h.1, fun h2 => h.2 (by rw [h2])⟩
    · simp only [hb, if_false] at h
      refine ⟨h, fun h2 => ?_⟩
      have hl := lookup_of_mem e.1 e.2 _ sys.objectIndex.nodup h
      rw [h2] at hl
      have hf' : ObjectIndex.lookup aliasName sys.objectIndex.entries = some found := hf
      rw [hf'] at hl
      exact hb (Option.some.inj hl)

/-- After `removeBodyFromNameIndex(body)` no entry maps one of the names of the body to
the body, and no entry is new. -/
theorem mem_removeAll (body : Nat) (names : List String) :
    ∀ (sys : PlanetarySystem) (e : String × Nat),
      e ∈ (names.foldl (fun s name => s.removeAlias body name) sys).objectIndex.entries →
      e ∈ sys.objectIndex.entries ∧ ∀ name ∈ names, e ≠ (name, body) := by
  induction names with
  | nil =>
    intro sys e h
    exact ⟨h, fun name hn => absurd hn (List.not_mem_nil _)⟩
  | cons n rest ih =>
    intro sys e h
    rw [List.foldl_cons] at h
    obtain ⟨h1, h2⟩ := ih (sys.removeAlias body n) e h
    obtain ⟨h3, h4⟩ := mem_removeAlias sys body n e h1
    refine ⟨h3, fun name hn => ?_⟩
    rcases List.mem_cons.1 hn with h5 | h5
    · rw [h5]
      exact h4
    · exact h2 name h5

/-- After `addBodyToNameIndex(body)` every entry is an old entry or maps to the body. -/
theorem mem_addAll (body : Nat) (names : List String) :
    ∀ (sys : PlanetarySystem) (e : String × Nat),
      e ∈ (names.foldl
        (fun s name => { s with objectIndex := s.objectIndex.insert name body })
        sys).objectIndex.entries →
      e ∈ sys.objectIndex.entries ∨ e.2 = body := by
  induction names with
  | nil =>
    intro sys e h
    exact Or.inl h
  | cons n rest ih =>
    intro sys e h
    rw [List.foldl_cons] at h
    rcases ih _ e h with h1 | h1
    · rcases mem_insert sys.objectIndex n body e h1 with h2 | h2
      · exact Or.inl h2
      · exact Or.inr (by rw [h2])
    · exact Or.inr h1

/-- C16: `replaceBody` leaves no stale alias. When every index entry that maps to
`oldBody` has one of the names of `oldBody` as its key, and `newBody` is another body,
then after `replaceBody(oldBody, newBody)` no entry of the index maps to `oldBody`; names
that the two bodies share are no exception. -/
theorem replaceBody_no_stale_alias (bodies : Nat → Body) (sys : PlanetarySystem)
    (oldBody newBody : Nat)
    (hkeys : ∀ e ∈ sys.objectIndex.entries, e.2 = oldBody → e.1 ∈ (bodies oldBody).getNames)
    (hne : newBody ≠ oldBody) :
    ∀ e ∈ (sys.replaceBody bodies oldBody newBody).objectIndex.entries, e.2 ≠ oldBody := by
  intro e he hold
  unfold PlanetarySystem.replaceBody PlanetarySystem.addBodyToNameIndex
    PlanetarySystem.removeBodyFromNameIndex at he
  rcases mem_addAll newBody _ _ e he with h1 | h1
  · obtain ⟨h2, h3⟩ := mem_removeAll oldBody _ _ e h1
    have hname := hkeys e h2 hold
    exact h3 e.1 hname (Prod.ext rfl hold)
  · exact hne (h1.symm.trans hold)

/-- Witness for C16: body 6 of system 0 is replaced by body 5; no entry of the index
maps to body 6 afterwards. -/
theorem replaceBody_no_stale_alias_witness :
    ((Example.world.systems 0).replaceBody Example.world.bodies 6 5).objectIndex.entries.all
      (fun e => decide (e.2 ≠ 6)) = true :=
  List.all_eq_true.2 (fun e he => decide_eq_true
    (replaceBody_no_stale_alias Example.world.bodies (Example.world.systems 0) 6 5
      (by decide) (by decide) e he))

/-- C17 at its failing input: body 5 has the names "Moon" and "Luna", and in system 0
the alias "Luna" is held by Vesta (body 4). After `replaceBody(body 6, body 5)` the name
"Moon" resolves to body 5, but `find("Luna", false, true)` returns body 4. -/
theorem replaceBody_name_taken :
    (Example.world.bodies 5).getNames = ["Moon", "Luna"] ∧
      PlanetarySystem.find (Example.world.replaceBody 0 6 5) Example.strings 1 0 "Moon"
        false true = some (some 5) ∧
      PlanetarySystem.find (Example.world.replaceBody 0 6 5) Example.strings 1 0 "Luna"
        false true = some (some 4) := by
  decide

/-! ## Lookup by name -/

/-- The index part of `find` on a hit. -/
theorem findInIndex_hit (W : World) (sys : PlanetarySystem) (name : String) (b : Nat)
    (hidx : sys.objectIndex.find name = some b) (i18n : Bool) :
    PlanetarySystem.findInIndex W sys name i18n =
      if i18n = true ∨ (W.bodies b).hasLocalizedName = false ∨
          name ≠ (W.bodies b).localizedName then some b
      else none := by
  unfold PlanetarySystem.findInIndex
  rw [hidx]
  cases i18n with
  | true => simp
  | false =>
    cases hl : (W.bodies b).hasLocalizedName with
    | false => simp [hl]
    | true => simp [Body.getLocalizedName, hl]

/-- C14 fails as stated: with a comparison that ignores case, the index of the system maps
"Mars" to body 1, which has a localized name, and "Mars" is that localized name; without
`deepSearch` the rejected hit gives the null pointer, but with `deepSearch` and without
`i18n` the search continues through the satellites, where the primary name "mars" of
body 1 compares equal to "Mars", and `find` returns body 1. -/
theorem find_deep_returns_rejected :
    (Example.foldingWorld.systems 0).objectIndex.find "Mars" = some 1 ∧
    (Example.foldingWorld.bodies 1).hasLocalizedName = true ∧
    (Example.foldingWorld.bodies 1).getLocalizedName = "Mars" ∧
    PlanetarySystem.find Example.foldingWorld Example.folding 1 0 "Mars" false false =
      some none ∧
    PlanetarySystem.find Example.foldingWorld Example.folding 1 0 "Mars" true false =
      some (some 1) := by
  decide

/-- C14, amended: localized names and `find`. When the index of system `s` maps `name` to
body `b`, `find` with `i18n = true` returns `b`; with `i18n = false` it returns `b` when
`b` has no localized name or `name` differs from the localized name of `b`; otherwise the
hit is rejected: without `deepSearch` the result is the null pointer, so that `find`
returns `b` exactly in the former case, and with `deepSearch` the result is that of the
loop over the satellites, which can be `b` again. -/
theorem find_index_hit (W : World) (E : Strings) (s : Nat) (name : String) (b : Nat)
    (hidx : (W.systems s).objectIndex.find name = some b) :
    (∀ fuel deepSearch,
      PlanetarySystem.find W E (fuel + 1) s name deepSearch true = some (some b)) ∧
    (∀ fuel deepSearch,
      ((W.bodies b).hasLocalizedName = false ∨ name ≠ (W.bodies b).localizedName) →
      PlanetarySystem.find W E (fuel + 1) s name deepSearch false = some (some b)) ∧
    (∀ fuel,
      ((W.bodies b).hasLocalizedName = true ∧ name = (W.bodies b).localizedName) →
      PlanetarySystem.find W E (fuel + 1) s name false false = some none ∧
      PlanetarySystem.find W E (fuel + 1) s name true false =
        PlanetarySystem.findInSatellites W E
          (fun sub => PlanetarySystem.find W E fuel sub name true false) name false
          (W.systems s).satellites) ∧
    (∀ fuel,
      PlanetarySystem.find W E (fuel + 1) s name false false = some (some b) ↔
        ((W.bodies b).hasLocalizedName = false ∨ name ≠ (W.bodies b).localizedName)) := by
  have hacc : ∀ fuel deepSearch,
      ((W.bodies b).hasLocalizedName = false ∨ name ≠ (W.bodies b).localizedName) →
      PlanetarySystem.find W E (fuel + 1) s name deepSearch false = some (some b) := by
    intro fuel deepSearch h
    simp only [PlanetarySystem.find, findInIndex_hit W _ name b hidx]
    simp [h]
  have hrej : ∀ fuel,
      ((W.bodies b).hasLocalizedName = true ∧ name = (W.bodies b).localizedName) →
      PlanetarySystem.find W E (fuel + 1) s name false false = some none ∧
      PlanetarySystem.find W E (fuel + 1) s name true false =
        PlanetarySystem.findInSatellites W E
          (fun sub => PlanetarySystem.find W E fuel sub name true false) name false
          (W.systems s).satellites := by
    intro fuel h
    simp only [PlanetarySystem.find, findInIndex_hit W _ name b hidx]
    simp [h.1, h.2]
  refine ⟨?_, hacc, hrej, ?_⟩
  · intro fuel deepSearch
    simp only [PlanetarySystem.find, findInIndex_hit W _ name b hidx]
    simp
  · intro fuel
    constructor
    · intro hfind
      by_contra hcon
      have hc : (W.bodies b).hasLocalizedName = true ∧ name = (W.bodies b).localizedName := by
        constructor
        · cases hl : (W.bodies b).hasLocalizedName with
          | true => rfl
          | false => exact absurd (Or.inl hl) hcon
        · by_contra hn
          exact hcon (Or.inr hn)
      rw [(hrej fuel hc).1] at hfind
      exact Option.noConfusion (Option.some.inj hfind)
    · exact hacc fuel false

/-- Witness for C14: in system 0 of the example the index maps "Marte", the localized
name of Mars, to Mars (body 1). -/
theorem find_index_hit_witness :
    PlanetarySystem.find Example.world Example.strings 1 0 "Marte" false true =
        some (some 1) ∧
      PlanetarySystem.find Example.world Example.strings 1 0 "Marte" false false =
        some none :=
  have h := find_index_hit Example.world Example.strings 0 "Marte" 1 (by decide)
  ⟨h.1 0 false, (h.2.2.1 0 (by decide)).1⟩

/-! ## Deep search -/

/-- The satellite systems one level below a system of depth at most `d + 1` have depth at
most `d`; a system of depth 0 has none. -/
theorem depthLe_sub (W : World) (d s sat sub : Nat) (hd : W.depthLe d s = true)
    (hsat : sat ∈ (W.systems s).satellites)
    (hsub : (W.bodies sat).getSatellites = some sub) :
    ∃ d', d = d' + 1 ∧ W.depthLe d' sub = true := by
  cases d with
  | zero =>
    simp only [World.depthLe, List.all_eq_true] at hd
    have := hd sat hsat
    rw [hsub] at this
    simp at this
  | succ d' =>
    refine ⟨d', rfl, ?_⟩
    simp only [World.depthLe, List.all_eq_true] at hd
    have := hd sat hsat
    rw [hsub] at this
    exact this

/-- The loop over the satellites consults the recursive call only on the systems of the
satellites in the list. -/
theorem findInSatellites_congr (W : World) (E : Strings) (f g : Nat → Option (Option Nat))
    (name : String) (i18n : Bool) :
    ∀ (l : List Nat),
      (∀ sat ∈ l, ∀ sub, (W.bodies sat).getSatellites = some sub → f sub = g sub) →
      PlanetarySystem.findInSatellites W E f name i18n l =
        PlanetarySystem.findInSatellites W E g name i18n l := by
  intro l
  induction l with
  | nil => intro _; rfl
  | cons sat rest ih =>
    intro h
    have ih' := ih (fun x hx sub hs => h x (List.mem_cons_of_mem _ hx) sub hs)
    unfold PlanetarySystem.findInSatellites
    cases hs : (W.bodies sat).getSatellites with
    | none => simp only [ih']
    | some sub =>
      have hfg := h sat (List.mem_cons_self _ _) sub hs
      simp only [hfg, ih']

/-- The loop over the satellites returns when every recursive call it can make returns. -/
theorem findInSatellites_total (W : World) (E : Strings) (f : Nat → Option (Option Nat))
    (name : String) (i18n : Bool) :
    ∀ (l : List Nat),
      (∀ sat ∈ l, ∀ sub, (W.bodies sat).getSatellites = some sub → f sub ≠ none) →
      PlanetarySystem.findInSatellites W E f name i18n l ≠ none := by
  intro l
  induction l with
  | nil => intro _; simp [PlanetarySystem.findInSatellites]
  | cons sat rest ih =>
    intro h
    have ih' := ih (fun x hx sub hs => h x (List.mem_cons_of_mem _ hx) sub hs)
    unfold PlanetarySystem.findInSatellites
    split_ifs
    · simp
    · simp
    · cases hs : (W.bodies sat).getSatellites with
      | none => simpa using ih'
      | some sub =>
        have hf := h sat (List.mem_cons_self _ _) sub hs
        cases hfs : f sub with
        | none => exact absurd hfs hf
        | some r =>
          cases r with
          | none => simpa [hfs] using ih'
          | some body => simp [hfs]

/-- For a tree of depth at most `d` below `s`, `find` returns with `d + 1` units of fuel,
and more fuel gives the same result. -/
theorem find_total (W : World) (E : Strings) (name : String) (deepSearch i18n : Bool) :
    ∀ (d s : Nat), W.depthLe d s = true →
      PlanetarySystem.find W E (d + 1) s name deepSearch i18n ≠ none ∧
      ∀ k, PlanetarySystem.find W E (d + 1 + k) s name deepSearch i18n =
        PlanetarySystem.find W E (d + 1) s name deepSearch i18n := by
  intro d
  induction d with
  | zero =>
    intro s hd
    have hnone : ∀ sat ∈ (W.systems s).satellites, ∀ sub,
        (W.bodies sat).getSatellites = some sub → False := by
      intro sat hsat sub hsub
      obtain ⟨d', h0, _⟩ := depthLe_sub W 0 s sat sub hd hsat hsub
      omega
    constructor
    · simp only [PlanetarySystem.find]
      cases PlanetarySystem.findInIndex W (W.systems s) name i18n with
      | some m => simp
      | none =>
        cases deepSearch with
        | false => simp
        | true =>
          simp only [if_true]
          exact findInSatellites_total W E _ name i18n _
            (fun sat hsat sub hsub => (hnone sat hsat sub hsub).elim)
    · intro k
      have hk : 0 + 1 + k = k + 1 := by omega
      rw [hk]
      simp only [PlanetarySystem.find]
      cases PlanetarySystem.findInIndex W (W.systems s) name i18n with
      | some m => rfl
      | none =>
        cases deepSearch with
        | false => rfl
        | true =>
          simp only [if_true]
          exact findInSatellites_congr W E _ _ name i18n _
            (fun sat hsat sub hsub => (hnone sat hsat sub hsub).elim)
  | succ d ih =>
    intro s hd
    have hsubs : ∀ sat ∈ (W.systems s).satellites, ∀ sub,
        (W.bodies sat).getSatellites = some sub → W.depthLe d sub = true := by
      intro sat hsat sub hsub
      obtain ⟨d', h0, h1⟩ := depthLe_sub W (d + 1) s sat sub hd hsat hsub
      have : d' = d := by omega
      rw [← this]
      exact h1
    constructor
    · simp only [PlanetarySystem.find]
      cases PlanetarySystem.findInIndex W (W.systems s) name i18n with
      | some m => simp
      | none =>
        cases deepSearch with
        | false => simp
        | true =>
          simp only [if_true]
          exact findInSatellites_total W E _ name i18n _
            (fun sat hsat sub hsub => (ih sub (hsubs sat hsat sub hsub)).1)
    · intro k
      have hk : d + 1 + 1 + k = (d + 1 + k) + 1 := by omega
      rw [hk]
      simp only [PlanetarySystem.find]
      cases PlanetarySystem.findInIndex W (W.systems s) name i18n with
      | some m => rfl
      | none =>
        cases deepSearch with
        | false => rfl
        | true =>
          simp only [if_true]
          exact findInSatellites_congr W E _ _ name i18n _
            (fun sat hsat sub hsub => (ih sub (hsubs sat hsat sub hsub)).2 k)

/-- A body that the loop over the satellites returns, without localized names, is a
satellite of the list whose primary name compares equal to the name, or the result of a
recursive call on the system of a satellite of the list. -/
theorem findInSatellites_sound (W : World) (E : Strings) (f : Nat → Option (Option Nat))
    (name : String) (r : Nat) :
    ∀ (l : List Nat),
      PlanetarySystem.findInSatellites W E f name false l = some (some r) →
      (r ∈ l ∧ E.UTF8StringCompare ((W.bodies r).getName false) name = 0) ∨
        ∃ sat ∈ l, ∃ sub, (W.bodies sat).getSatellites = some sub ∧
          f sub = some (some r) := by
  intro l
  induction l with
  | nil => intro h; simp [PlanetarySystem.findInSatellites] at h
  | cons sat rest ih =>
    intro h
    have lift : ((r ∈ rest ∧ E.UTF8StringCompare ((W.bodies r).getName false) name = 0) ∨
        ∃ x ∈ rest, ∃ sub, (W.bodies x).getSatellites = some sub ∧ f sub = some (some r)) →
        (r ∈ sat :: rest ∧ E.UTF8StringCompare ((W.bodies r).getName false) name = 0) ∨
        ∃ x ∈ sat :: rest, ∃ sub, (W.bodies x).getSatellites = some sub ∧
          f sub = some (some r) := by
      rintro (⟨h1, h2⟩ | ⟨x, hx, sub, h1, h2⟩)
      · exact Or.inl ⟨List.mem_cons_of_mem _ h1, h2⟩
      · exact Or.inr ⟨x, List.mem_cons_of_mem _ hx, sub, h1, h2⟩
    unfold PlanetarySystem.findInSatellites at h
    by_cases hm : E.UTF8StringCompare ((W.bodies sat).getName false) name = 0
    · rw [if_pos hm] at h
      have hr : sat = r := Option.some.inj (Option.some.inj h)
      subst hr
      exact Or.inl ⟨List.mem_cons_self _ _, hm⟩
    · rw [if_neg hm] at h
      simp only [Bool.false_and, Bool.false_eq_true, if_false] at h
      cases hs : (W.bodies sat).getSatellites with
      | none =>
        rw [hs] at h
        exact lift (ih h)
      | some sub =>
        rw [hs] at h
        cases hfs : f sub with
        | none => simp [hfs] at h
        | some res =>
          cases res with
          | none =>
            simp only [hfs] at h
            exact lift (ih h)
          | some body =>
            simp only [hfs, Option.some.injEq] at h
            subst h
            exact Or.inr ⟨sat, List.mem_cons_self _ _, sub, hs, hfs⟩

/-- The loop over the satellites returns a body when all its recursive calls return and
some satellite of the list has a primary name that compares equal to the name, or the
recursive call on its system returns a body. -/
theorem findInSatellites_complete (W : World) (E : Strings)
    (f : Nat → Option (Option Nat)) (name : String) (i18n : Bool) :
    ∀ (l : List Nat),
      (∀ sat ∈ l, ∀ sub, (W.bodies sat).getSatellites = some sub → f sub ≠ none) →
      (∃ x ∈ l, E.UTF8StringCompare ((W.bodies x).getName false) name = 0 ∨
        ∃ sub r, (W.bodies x).getSatellites = some sub ∧ f sub = some (some r)) →
      ∃ r, PlanetarySystem.findInSatellites W E f name i18n l = some (some r) := by
  intro l
  induction l with
  | nil =>
    rintro _ ⟨x, hx, _⟩
    exact absurd hx (List.not_mem_nil _)
  | cons sat rest ih =>
    intro htot hex
    have ih' := ih (fun x hx sub hs => htot x (List.mem_cons_of_mem _ hx) sub hs)
    unfold PlanetarySystem.findInSatellites
    by_cases hm : E.UTF8StringCompare ((W.bodies sat).getName false) name = 0
    · exact ⟨sat, by rw [if_pos hm]⟩
    · rw [if_neg hm]
      split_ifs
      · exact ⟨sat, rfl⟩
      · have hrest : (∀ sub r, (W.bodies sat).getSatellites = some sub →
            f sub ≠ some (some r)) →
            ∃ x ∈ rest, E.UTF8StringCompare ((W.bodies x).getName false) name = 0 ∨
              ∃ sub r, (W.bodies x).getSatellites = some sub ∧ f sub = some (some r) := by
          intro hno
          obtain ⟨x, hx, hcase⟩ := hex
          rcases List.mem_cons.1 hx with h1 | h1
          · subst h1
            rcases hcase with h2 | ⟨sub, r, h2, h3⟩
            · exact absurd h2 hm
            · exact absurd h3 (hno sub r h2)
          · exact ⟨x, h1, hcase⟩
        cases hs : (W.bodies sat).getSatellites with
        | none =>
          simp only []
          exact ih' (hrest (fun sub r h2 => by rw [hs] at h2; exact Option.noConfusion h2))
        | some sub =>
          have hf := htot sat (List.mem_cons_self _ _) sub hs
          cases hfs : f sub with
          | none => exact absurd hfs hf
          | some res =>
            cases res with
            | some body => exact ⟨body, by simp [hfs]⟩
            | none =>
              simp only [hfs]
              refine ih' (hrest (fun sub' r h2 h3 => ?_))
              rw [hs] at h2
              have : sub = sub' := Option.some.inj h2
              subst this
              rw [hfs] at h3
              exact Option.noConfusion (Option.some.inj h3)

/-- The system relation is transitive along one step at the top. -/
theorem systemBelow_step (W : World) (s sat sub t : Nat)
    (hsat : sat ∈ (W.systems s).satellites)
    (hsub : (W.bodies sat).getSatellites = some sub)
    (h : World.SystemBelow W sub t) : World.SystemBelow W s t :=
  World.SystemBelow.step s sat sub t hsat hsub h

/-- Every body that `find` returns without localized names is reached through an index
entry for the name or has a primary name that compares equal to the name. -/
theorem find_sound (W : World) (E : Strings) (name : String) (deepSearch : Bool) :
    ∀ (fuel s r : Nat),
      PlanetarySystem.find W E fuel s name deepSearch false = some (some r) →
      W.FoundFor E s name r := by
  intro fuel
  induction fuel with
  | zero => intro s r h; simp [PlanetarySystem.find] at h
  | succ n ih =>
    intro s r h
    simp only [PlanetarySystem.find] at h
    cases hi : PlanetarySystem.findInIndex W (W.systems s) name false with
    | some m =>
      rw [hi] at h
      have hm : m = r := Option.some.inj (Option.some.inj h)
      subst hm
      refine ⟨s, World.SystemBelow.refl s, Or.inl ?_⟩
      unfold PlanetarySystem.findInIndex at hi
      cases hf : (W.systems s).objectIndex.find name with
      | none => simp [hf] at hi
      | some found =>
        rw [hf] at hi
        simp only [Bool.false_eq_true, if_false] at hi
        split_ifs at hi
        exact congrArg some (Option.some.inj hi)
    | none =>
      rw [hi] at h
      cases deepSearch with
      | false => simp at h
      | true =>
        simp only [if_true] at h
        rcases findInSatellites_sound W E _ name r _ h with ⟨h1, h2⟩ | ⟨sat, hsat, sub, h1, h2⟩
        · exact ⟨s, World.SystemBelow.refl s, Or.inr ⟨h1, h2⟩⟩
        · obtain ⟨t, ht, hcase⟩ := ih sub r h2
          exact ⟨t, systemBelow_step W s sat sub t hsat h1 ht, hcase⟩

/-- A deep search finds some body when a satellite at any depth has a primary name that
compares equal to the name. -/
theorem find_complete (W : World) (E : Strings) (name : String) (i18n : Bool) (b : Nat)
    (hmatch : E.UTF8StringCompare ((W.bodies b).getName false) name = 0) :
    ∀ (s t : Nat), World.SystemBelow W s t → b ∈ (W.systems t).satellites →
      ∀ d, W.depthLe d s = true →
        ∃ r, PlanetarySystem.find W E (d + 1) s name true i18n = some (some r) := by
  intro s t hst
  induction hst with
  | refl s =>
    intro hb d hd
    simp only [PlanetarySystem.find]
    cases PlanetarySystem.findInIndex W (W.systems s) name i18n with
    | some m => exact ⟨m, rfl⟩
    | none =>
      simp only [if_true]
      refine findInSatellites_complete W E _ name i18n _ ?_ ⟨b, hb, Or.inl hmatch⟩
      intro sat hsat sub hsub
      obtain ⟨d', h0, h1⟩ := depthLe_sub W d s sat sub hd hsat hsub
      subst h0
      exact (find_total W E name true i18n d' sub h1).1
  | step s sat sub t hsat hsub _ ih =>
    intro hb d hd
    obtain ⟨d', h0, h1⟩ := depthLe_sub W d s sat sub hd hsat hsub
    subst h0
    obtain ⟨r, hr⟩ := ih hb d' h1
    simp only [PlanetarySystem.find]
    cases PlanetarySystem.findInIndex W (W.systems s) name i18n with
    | some m => exact ⟨m, rfl⟩
    | none =>
      simp only [if_true]
      refine findInSatellites_complete W E _ name i18n _ ?_
        ⟨sat, hsat, Or.inr ⟨sub, r, hsub, hr⟩⟩
      intro sat' hsat' sub' hsub'
      obtain ⟨d'', h0, h2⟩ := depthLe_sub W (d' + 1) s sat' sub' hd hsat' hsub'
      have : d'' = d' := by omega
      subst this
      exact (find_total W E name true i18n d'' sub' h2).1

/-- C15: deep search completeness. For a tree of planetary systems of depth at most `d`
below `s` and a name that compares equal to itself: when some body at any depth below `s`
has the primary name `name`, `find(name, deepSearch = true, i18n = false)` returns a body
(with any fuel from `d + 1` on), and that body is reached through an index entry for the
name in a system of the tree or is a satellite in the tree whose primary name compares
equal to the name; with `deepSearch = false` and no index entry for the name in `s` the
result is the null pointer. -/
theorem find_deep_complete (W : World) (E : Strings) (d s : Nat) (name : String) (b : Nat)
    (hrefl : E.UTF8StringCompare name name = 0)
    (hdepth : W.depthLe d s = true) (hbelow : W.Below s b)
    (hname : (W.bodies b).getName false = name) :
    (∃ r, (∀ k, PlanetarySystem.find W E (d + 1 + k) s name true false = some (some r)) ∧
        W.FoundFor E s name r) ∧
      (∀ fuel i18n, (W.systems s).objectIndex.find name = none →
        PlanetarySystem.find W E (fuel + 1) s name false i18n = some none) := by
  constructor
  · obtain ⟨t, hst, hb⟩ := hbelow
    have hmatch : E.UTF8StringCompare ((W.bodies b).getName false) name = 0 := by
      rw [hname]
      exact hrefl
    obtain ⟨r, hr⟩ := find_complete W E name false b hmatch s t hst hb d hdepth
    refine ⟨r, fun k => ?_, find_sound W E name true (d + 1) s r hr⟩
    rw [(find_total W E name true false d s hdepth).2 k]
    exact hr
  · intro fuel i18n hnone
    simp [PlanetarySystem.find, PlanetarySystem.findInIndex, hnone]

/-- Witness for C15: Stickney (body 3) is a grandchild of system 0 of the example. -/
theorem find_deep_complete_witness :
    (∃ r, (∀ k, PlanetarySystem.find Example.world Example.strings (2 + 1 + k) 0 "Stickney"
          true false = some (some r)) ∧
        Example.world.FoundFor Example.strings 0 "Stickney" r) ∧
      (∀ fuel i18n, (Example.world.systems 0).objectIndex.find "Stickney" = none →
        PlanetarySystem.find Example.world Example.strings (fuel + 1) 0 "Stickney" false
          i18n = some none) :=
  find_deep_complete Example.world Example.strings 2 0 "Stickney" 3 (by decide) (by decide)
    ⟨2, World.SystemBelow.step 0 1 1 2 (by decide) (by decide)
        (World.SystemBelow.step 1 2 2 2 (by decide) (by decide) (World.SystemBelow.refl 2)),
      by decide⟩
    (by decide)

/-! ## Completion -/

/-- The strings that the loop over the index collects. -/
theorem mem_completionOfIndex (E : Strings) (name : String) (i18n : Bool) (x : String) :
    ∀ (l : List (String × Nat)),
      x ∈ PlanetarySystem.completionOfIndex E name i18n l ↔
        ∃ e ∈ l, E.offers name i18n e.1 x := by
  intro l
  induction l with
  | nil => simp [PlanetarySystem.completionOfIndex]
  | cons e rest ih =>
    simp only [PlanetarySystem.completionOfIndex, List.mem_append, ih, List.mem_cons,
      exists_eq_or_imp]
    apply or_congr_left
    unfold Strings.offers Strings.hasPrefix
    by_cases h1 : E.UTF8StringCompareN e.1 name (E.UTF8Length name) = 0
    · simp [h1]
    · cases i18n with
      | false => simp [h1]
      | true =>
        by_cases h2 : E.D_ e.1 ≠ e.1 ∧
            E.UTF8StringCompareN (E.D_ e.1) name (E.UTF8Length name) = 0
        · simp [h1, h2]
        · simp only [h1, if_false, if_true, h2, List.not_mem_nil, false_and, not_false_eq_true,
            true_and, false_or, false_iff, ne_eq]
          intro h3
          exact h2 ⟨h3.1, h3.2.1⟩

/-- The loop over the satellites consults the recursive call only on the systems of the
satellites in the list. -/
theorem completionOfSatellites_congr (W : World) (f g : Nat → Option (List String)) :
    ∀ (l : List Nat),
      (∀ sat ∈ l, ∀ sub, (W.bodies sat).getSatellites = some sub → f sub = g sub) →
      PlanetarySystem.completionOfSatellites W f l =
        PlanetarySystem.completionOfSatellites W g l := by
  intro l
  induction l with
  | nil => intro _; rfl
  | cons sat rest ih =>
    intro h
    have ih' := ih (fun x hx sub hs => h x (List.mem_cons_of_mem _ hx) sub hs)
    unfold PlanetarySystem.completionOfSatellites
    cases hs : (W.bodies sat).getSatellites with
    | none => simp only [ih']
    | some sub =>
      have hfg := h sat (List.mem_cons_self _ _) sub hs
      simp only [hfg, ih']

/-- The loop over the satellites returns when every recursive call it makes returns, and
then holds exactly the strings of those calls. -/
theorem completionOfSatellites_spec (W : World) (f : Nat → Option (List String)) :
    ∀ (l : List Nat),
      (∀ sat ∈ l, ∀ sub, (W.bodies sat).getSatellites = some sub → f sub ≠ none) →
      ∃ more, PlanetarySystem.completionOfSatellites W f l = some more ∧
        ∀ x, x ∈ more ↔
          ∃ sat ∈ l, ∃ sub o, (W.bodies sat).getSatellites = some sub ∧ f sub = some o ∧
            x ∈ o := by
  intro l
  induction l with
  | nil =>
    intro _
    exact ⟨[], rfl, fun x => by simp⟩
  | cons sat rest ih =>
    intro h
    obtain ⟨more, hmore, hmem⟩ :=
      ih (fun x hx sub hs => h x (List.mem_cons_of_mem _ hx) sub hs)
    unfold PlanetarySystem.completionOfSatellites
    cases hs : (W.bodies sat).getSatellites with
    | none =>
      refine ⟨more, hmore, fun x => ?_⟩
      rw [hmem x]
      constructor
      · rintro ⟨y, hy, rest'⟩
        exact ⟨y, List.mem_cons_of_mem _ hy, rest'⟩
      · rintro ⟨y, hy, sub, o, h1, h2⟩
        rcases List.mem_cons.1 hy with h3 | h3
        · rw [h3, hs] at h1
          exact Option.noConfusion h1
        · exact ⟨y, h3, sub, o, h1, h2⟩
    | some sub =>
      have hf := h sat (List.mem_cons_self _ _) sub hs
      cases hfs : f sub with
      | none => exact absurd hfs hf
      | some o =>
        refine ⟨o ++ more, by simp [hfs, hmore], fun x => ?_⟩
        rw [List.mem_append, hmem x]
        constructor
        · rintro (h1 | ⟨y, hy, rest'⟩)
          · exact ⟨sat, List.mem_cons_self _ _, sub, o, hs, hfs, h1⟩
          · exact ⟨y, List.mem_cons_of_mem _ hy, rest'⟩
        · rintro ⟨y, hy, sub', o', h1, h2, h3⟩
          rcases List.mem_cons.1 hy with h4 | h4
          · rw [h4, hs] at h1
            have : sub = sub' := Option.some.inj h1
            subst this
            rw [hfs] at h2
            have : o = o' := Option.some.inj h2
            subst this
            exact Or.inl h3
          · exact Or.inr ⟨y, h4, sub', o', h1, h2, h3⟩

/-- One unfolding of `getCompletion`. -/
theorem getCompletion_succ (W : World) (E : Strings) (fuel s : Nat) (name : String)
    (i18n deepSearch : Bool) :
    PlanetarySystem.getCompletion W E (fuel + 1) s name i18n deepSearch =
      if deepSearch then
        (PlanetarySystem.completionOfSatellites W
          (fun sub => PlanetarySystem.getCompletion W E fuel sub name i18n
            E.getCompletionDefault) (W.systems s).satellites).map
          (fun more =>
            PlanetarySystem.completionOfIndex E name i18n (W.systems s).objectIndex.entries ++
              more)
      else
        some (PlanetarySystem.completionOfIndex E name i18n
          (W.systems s).objectIndex.entries) := rfl

/-- For a tree of depth at most `d` below `s`, `getCompletion` returns with `d + 1` units
of fuel, and more fuel gives the same result. -/
theorem getCompletion_total (W : World) (E : Strings) (name : String) (i18n : Bool) :
    ∀ (d s : Nat) (deepSearch : Bool), W.depthLe d s = true →
      PlanetarySystem.getCompletion W E (d + 1) s name i18n deepSearch ≠ none ∧
      ∀ k, PlanetarySystem.getCompletion W E (d + 1 + k) s name i18n deepSearch =
        PlanetarySystem.getCompletion W E (d + 1) s name i18n deepSearch := by
  intro d
  induction d with
  | zero =>
    intro s deepSearch hd
    have hnone : ∀ sat ∈ (W.systems s).satellites, ∀ sub,
        (W.bodies sat).getSatellites = some sub → False := by
      intro sat hsat sub hsub
      obtain ⟨d', h0, _⟩ := depthLe_sub W 0 s sat sub hd hsat hsub
      omega
    constructor
    · rw [getCompletion_succ]
      cases deepSearch with
      | false => simp
      | true =>
        obtain ⟨more, hmore, _⟩ := completionOfSatellites_spec W
          (fun sub => PlanetarySystem.getCompletion W E 0 sub name i18n
            E.getCompletionDefault) (W.systems s).satellites
          (fun sat hsat sub hsub => (hnone sat hsat sub hsub).elim)
        simp [hmore]
    · intro k
      have hk : 0 + 1 + k = k + 1 := by omega
      rw [hk, getCompletion_succ, getCompletion_succ]
      cases deepSearch with
      | false => rfl
      | true =>
        simp only [if_true]
        rw [completionOfSatellites_congr W _
          (fun sub => PlanetarySystem.getCompletion W E 0 sub name i18n
            E.getCompletionDefault) _
          (fun sat hsat sub hsub => (hnone sat hsat sub hsub).elim)]
  | succ d ih =>
    intro s deepSearch hd
    have hsubs : ∀ sat ∈ (W.systems s).satellites, ∀ sub,
        (W.bodies sat).getSatellites = some sub → W.depthLe d sub = true := by
      intro sat hsat sub hsub
      obtain ⟨d', h0, h1⟩ := depthLe_sub W (d + 1) s sat sub hd hsat hsub
      have : d' = d := by omega
      rw [← this]
      exact h1
    constructor
    · rw [getCompletion_succ]
      cases deepSearch with
      | false => simp
      | true =>
        obtain ⟨more, hmore, _⟩ := completionOfSatellites_spec W
          (fun sub => PlanetarySystem.getCompletion W E (d + 1) sub name i18n
            E.getCompletionDefault) (W.systems s).satellites
          (fun sat hsat sub hsub => (ih sub _ (hsubs sat hsat sub hsub)).1)
        simp [hmore]
    · intro k
      have hk : d + 1 + 1 + k = (d + 1 + k) + 1 := by omega
      rw [hk, getCompletion_succ, getCompletion_succ]
      cases deepSearch with
      | false => rfl
      | true =>
        simp only [if_true]
        rw [completionOfSatellites_congr W _
          (fun sub => PlanetarySystem.getCompletion W E (d + 1) sub name i18n
            E.getCompletionDefault) _
          (fun sat hsat sub hsub => (ih sub _ (hsubs sat hsat sub hsub)).2 k)]

/-- Every string that the loop over the satellites holds comes from a recursive call on
the system of a satellite of the list. -/
theorem completionOfSatellites_mem (W : World) (f : Nat → Option (List String))
    (x : String) :
    ∀ (l : List Nat) (more : List String),
      PlanetarySystem.completionOfSatellites W f l = some more → x ∈ more →
      ∃ sat ∈ l, ∃ sub o, (W.bodies sat).getSatellites = some sub ∧ f sub = some o ∧
        x ∈ o := by
  intro l
  induction l with
  | nil =>
    intro more h hx
    simp only [PlanetarySystem.completionOfSatellites, Option.some.injEq] at h
    rw [← h] at hx
    exact absurd hx (List.not_mem_nil _)
  | cons sat rest ih =>
    intro more h hx
    unfold PlanetarySystem.completionOfSatellites at h
    cases hs : (W.bodies sat).getSatellites with
    | none =>
      rw [hs] at h
      obtain ⟨y, hy, rest'⟩ := ih more h hx
      exact ⟨y, List.mem_cons_of_mem _ hy, rest'⟩
    | some sub =>
      rw [hs] at h
      cases hfs : f sub with
      | none => simp [hfs] at h
      | some o =>
        cases hr : PlanetarySystem.completionOfSatellites W f rest with
        | none => simp [hfs, hr] at h
        | some more' =>
          simp only [hfs, hr, Option.some.injEq] at h
          rw [← h, List.mem_append] at hx
          rcases hx with h1 | h1
          · exact ⟨sat, List.mem_cons_self _ _, sub, o, hs, hfs, h1⟩
          · obtain ⟨y, hy, rest'⟩ := ih more' hr h1
            exact ⟨y, List.mem_cons_of_mem _ hy, rest'⟩

/-- Every string that `getCompletion` returns is offered for an index key of a system of
the tree below `s`. -/
theorem getCompletion_sound (W : World) (E : Strings) (name : String) (i18n : Bool)
    (x : String) :
    ∀ (fuel s : Nat) (deepSearch : Bool) (out : List String),
      PlanetarySystem.getCompletion W E fuel s name i18n deepSearch = some out → x ∈ out →
      ∃ t, World.SystemBelow W s t ∧ ∃ e ∈ (W.systems t).objectIndex.entries,
        E.offers name i18n e.1 x := by
  intro fuel
  induction fuel with
  | zero => intro s deepSearch out h; simp [PlanetarySystem.getCompletion] at h
  | succ n ih =>
    intro s deepSearch out h hx
    rw [getCompletion_succ] at h
    cases deepSearch with
    | false =>
      simp only [Bool.false_eq_true, if_false, Option.some.injEq] at h
      rw [← h] at hx
      exact ⟨s, World.SystemBelow.refl s, (mem_completionOfIndex E name i18n x _).1 hx⟩
    | true =>
      simp only [if_true] at h
      cases hm : PlanetarySystem.completionOfSatellites W
          (fun sub => PlanetarySystem.getCompletion W E n sub name i18n
            E.getCompletionDefault) (W.systems s).satellites with
      | none => simp [hm] at h
      | some more =>
        simp only [hm, Option.map_some', Option.some.injEq] at h
        rw [← h, List.mem_append] at hx
        rcases hx with h1 | h1
        · exact ⟨s, World.SystemBelow.refl s, (mem_completionOfIndex E name i18n x _).1 h1⟩
        · obtain ⟨sat, hsat, sub, o, h2, h3, h4⟩ :=
            completionOfSatellites_mem W _ x _ more hm h1
          obtain ⟨t, ht, he⟩ := ih sub _ o h3 h4
          exact ⟨t, World.SystemBelow.step s sat sub t hsat h2 ht, he⟩

/-- With a recursive default of `true`, a deep `getCompletion` holds every string that is
offered for an index key of a system of the tree below `s`. -/
theorem getCompletion_complete (W : World) (E : Strings)
    (hdef : E.getCompletionDefault = true) (name : String) (i18n : Bool) (x : String) :
    ∀ (s t : Nat), World.SystemBelow W s t →
      (∃ e ∈ (W.systems t).objectIndex.entries, E.offers name i18n e.1 x) →
      ∀ (d : Nat) (out : List String), W.depthLe d s = true →
        PlanetarySystem.getCompletion W E (d + 1) s name i18n true = some out → x ∈ out := by
  intro s t hst
  induction hst with
  | refl s =>
    intro he d out _ h
    rw [getCompletion_succ] at h
    simp only [if_true] at h
    cases hm : PlanetarySystem.completionOfSatellites W
        (fun sub => PlanetarySystem.getCompletion W E d sub name i18n
          E.getCompletionDefault) (W.systems s).satellites with
    | none => simp [hm] at h
    | some more =>
      simp only [hm, Option.map_some', Option.some.injEq] at h
      rw [← h, List.mem_append]
      exact Or.inl ((mem_completionOfIndex E name i18n x _).2 he)
  | step s sat sub t hsat hsub _ ih =>
    intro he d out hd h
    obtain ⟨d', h0, h1⟩ := depthLe_sub W d s sat sub hd hsat hsub
    subst h0
    rw [getCompletion_succ] at h
    simp only [if_true] at h
    have htot : ∀ y ∈ (W.systems s).satellites, ∀ sub',
        (W.bodies y).getSatellites = some sub' →
        PlanetarySystem.getCompletion W E (d' + 1) sub' name i18n E.getCompletionDefault ≠
          none := by
      intro y hy sub' hsub'
      obtain ⟨d'', h2, h3⟩ := depthLe_sub W (d' + 1) s y sub' hd hy hsub'
      have : d'' = d' := by omega
      subst this
      exact (getCompletion_total W E name i18n d'' sub' _ h3).1
    obtain ⟨more, hmore, hmem⟩ := completionOfSatellites_spec W
      (fun sub => PlanetarySystem.getCompletion W E (d' + 1) sub name i18n
        E.getCompletionDefault) (W.systems s).satellites htot
    rw [hmore] at h
    simp only [Option.map_some', Option.some.injEq] at h
    rw [← h, List.mem_append]
    right
    rw [hmem x]
    cases ho : PlanetarySystem.getCompletion W E (d' + 1) sub name i18n true with
    | none => exact absurd ho (getCompletion_total W E name i18n d' sub true h1).1
    | some o =>
      refine ⟨sat, hsat, sub, o, hsub, ?_, ih he d' o h1 ho⟩
      simp only [hdef]
      exact ho

/-- C20 fails as stated: system 3 of the example knows Mars by the key "Mars" only; the
translation "Marte" differs from the key and has the prefix "Mar", but the completion of
"Mar" with `i18n` is the key alone. -/
theorem getCompletion_skips_translation :
    ("Mars", 1) ∈ (Example.world.systems 3).objectIndex.entries ∧
      Example.strings.D_ "Mars" = "Marte" ∧ Example.strings.D_ "Mars" ≠ "Mars" ∧
      Example.strings.UTF8StringCompareN (Example.strings.D_ "Mars") "Mar"
        (Example.strings.UTF8Length "Mar") = 0 ∧
      PlanetarySystem.getCompletion Example.world Example.strings 3 3 "Mar" true true =
        some ["Mars"] ∧
      Example.strings.D_ "Mars" ∉ ["Mars"] := by
  decide

/-- C20, amended: for a tree of planetary systems of depth at most `d` below `s`, and
with `true` as the default of the last parameter of `getCompletion`, a deep completion
returns (with any fuel from `d + 1` on), for `s` and every satellite system at any depth
below it, every index key that has the prefix and, with `i18n`, the translation of every
index key that does not have the prefix itself while its translation differs from it and
has the prefix; a completion that is not deep returns the same for `s` alone; and every
string returned has the prefix. -/
theorem getCompletion_spec (W : World) (E : Strings) (hdef : E.getCompletionDefault = true)
    (d s : Nat) (name : String) (i18n : Bool) (hdepth : W.depthLe d s = true) :
    (∃ out,
      (∀ k, PlanetarySystem.getCompletion W E (d + 1 + k) s name i18n true = some out) ∧
      (∀ t, World.SystemBelow W s t → ∀ e ∈ (W.systems t).objectIndex.entries,
        E.hasPrefix name e.1 → e.1 ∈ out) ∧
      (i18n = true → ∀ t, World.SystemBelow W s t →
        ∀ e ∈ (W.systems t).objectIndex.entries,
          ¬ E.hasPrefix name e.1 → E.D_ e.1 ≠ e.1 → E.hasPrefix name (E.D_ e.1) →
          E.D_ e.1 ∈ out) ∧
      (∀ x ∈ out, E.hasPrefix name x)) ∧
    (∃ own,
      (∀ fuel, PlanetarySystem.getCompletion W E (fuel + 1) s name i18n false = some own) ∧
      (∀ e ∈ (W.systems s).objectIndex.entries, E.hasPrefix name e.1 → e.1 ∈ own) ∧
      (i18n = true → ∀ e ∈ (W.systems s).objectIndex.entries,
        ¬ E.hasPrefix name e.1 → E.D_ e.1 ≠ e.1 → E.hasPrefix name (E.D_ e.1) →
        E.D_ e.1 ∈ own) ∧
      (∀ x ∈ own, E.hasPrefix name x)) := by
  have hpre : ∀ x key, E.offers name i18n key x → E.hasPrefix name x := by
    intro x key h
    rcases h with ⟨h1, h2⟩ | ⟨_, _, _, h1, h2⟩
    · rw [h2]; exact h1
    · rw [h2]; exact h1
  constructor
  · obtain ⟨htot, hfuel⟩ := getCompletion_total W E name i18n d s true hdepth
    cases ho : PlanetarySystem.getCompletion W E (d + 1) s name i18n true with
    | none => exact absurd ho htot
    | some out =>
      refine ⟨out, fun k => by rw [hfuel k, ho], ?_, ?_, ?_⟩
      · intro t hst e he hp
        exact getCompletion_complete W E hdef name i18n e.1 s t hst
          ⟨e, he, Or.inl ⟨hp, rfl⟩⟩ d out hdepth ho
      · intro hi t hst e he hnp hne hp
        exact getCompletion_complete W E hdef name i18n (E.D_ e.1) s t hst
          ⟨e, he, Or.inr ⟨hnp, hi, hne, hp, rfl⟩⟩ d out hdepth ho
      · intro x hx
        obtain ⟨t, _, e, _, hoff⟩ := getCompletion_sound W E name i18n x _ s true out ho hx
        exact hpre x e.1 hoff
  · refine ⟨PlanetarySystem.completionOfIndex E name i18n (W.systems s).objectIndex.entries,
      fun fuel => by rw [getCompletion_succ]; rfl, ?_, ?_, ?_⟩
    · intro e he hp
      exact (mem_completionOfIndex E name i18n e.1 _).2 ⟨e, he, Or.inl ⟨hp, rfl⟩⟩
    · intro hi e he hnp hne hp
      exact (mem_completionOfIndex E name i18n (E.D_ e.1) _).2
        ⟨e, he, Or.inr ⟨hnp, hi, hne, hp, rfl⟩⟩
    · intro x hx
      obtain ⟨e, _, hoff⟩ := (mem_completionOfIndex E name i18n x _).1 hx
      exact hpre x e.1 hoff

/-- Witness for the amended C20: the completion of "S" from system 0 of the example, a
tree of depth 2, holds "Stickney", a key of the system of a grandchild. -/
theorem getCompletion_spec_witness :
    ∃ out,
      (∀ k, PlanetarySystem.getCompletion Example.world Example.strings (2 + 1 + k) 0 "S"
        true true = some out) ∧ "Stickney" ∈ out ∧
      ∀ x ∈ out, Example.strings.hasPrefix "S" x :=
  have h := getCompletion_spec Example.world Example.strings rfl 2 0 "S" true (by decide)
  h.1.elim (fun out hout =>
    ⟨out, hout.1,
      hout.2.1 2
        (World.SystemBelow.step 0 1 1 2 (by decide) (by decide)
          (World.SystemBelow.step 1 2 2 2 (by decide) (by decide) (World.SystemBelow.refl 2)))
        ("Stickney", 3) (by decide) (by unfold Strings.hasPrefix; decide),
      hout.2.2.2⟩)

/-! ## Termination of the position loop -/

/-- With a chain of `n` body centres the loop does not exit within `n` evaluations of its
condition. -/
theorem getPositionLoop_none_of_le {UC : Type} (U : Universe UC) (tdb : ℚ) :
    ∀ (n : Nat) (s : PositionLoop), Body.frameChain U tdb n s.frame = true →
      ∀ m, m ≤ n → Body.getPositionLoop U tdb m s = none := by
  intro n
  induction n with
  | zero =>
    intro s _ m hm
    have : m = 0 := by omega
    subst this
    rfl
  | succ n ih =>
    intro s h m hm
    cases m with
    | zero => rfl
    | succ m =>
      cases hc : s.frame.getCenter with
      | body c =>
        simp only [Body.frameChain, hc] at h
        simp only [Body.getPositionLoop, hc]
        exact ih
          { position := s.position + (s.frame.getOrientation tdb).conjugate.rotate s.p
            p := ((U.timeline c).findPhase tdb).orbit.positionAtTime tdb
            frame := ((U.timeline c).findPhase tdb).orbitFrame } h m (by omega)
      | nil => simp [Body.frameChain, hc] at h
      | star st => simp [Body.frameChain, hc] at h
      | barycenter st => simp [Body.frameChain, hc] at h

/-- When the chain of centres never reaches a centre that is not a body, the loop does
not exit, whatever the fuel. -/
theorem getPositionLoop_none_forever {UC : Type} (U : Universe UC) (tdb : ℚ) :
    ∀ (fuel : Nat) (s : PositionLoop), (∀ n, Body.frameChain U tdb n s.frame = false) →
      Body.getPositionLoop U tdb fuel s = none := by
  intro fuel
  induction fuel with
  | zero => intro s _; rfl
  | succ fuel ih =>
    intro s h
    cases hc : s.frame.getCenter with
    | body c =>
      simp only [Body.getPositionLoop, hc]
      apply ih
      intro n
      have := h (n + 1)
      simpa [Body.frameChain, hc, Body.getOrbitFrame] using this
    | nil => simpa [Body.frameChain, hc, Selection.isBody] using h 0
    | star st => simpa [Body.frameChain, hc, Selection.isBody] using h 0
    | barycenter st => simpa [Body.frameChain, hc, Selection.isBody] using h 0

/-- The chain of centres after `a + r` steps is the chain after `r` steps from the body
reached after `a` steps. -/
theorem centreAfter_add {UC : Type} (U : Universe UC) (tdb : ℚ) (r : Nat) :
    ∀ (a b : Nat), Body.centreAfter U tdb (a + r) b =
      (Body.centreAfter U tdb a b).bind (fun c => Body.centreAfter U tdb r c) := by
  intro a
  induction a with
  | zero =>
    intro b
    simp [Body.centreAfter]
  | succ a ih =>
    intro b
    have ha : a + 1 + r = (a + r) + 1 := by omega
    rw [ha]
    cases hc : (Body.getOrbitFrame U b tdb).getCenter with
    | body c => simp only [Body.centreAfter, hc, ih c]
    | nil => simp [Body.centreAfter, hc]
    | star st => simp [Body.centreAfter, hc]
    | barycenter st => simp [Body.centreAfter, hc]

/-- A chain that ends after `n` bodies has no body after `n + 1` steps. -/
theorem centreAfter_of_centreChain {UC : Type} (U : Universe UC) (tdb : ℚ) :
    ∀ (n b : Nat), Body.centreChain U tdb n b = true →
      Body.centreAfter U tdb (n + 1) b = none := by
  intro n
  induction n with
  | zero =>
    intro b h
    unfold Body.centreChain at h
    cases hc : (Body.getOrbitFrame U b tdb).getCenter with
    | body c => simp [Body.frameChain, hc, Selection.isBody] at h
    | nil => simp [Body.centreAfter, hc]
    | star st => simp [Body.centreAfter, hc]
    | barycenter st => simp [Body.centreAfter, hc]
  | succ n ih =>
    intro b h
    unfold Body.centreChain at h
    cases hc : (Body.getOrbitFrame U b tdb).getCenter with
    | body c =>
      simp only [Body.frameChain, hc] at h
      simp only [Body.centreAfter, hc]
      exact ih c h
    | nil => simp [Body.centreAfter, hc]
    | star st => simp [Body.centreAfter, hc]
    | barycenter st => simp [Body.centreAfter, hc]

/-- A chain that comes back to a body it has visited reaches a body after any number of
steps. -/
theorem centreAfter_of_cycle {UC : Type} (U : Universe UC) (tdb : ℚ) (b i j c : Nat)
    (hij : i < j) (hi : Body.centreAfter U tdb i b = some c)
    (hj : Body.centreAfter U tdb j b = some c) :
    ∀ m, Body.centreAfter U tdb m b ≠ none := by
  intro m
  induction m using Nat.strong_induction_on with
  | _ m ih =>
    by_cases hm : m ≤ j
    · intro hnone
      have hadd := centreAfter_add U tdb (j - m) m b
      have hmj : m + (j - m) = j := by omega
      rw [hmj, hj, hnone] at hadd
      exact Option.noConfusion hadd
    · have hr : m = j + (m - j) := by omega
      have h1 := centreAfter_add U tdb (m - j) j b
      have h2 := centreAfter_add U tdb (m - j) i b
      rw [hj] at h1
      rw [hi] at h2
      rw [hr, h1, ← h2]
      exact ih (i + (m - j)) (by omega)

/-- A chain that comes back to a body it has visited never ends. -/
theorem centreChain_false_of_cycle {UC : Type} (U : Universe UC) (tdb : ℚ) (b i j c : Nat)
    (hij : i < j) (hi : Body.centreAfter U tdb i b = some c)
    (hj : Body.centreAfter U tdb j b = some c) :
    ∀ n, Body.centreChain U tdb n b = false := by
  intro n
  cases h : Body.centreChain U tdb n b with
  | false => rfl
  | true =>
    exact absurd (centreAfter_of_centreChain U tdb n b h)
      (centreAfter_of_cycle U tdb b i j c hij hi hj (n + 1))

/-- C21: termination of position resolution. When the chain of orbit-frame centres of a
body ends at a centre that is not a body after `n` bodies, the loop of `getPosition` exits
at the `n + 1`-th evaluation of its condition, that is after exactly `n` iterations: it
returns with any fuel from `n + 1` on and with no fuel up to `n`. When the chain comes
back to a body it has visited (after `i` and again after `j > i` steps), the loop does not
exit and `getPosition` does not return, whatever the fuel. -/
theorem getPosition_loop_termination {UC : Type} (U : Universe UC) (b : Nat) (tdb : ℚ) :
    (∀ n, Body.centreChain U tdb n b = true →
      (∃ r, ∀ k, Body.getPositionLoop U tdb (n + 1 + k) (Body.getPositionStart U b tdb) =
        some r) ∧
      (∀ m, m ≤ n →
        Body.getPositionLoop U tdb m (Body.getPositionStart U b tdb) = none)) ∧
    (∀ i j c, i < j → Body.centreAfter U tdb i b = some c →
      Body.centreAfter U tdb j b = some c →
      ∀ fuel, Body.getPositionLoop U tdb fuel (Body.getPositionStart U b tdb) = none ∧
        Body.getPosition U fuel b tdb = none) := by
  constructor
  · intro n h
    exact ⟨getPositionLoop_total U tdb n (Body.getPositionStart U b tdb) h,
      getPositionLoop_none_of_le U tdb n (Body.getPositionStart U b tdb) h⟩
  · intro i j c hij hi hj fuel
    have hnever := centreChain_false_of_cycle U tdb b i j c hij hi hj
    have hloop : ∀ f, Body.getPositionLoop U tdb f (Body.getPositionStart U b tdb) = none :=
      fun f => getPositionLoop_none_forever U tdb f (Body.getPositionStart U b tdb) hnever
    refine ⟨hloop fuel, ?_⟩
    cases fuel with
    | zero => rfl
    | succ f =>
      have h1 := hloop (f + 1)
      unfold Body.getPositionStart at h1
      simp only [Body.getPosition, h1]

/-- Witness for C21: the loop for the moon (body 2, one body centre) exits with fuel 2
and not with fuel 1; for body 5, centred on itself, and body 6, centred on body 7 that is
centred on body 6, `getPosition` does not return with fuel 100. -/
theorem getPosition_loop_termination_witness :
    ((∃ r, ∀ k, Body.getPositionLoop Example.universe 5 (1 + 1 + k)
          (Body.getPositionStart Example.universe 2 5) = some r) ∧
      Body.getPositionLoop Example.universe 5 1
          (Body.getPositionStart Example.universe 2 5) = none) ∧
    Body.getPosition Example.universe 100 5 5 = none ∧
    Body.getPosition Example.universe 100 6 5 = none :=
  ⟨⟨((getPosition_loop_termination Example.universe 2 5).1 1 (by
        simp [Body.centreChain, Body.frameChain, Body.getOrbitFrame, Example.universe,
          Example.planetTimeline, Example.moonTimeline, findPhase_single, Example.phase,
          Example.fixedFrame, Selection.isBody])).1,
      ((getPosition_loop_termination Example.universe 2 5).1 1 (by
        simp [Body.centreChain, Body.frameChain, Body.getOrbitFrame, Example.universe,
          Example.planetTimeline, Example.moonTimeline, findPhase_single, Example.phase,
          Example.fixedFrame, Selection.isBody])).2 1 (le_refl 1)⟩,
    ((getPosition_loop_termination Example.universe 5 5).2 0 1 5 (by decide) rfl (by
        simp [Body.centreAfter, Body.getOrbitFrame, Example.universe, findPhase_single,
          Example.aroundBody, Example.phase, Example.fixedFrame]) 100).2,
    ((getPosition_loop_termination Example.universe 6 5).2 0 2 6 (by decide) rfl (by
        simp [Body.centreAfter, Body.getOrbitFrame, Example.universe, findPhase_single,
          Example.aroundBody, Example.phase, Example.fixedFrame]) 100).2⟩

/-! ## Luminosity, default properties, semi-axes -/

/-- C22 fails as stated: `getLuminosity` has no guard for a zero distance; for the unit
body, a sun luminosity of 1 and the distance 0 the division by the area of a sphere of
radius 0 gives a result that is not a finite number, and not 0. -/
theorem getLuminosity_zero_distance_not_zero :
    Body.getLuminosity Astro.celestia Example.unitBody 1 0 = none ∧
      Body.getLuminosity Astro.celestia Example.unitBody 1 0 ≠ some 0 := by
  have h : Body.getLuminosity Astro.celestia Example.unitBody 1 0 = none := by
    simp [Body.getLuminosity, fdiv, Astro.celestia]
  rw [h]
  exact ⟨rfl, fun h2 => Option.noConfusion h2⟩

/-- C22, amended: `getLuminosity` divides by the area of the sphere whose radius is the
distance, without a guard. With a sphere area that is zero for the radius zero, the result
for the distance 0 is not a finite number, for every body and sun luminosity; for a
distance whose sphere area is not zero (and a solar power that is not zero) the result is
the irradiance at the distance times the disc of the body times its reflectivity over the
solar power. -/
theorem getLuminosity_spec (A : Astro) (hsphere : A.sphereArea 0 = 0) (b : Body)
    (sunLuminosity : ℚ) :
    Body.getLuminosity A b sunLuminosity 0 = none ∧
      ∀ distanceFromSun, A.sphereArea (distanceFromSun * 1000) ≠ 0 → A.SOLAR_POWER ≠ 0 →
        Body.getLuminosity A b sunLuminosity distanceFromSun =
          some (A.SOLAR_POWER * sunLuminosity / A.sphereArea (distanceFromSun * 1000) *
            A.circleArea (b.radius * 1000) * b.reflectivity / A.SOLAR_POWER) := by
  constructor
  · simp [Body.getLuminosity, fdiv, hsphere]
  · intro d hd hp
    simp [Body.getLuminosity, fdiv, hd, hp, Body.getReflectivity]

/-- Witness for the amended C22: the unit body under a sun of luminosity 1. -/
theorem getLuminosity_spec_witness :
    Body.getLuminosity Astro.celestia Example.unitBody 1 0 = none ∧
      Body.getLuminosity Astro.celestia Example.unitBody 1 1 =
        some (Astro.celestia.SOLAR_POWER * 1 / Astro.celestia.sphereArea (1 * 1000) *
          Astro.celestia.circleArea (Example.unitBody.radius * 1000) *
          Example.unitBody.reflectivity / Astro.celestia.SOLAR_POWER) :=
  have h := getLuminosity_spec Astro.celestia (by simp [Astro.celestia]) Example.unitBody 1
  ⟨h.1, h.2 1 (by simp only [Astro.celestia]; norm_num)
    (by simp only [Astro.celestia]; norm_num)⟩

/-- What `recomputeCullingRadius` can change: the cached radius and the effect records. -/
theorem recomputeCullingRadius_shape (K : Constants) (b : Body) :
    ∃ c m n, b.recomputeCullingRadius K =
      { b with cullingRadius := c, markChangedCalls := m, notified := n } := by
  unfold Body.recomputeCullingRadius
  by_cases h : b.computedCullingRadius K = b.cullingRadius
  · exact ⟨b.cullingRadius, b.markChangedCalls, b.notified, by simp [h]⟩
  · simp only [ne_eq, h, not_false_eq_true, if_true, Body.markChanged]
    cases ht : b.timeline with
    | none => exact ⟨_, _, _, rfl⟩
    | some tl => exact ⟨_, _, _, rfl⟩

/-- Recomputing twice is recomputing once. -/
theorem recomputeCullingRadius_idem (K : Constants) (b : Body) :
    (b.recomputeCullingRadius K).recomputeCullingRadius K = b.recomputeCullingRadius K := by
  have h : (b.recomputeCullingRadius K).computedCullingRadius K =
      (b.recomputeCullingRadius K).cullingRadius := by
    rw [computedCullingRadius_recompute, recomputeCullingRadius_cullingRadius]
  generalize b.recomputeCullingRadius K = b' at h
  unfold Body.recomputeCullingRadius
  simp [h]

/-- C23: the frame of `setDefaultProperties`. The physical attributes take their default
values (radius 1, semi-axes `(1, 1, 1)`, mass, density, temperature and temperature
discrepancy 0, albedos and reflectivity 1/2, no geometry, classification `Unknown`, no
atmosphere, no rings); the satellites, the frame tree, the parent system, the timeline,
the names, the alternate surfaces, the locations and the reference marks are what they
were; and applying it to the result changes nothing. -/
theorem setDefaultProperties_frame (K : Constants) (b : Body) :
    ((b.setDefaultProperties K).radius = 1 ∧
      (b.setDefaultProperties K).semiAxes = ⟨1, 1, 1⟩ ∧
      (b.setDefaultProperties K).mass = 0 ∧
      (b.setDefaultProperties K).density = 0 ∧
      (b.setDefaultProperties K).temperature = 0 ∧
      (b.setDefaultProperties K).tempDiscrepancy = 0 ∧
      (b.setDefaultProperties K).bondAlbedo = 1 / 2 ∧
      (b.setDefaultProperties K).geomAlbedo = 1 / 2 ∧
      (b.setDefaultProperties K).reflectivity = 1 / 2 ∧
      (b.setDefaultProperties K).geometry = K.InvalidResource ∧
      (b.setDefaultProperties K).classification = K.Unknown ∧
      (b.setDefaultProperties K).atmosphere = none ∧
      (b.setDefaultProperties K).rings = none) ∧
    ((b.setDefaultProperties K).satellites = b.satellites ∧
      (b.setDefaultProperties K).frameTree = b.frameTree ∧
      (b.setDefaultProperties K).system = b.system ∧
      (b.setDefaultProperties K).timeline = b.timeline ∧
      (b.setDefaultProperties K).getNames = b.getNames ∧
      (b.setDefaultProperties K).localizedName = b.localizedName ∧
      (b.setDefaultProperties K).primaryNameLocalized = b.primaryNameLocalized ∧
      (b.setDefaultProperties K).altSurfaces = b.altSurfaces ∧
      (b.setDefaultProperties K).locations = b.locations ∧
      (b.setDefaultProperties K).referenceMarks = b.referenceMarks) ∧
    (b.setDefaultProperties K).setDefaultProperties K = b.setDefaultProperties K := by
  obtain ⟨c, m, n, h⟩ := recomputeCullingRadius_shape K (Body.withDefaults K b)
  have hset : b.setDefaultProperties K =
      { Body.withDefaults K b with cullingRadius := c, markChangedCalls := m, notified := n } :=
    h
  refine ⟨?_, ?_, ?_⟩
  · rw [hset]
    exact ⟨rfl, rfl, rfl, rfl, rfl, rfl, rfl, rfl, rfl, rfl, rfl, rfl, rfl⟩
  · rw [hset]
    exact ⟨rfl, rfl, rfl, rfl, rfl, rfl, rfl, rfl, rfl, rfl⟩
  · have hfix : Body.withDefaults K (b.setDefaultProperties K) = b.setDefaultProperties K := by
      rw [hset]
      rfl
    have hunfold : ∀ x : Body, x.setDefaultProperties K =
        Body.recomputeCullingRadius K (Body.withDefaults K x) := fun _ => rfl
    rw [hunfold (b.setDefaultProperties K), hfix, hunfold b, recomputeCullingRadius_idem]

/-- C24: the radius is the largest semi-axis. After `setSemiAxes(a)`, `getSemiAxes`
returns `a` and `getRadius` returns the largest of the three components of `a`; and
`isSphere` holds exactly for a body without geometry, that is an ellipsoid, whose three
semi-axes are equal. -/
theorem setSemiAxes_spec (K : Constants) (b : Body) (a : Vec3) :
    (b.setSemiAxes K a).getSemiAxes = a ∧
      (b.setSemiAxes K a).getRadius = max (max a.x a.y) a.z ∧
      (b.isSphere K = true ↔
        b.isEllipsoid K = true ∧ b.semiAxes.x = b.semiAxes.y ∧
          b.semiAxes.y = b.semiAxes.z) := by
  obtain ⟨c, m, n, h⟩ := recomputeCullingRadius_shape K
    { b with semiAxes := a, radius := a.maxCoeff }
  refine ⟨?_, ?_, ?_⟩
  · unfold Body.setSemiAxes Body.getSemiAxes
    rw [h]
  · unfold Body.setSemiAxes Body.getRadius
    rw [h]
    rfl
  · simp only [Body.isSphere, Body.isEllipsoid, Bool.and_eq_true, decide_eq_true_eq]
    constructor
    · rintro ⟨⟨h1, h2⟩, h3⟩
      exact ⟨h1, h2, h2.symm.trans h3⟩
    · rintro ⟨h1, h2, h3⟩
      exact ⟨⟨h1, h2⟩, h2.trans h3⟩

/-! ## Reference marks -/

/-- What `find?` with the tag test gives: the first mark with the tag, after marks that
do not have it; or nothing, when no mark has the tag. -/
theorem find_tag_spec (tag : String) :
    ∀ (marks : List ReferenceMark),
      (marks.find? (fun rm => decide (rm.getTag = tag)) = none ∧
        ∀ x ∈ marks, x.getTag ≠ tag) ∨
      ∃ pre m post, marks.find? (fun rm => decide (rm.getTag = tag)) = some m ∧
        marks = pre ++ m :: post ∧ m.getTag = tag ∧ ∀ x ∈ pre, x.getTag ≠ tag := by
  intro marks
  induction marks with
  | nil => exact Or.inl ⟨rfl, fun x hx => absurd hx (List.not_mem_nil _)⟩
  | cons a rest ih =>
    by_cases ha : a.getTag = tag
    · right
      refine ⟨[], a, rest, ?_, rfl, ha, fun x hx => absurd hx (List.not_mem_nil _)⟩
      simp [List.find?, ha]
    · rcases ih with ⟨h1, h2⟩ | ⟨pre, m, post, h1, h2, h3, h4⟩
      · left
        refine ⟨?_, ?_⟩
        · simp only [List.find?, ha, decide_False]
          exact h1
        · intro x hx
          rcases List.mem_cons.1 hx with h5 | h5
          · rw [h5]; exact ha
          · exact h2 x h5
      · right
        refine ⟨a :: pre, m, post, ?_, ?_, h3, ?_⟩
        · simp only [List.find?, ha, decide_False]
          exact h1
        · rw [h2]; rfl
        · intro x hx
          rcases List.mem_cons.1 hx with h5 | h5
          · rw [h5]; exact ha
          · exact h4 x h5

/-- Removing by address from a list without repeated addresses takes out one element. -/
theorem filter_address (pre post : List ReferenceMark) (m : ReferenceMark)
    (hn : ((pre ++ m :: post).map (fun rm => rm.address)).Nodup) :
    (pre ++ m :: post).filter (fun rm => decide (rm.address ≠ m.address)) = pre ++ post := by
  rw [List.map_append, List.map_cons, List.nodup_append] at hn
  obtain ⟨_, h2, h3⟩ := hn
  rw [List.nodup_cons] at h2
  have hpre : pre.filter (fun rm => decide (rm.address ≠ m.address)) = pre := by
    rw [List.filter_eq_self]
    intro x hx
    simp only [decide_eq_true_eq]
    intro hxa
    exact h3 (List.mem_map_of_mem (fun rm => rm.address) hx)
      (by rw [hxa]; exact List.mem_cons_self _ _)
  have hpost : post.filter (fun rm => decide (rm.address ≠ m.address)) = post := by
    rw [List.filter_eq_self]
    intro x hx
    simp only [decide_eq_true_eq]
    intro hxa
    exact h2.1 (by rw [← hxa]; exact List.mem_map_of_mem (fun rm => rm.address) hx)
  rw [List.filter_append, List.filter_cons, hpre, hpost]
  simp

/-- The first mark with the tag is what `find?` with the tag test gives. -/
theorem find_tag_first (tag : String) (m : ReferenceMark) (post : List ReferenceMark)
    (hm : m.getTag = tag) :
    ∀ (pre : List ReferenceMark), (∀ x ∈ pre, x.getTag ≠ tag) →
      (pre ++ m :: post).find? (fun rm => decide (rm.getTag = tag)) = some m := by
  intro pre
  induction pre with
  | nil => intro _; simp [List.find?, hm]
  | cons a rest ih =>
    intro h
    have ha : a.getTag ≠ tag := h a (List.mem_cons_self _ _)
    simp only [List.cons_append, List.find?, ha, decide_False]
    exact ih (fun x hx => h x (List.mem_cons_of_mem _ hx))

/-- C25: reference mark removal. `findReferenceMark(tag)` returns the null pointer when
the body has no list of marks or no mark of the list has the tag, and `removeReferenceMark`
then returns the body as it was (same list, same culling radius, no notification). When
the list is `pre`, then `m`, then `post`, where `m` has the tag and no mark of `pre` has
it, `findReferenceMark(tag)` returns `m` and `removeReferenceMark(tag)` leaves the marks
other than `m` in their order; in a list that holds no mark twice that is `pre` followed
by `post`. A list in which some mark has the tag splits in this way. -/
theorem referenceMark_removal (K : Constants) (b : Body) (tag : String) :
    (b.referenceMarks = none →
      b.findReferenceMark tag = none ∧ b.removeReferenceMark K tag = b) ∧
    (∀ marks, b.referenceMarks = some marks → (∀ x ∈ marks, x.getTag ≠ tag) →
      b.findReferenceMark tag = none ∧ b.removeReferenceMark K tag = b) ∧
    (∀ marks pre m post, b.referenceMarks = some marks → marks = pre ++ m :: post →
      m.getTag = tag → (∀ x ∈ pre, x.getTag ≠ tag) →
      b.findReferenceMark tag = some m ∧
      (b.removeReferenceMark K tag).referenceMarks =
        some (marks.filter (fun rm => decide (rm.address ≠ m.address))) ∧
      ((marks.map (fun rm => rm.address)).Nodup →
        (b.removeReferenceMark K tag).referenceMarks = some (pre ++ post))) ∧
    (∀ marks, b.referenceMarks = some marks → (∃ x ∈ marks, x.getTag = tag) →
      ∃ pre m post, marks = pre ++ m :: post ∧ m.getTag = tag ∧
        ∀ x ∈ pre, x.getTag ≠ tag) := by
  refine ⟨?_, ?_, ?_, ?_⟩
  · intro h
    simp [Body.findReferenceMark, Body.removeReferenceMark, h]
  · intro marks h hno
    have hf : b.findReferenceMark tag = none := by
      simp only [Body.findReferenceMark, h]
      rw [List.find?_eq_none]
      intro x hx
      simpa using hno x hx
    refine ⟨hf, ?_⟩
    simp only [Body.removeReferenceMark, h, hf]
  · intro marks pre m post h hsplit hm hpre
    have hf : b.findReferenceMark tag = some m := by
      simp only [Body.findReferenceMark, h]
      rw [hsplit]
      exact find_tag_first tag m post hm pre hpre
    have hrm : (b.removeReferenceMark K tag).referenceMarks =
        some (marks.filter (fun rm => decide (rm.address ≠ m.address))) := by
      simp only [Body.removeReferenceMark, h, hf]
      exact (recomputeCullingRadius_attributes K _).2.2.2.2.1
    refine ⟨hf, hrm, fun hn => ?_⟩
    rw [hrm, hsplit, filter_address pre post m (by rw [← hsplit]; exact hn)]
  · intro marks _ hex
    rcases find_tag_spec tag marks with ⟨_, h2⟩ | ⟨pre, m, post, _, h2, h3, h4⟩
    · obtain ⟨x, hx, hxt⟩ := hex
      exact absurd hxt (h2 x hx)
    · exact ⟨pre, m, post, h2, h3, h4⟩

/-- Witness for C25: the body of the examples with the marks "grid", "axes", "axes". The
first mark "axes" is found and removed, the other two stay; no mark has the tag "disk",
and removing it changes nothing. -/
theorem referenceMark_removal_witness :
    Example.marked.findReferenceMark "axes" =
      some { getTag := "axes", boundingSphereRadius := 2, address := 2 } ∧
    (Example.marked.removeReferenceMark Constants.celestia "axes").referenceMarks =
      some [{ getTag := "grid", boundingSphereRadius := 1, address := 1 },
            { getTag := "axes", boundingSphereRadius := 3, address := 3 }] ∧
    Example.marked.removeReferenceMark Constants.celestia "disk" = Example.marked :=
  have h := (referenceMark_removal Constants.celestia Example.marked "axes").2.2.1 _
    [{ getTag := "grid", boundingSphereRadius := 1, address := 1 }]
    { getTag := "axes", boundingSphereRadius := 2, address := 2 }
    [{ getTag := "axes", boundingSphereRadius := 3, address := 3 }] rfl rfl rfl
    (by decide)
  ⟨h.1, h.2.2 (by decide),
    ((referenceMark_removal Constants.celestia Example.marked "disk").2.1 _ rfl
      (by decide)).2⟩

/-! ## The order of the satellites -/

theorem firstIndex_eq_none (body : Nat) :
    ∀ (l : List Nat), firstIndex body l = none ↔ body ∉ l := by
  intro l
  induction l with
  | nil => simp [firstIndex]
  | cons x rest ih =>
    by_cases h : x = body
    · simp [firstIndex, h]
    · have h' : ¬ body = x := fun h2 => h h2.symm
      simp [firstIndex, h, h', ih]

theorem firstIndex_append (body : Nat) (post : List Nat) :
    ∀ (pre : List Nat), body ∉ pre →
      firstIndex body (pre ++ body :: post) = some pre.length := by
  intro pre
  induction pre with
  | nil => intro _; simp [firstIndex]
  | cons x rest ih =>
    intro h
    have hx : ¬ x = body := fun h2 => h (by rw [h2]; exact List.mem_cons_self _ _)
    have hrest : body ∉ rest := fun h2 => h (List.mem_cons_of_mem _ h2)
    simp [firstIndex, hx, ih hrest]

/-- The split of a list at the first occurrence of an element, and what `replaceFirst`
does there. -/
theorem replaceFirst_split (old new : Nat) :
    ∀ (l : List Nat), old ∈ l →
      ∃ pre post, l = pre ++ old :: post ∧ old ∉ pre ∧
        replaceFirst old new l = pre ++ new :: post := by
  intro l
  induction l with
  | nil => intro h; exact absurd h (List.not_mem_nil _)
  | cons x rest ih =>
    intro h
    by_cases hx : x = old
    · refine ⟨[], rest, by rw [hx]; rfl, List.not_mem_nil _, ?_⟩
      simp [replaceFirst, hx]
    · have hrest : old ∈ rest := by
        rcases List.mem_cons.1 h with h1 | h1
        · exact absurd h1.symm hx
        · exact h1
      obtain ⟨pre, post, h1, h2, h3⟩ := ih hrest
      refine ⟨x :: pre, post, by rw [h1]; rfl, ?_, ?_⟩
      · intro h4
        rcases List.mem_cons.1 h4 with h5 | h5
        · exact hx h5.symm
        · exact h2 h5
      · simp [replaceFirst, hx, h3]

theorem replaceFirst_not_mem (old new : Nat) :
    ∀ (l : List Nat), old ∉ l → replaceFirst old new l = l := by
  intro l
  induction l with
  | nil => intro _; rfl
  | cons x rest ih =>
    intro h
    have hx : ¬ x = old := fun h2 => h (by rw [h2]; exact List.mem_cons_self _ _)
    have hrest : old ∉ rest := fun h2 => h (List.mem_cons_of_mem _ h2)
    simp [replaceFirst, hx, ih hrest]

/-- The name index operations of `replaceBody` do not touch the satellites. -/
theorem satellites_removeAll (body : Nat) (names : List String) :
    ∀ (sys : PlanetarySystem),
      (names.foldl (fun s name => s.removeAlias body name) sys).satellites =
        sys.satellites := by
  induction names with
  | nil => intro sys; rfl
  | cons n rest ih =>
    intro sys
    rw [List.foldl_cons, ih]
    unfold PlanetarySystem.removeAlias
    cases sys.objectIndex.find n with
    | none => rfl
    | some found => by_cases h : found = body <;> simp [h]

theorem satellites_addAll (body : Nat) (names : List String) :
    ∀ (sys : PlanetarySystem),
      (names.foldl (fun s name => { s with objectIndex := s.objectIndex.insert name body })
        sys).satellites = sys.satellites := by
  induction names with
  | nil => intro sys; rfl
  | cons n rest ih =>
    intro sys
    rw [List.foldl_cons, ih]

/-- The satellites after `replaceBody`. -/
theorem satellites_replaceBody (bodies : Nat → Body) (sys : PlanetarySystem)
    (oldBody newBody : Nat) :
    (sys.replaceBody bodies oldBody newBody).satellites =
      replaceFirst oldBody newBody sys.satellites := by
  unfold PlanetarySystem.replaceBody PlanetarySystem.addBodyToNameIndex
    PlanetarySystem.removeBodyFromNameIndex
  rw [satellites_addAll, satellites_removeAll]

/-- C29 fails as stated: `addBody` appends without a test, so after `addBody` of the
bodies 6, 1 and 6 on an empty system the satellites are 6, 1, 6; they contain body 6 and
not body 5; after `replaceBody(6, 5)` they are 5, 1, 6 and `getOrder(6)` is 2, not -1. -/
theorem replaceBody_old_remains :
    ((((({} : PlanetarySystem).addBody Example.world.bodies 6).addBody
        Example.world.bodies 1).addBody Example.world.bodies 6).satellites = [6, 1, 6]) ∧
    ((((({} : PlanetarySystem).addBody Example.world.bodies 6).addBody
        Example.world.bodies 1).addBody Example.world.bodies 6).replaceBody
        Example.world.bodies 6 5).satellites = [5, 1, 6] ∧
    ((((({} : PlanetarySystem).addBody Example.world.bodies 6).addBody
        Example.world.bodies 1).addBody Example.world.bodies 6).replaceBody
        Example.world.bodies 6 5).getOrder 6 = 2 := by
  decide

/-- C29, amended: `replaceBody` substitutes in place. For a planetary system whose
satellites contain no body twice, contain `oldBody` and do not contain `newBody`: after
`replaceBody(oldBody, newBody)` the list has the same length and is the old list with the
first occurrence of `oldBody` replaced by `newBody`, `getOrder(newBody)` is the former
`getOrder(oldBody)`, `getOrder(oldBody)` is -1, and the list contains no body twice. When
`oldBody` is not in the list, the list is unchanged. -/
theorem replaceBody_in_place (bodies : Nat → Body) (sys : PlanetarySystem)
    (oldBody newBody : Nat) :
    (sys.satellites.Nodup → oldBody ∈ sys.satellites → newBody ∉ sys.satellites →
      (sys.replaceBody bodies oldBody newBody).satellites.length = sys.satellites.length ∧
      (∃ pre post, sys.satellites = pre ++ oldBody :: post ∧ oldBody ∉ pre ∧
        (sys.replaceBody bodies oldBody newBody).satellites = pre ++ newBody :: post) ∧
      (sys.replaceBody bodies oldBody newBody).getOrder newBody = sys.getOrder oldBody ∧
      (sys.replaceBody bodies oldBody newBody).getOrder oldBody = -1 ∧
      (sys.replaceBody bodies oldBody newBody).satellites.Nodup) ∧
    (oldBody ∉ sys.satellites →
      (sys.replaceBody bodies oldBody newBody).satellites = sys.satellites) := by
  refine ⟨fun hnodup hold hnew => ?_, fun hold => ?_⟩
  swap
  · rw [satellites_replaceBody, replaceFirst_not_mem oldBody newBody _ hold]
  obtain ⟨pre, post, h1, h2, h3⟩ := replaceFirst_split oldBody newBody sys.satellites hold
  have hsat := satellites_replaceBody bodies sys oldBody newBody
  rw [h3] at hsat
  have hne : newBody ≠ oldBody := fun h => hnew (h ▸ hold)
  have hnewpre : newBody ∉ pre := fun h => hnew (by rw [h1]; exact List.mem_append_left _ h)
  have hnewpost : newBody ∉ post := fun h =>
    hnew (by rw [h1]; exact List.mem_append_right _ (List.mem_cons_of_mem _ h))
  rw [h1] at hnodup
  have hn := List.nodup_append.1 hnodup
  have hpostn := List.nodup_cons.1 hn.2.1
  have holdpost : oldBody ∉ post := hpostn.1
  refine ⟨?_, ⟨pre, post, h1, h2, hsat⟩, ?_, ?_, ?_⟩
  · rw [hsat, h1]
    simp
  · unfold PlanetarySystem.getOrder
    rw [hsat, h1, firstIndex_append newBody post pre hnewpre,
      firstIndex_append oldBody post pre h2]
  · unfold PlanetarySystem.getOrder
    have hnot : oldBody ∉ pre ++ newBody :: post := by
      intro h
      rcases List.mem_append.1 h with h4 | h4
      · exact h2 h4
      · rcases List.mem_cons.1 h4 with h5 | h5
        · exact hne h5.symm
        · exact holdpost h5
    rw [hsat, (firstIndex_eq_none oldBody _).2 hnot]
  · rw [hsat, List.nodup_append]
    refine ⟨hn.1, List.nodup_cons.2 ⟨hnewpost, hpostn.2⟩, ?_⟩
    intro a ha hb
    rcases List.mem_cons.1 hb with h5 | h5
    · exact hnewpre (h5 ▸ ha)
    · exact hn.2.2 ha (List.mem_cons_of_mem _ h5)

/-- Witness for the amended C29: body 6 of system 0 of the example is replaced by body 5,
and replacing the absent body 9 leaves the list as it is. -/
theorem replaceBody_in_place_witness :
    ((Example.world.systems 0).replaceBody Example.world.bodies 6 5).satellites = [1, 4, 5] ∧
      ((Example.world.systems 0).replaceBody Example.world.bodies 6 5).getOrder 5 =
        (Example.world.systems 0).getOrder 6 ∧
      ((Example.world.systems 0).replaceBody Example.world.bodies 6 5).getOrder 6 = -1 ∧
      ((Example.world.systems 0).replaceBody Example.world.bodies 9 5).satellites =
        (Example.world.systems 0).satellites :=
  have h := (replaceBody_in_place Example.world.bodies (Example.world.systems 0) 6 5).1
    (by decide) (by decide) (by decide)
  ⟨by decide, h.2.2.1, h.2.2.2.1,
    (replaceBody_in_place Example.world.bodies (Example.world.systems 0) 9 5).2 (by decide)⟩

/-! ## The resource manager -/

theorem mapFind_some {κ V : Type} (same : κ → κ → Bool) (m : List (κ × V)) (key : κ)
    (e : κ × V) (h : mapFind same m key = some e) : e ∈ m ∧ same e.1 key = true := by
  unfold mapFind at h
  have h1 := List.find?_some h
  have h2 := List.mem_of_find?_eq_some h
  exact ⟨h2, h1⟩

theorem mapFind_none {κ V : Type} (same : κ → κ → Bool) (m : List (κ × V)) (key : κ)
    (h : mapFind same m key = none) : ∀ e ∈ m, same e.1 key = false := by
  unfold mapFind at h
  intro e he
  have := List.find?_eq_none.1 h e he
  simpa using this

theorem mapFind_append_some {κ V : Type} (same : κ → κ → Bool) (m l : List (κ × V))
    (key : κ) (e : κ × V) (h : mapFind same m key = some e) :
    mapFind same (m ++ l) key = some e := by
  unfold mapFind at h ⊢
  rw [List.find?_append, h]
  rfl

theorem mapFind_append_none {κ V : Type} (same : κ → κ → Bool) (m l : List (κ × V))
    (key : κ) (h : mapFind same m key = none) :
    mapFind same (m ++ l) key = mapFind same l key := by
  unfold mapFind at h ⊢
  rw [List.find?_append, h]
  rfl

/-- An entry that `find` gives stays the entry that `find` gives after an `insert`. -/
theorem mapFind_mapInsert {κ V : Type} (same : κ → κ → Bool) (m : List (κ × V))
    (key : κ) (e new : κ × V) (h : mapFind same m key = some e) :
    mapFind same (mapInsert same m new) key = some e := by
  unfold mapInsert
  cases mapFind same m new.1 with
  | some _ => exact h
  | none => exact mapFind_append_some same m [new] key e h

theorem samePath_eq (a b : String) : samePath a b = true ↔ a = b := by
  unfold samePath
  exact decide_eq_true_iff

/-- A handle in the range of `find` and `getResourceInfo` is a natural number below the
number of handles. -/
theorem handle_in_range (h : Int) (n : Nat) (hr : ¬ (h ≥ (n : Int) ∨ h < 0)) :
    ∃ k : Nat, h = (k : Int) ∧ k < n ∧ h.toNat = k := by
  have h0 : 0 ≤ h := by omega
  obtain ⟨k, rfl⟩ := Int.eq_ofNat_of_zero_le h0
  exact ⟨k, rfl, by omega, by simp⟩

/-- The five ways through `find(h)`. -/
theorem find_cases {D : Type} (C : InfoClass D) (M : ResourceManager D) (h : Int) :
    ((h ≥ (M.handles.length : Int) ∨ h < 0) ∧ M.find C h = (none, M)) ∨
    (∃ k : Nat, h = (k : Int) ∧ k < M.handles.length ∧ M.resources[k]? = none ∧
      M.find C h = (none, M)) ∨
    (∃ (k : Nat) (r : ResourceInfo D), h = (k : Int) ∧ k < M.handles.length ∧
      M.resources[k]? = some r ∧
      ((r.state ≠ ResourceState.ResourceNotLoaded ∧ M.find C h = (r.returned, M)) ∨
       (r.state = ResourceState.ResourceNotLoaded ∧
        ∃ e, mapFind samePath M.loadedResources (C.resolve r M.baseDir) = some e ∧
          M.find C h = (e.2,
            { M with
                resources := M.resources.set k
                  { r with resolvedName := C.resolve r M.baseDir, resource := e.2,
                           state := ResourceState.ResourceLoaded }
                resolveCalls := M.resolveCalls ++ [h] })) ∨
       (r.state = ResourceState.ResourceNotLoaded ∧
        mapFind samePath M.loadedResources (C.resolve r M.baseDir) = none ∧
        C.load { r with resolvedName := C.resolve r M.baseDir } (C.resolve r M.baseDir)
          = none ∧
          M.find C h = (none,
            { M with
                resources := M.resources.set k
                  { r with resolvedName := C.resolve r M.baseDir, resource := none,
                           state := ResourceState.ResourceLoadingFailed }
                resolveCalls := M.resolveCalls ++ [h]
                loadCalls := M.loadCalls ++ [h] })) ∨
       (r.state = ResourceState.ResourceNotLoaded ∧
        mapFind samePath M.loadedResources (C.resolve r M.baseDir) = none ∧
        ∃ p, C.load { r with resolvedName := C.resolve r M.baseDir }
            (C.resolve r M.baseDir) = some p ∧
          M.find C h = (some p,
            { M with
                resources := M.resources.set k
                  { r with resolvedName := C.resolve r M.baseDir, resource := some p,
                           state := ResourceState.ResourceLoaded }
                loadedResources := M.loadedResources ++ [(C.resolve r M.baseDir, some p)]
                resolveCalls := M.resolveCalls ++ [h]
                loadCalls := M.loadCalls ++ [h] })))) := by
  by_cases hr : h ≥ (M.handles.length : Int) ∨ h < 0
  · left
    exact ⟨hr, by simp only [ResourceManager.find, if_pos hr]⟩
  · right
    obtain ⟨k, hk, hlt, htn⟩ := handle_in_range h _ hr
    cases hres : M.resources[k]? with
    | none =>
      left
      refine ⟨k, hk, hlt, hres, ?_⟩
      simp only [ResourceManager.find, if_neg hr, htn, hres]
    | some r =>
      right
      refine ⟨k, r, hk, hlt, hres, ?_⟩
      by_cases hs : r.state = ResourceState.ResourceNotLoaded
      · right
        cases hm : mapFind samePath M.loadedResources (C.resolve r M.baseDir) with
        | some e =>
          left
          refine ⟨hs, e, rfl, ?_⟩
          simp only [ResourceManager.find, if_neg hr, htn, hres, if_pos hs, hm,
            ResourceInfo.returned, if_true]
        | none =>
          right
          cases hl : C.load { r with resolvedName := C.resolve r M.baseDir }
              (C.resolve r M.baseDir) with
          | none =>
            left
            refine ⟨hs, rfl, rfl, ?_⟩
            simp only [ResourceManager.find, if_neg hr, htn, hres, if_pos hs, hm, hl,
              ResourceInfo.returned]
            simp
          | some p =>
            right
            refine ⟨hs, rfl, p, rfl, ?_⟩
            simp only [ResourceManager.find, if_neg hr, htn, hres, if_pos hs, hm, hl,
              ResourceInfo.returned, if_true, mapInsert]
      · left
        refine ⟨hs, ?_⟩
        simp only [ResourceManager.find, if_neg hr, htn, hres, if_neg hs]

theorem set_getElem_self {α : Type} (l : List α) (k : Nat) (r r2 : α)
    (h : l[k]? = some r) : (l.set k r2)[k]? = some r2 := by
  obtain ⟨hk, _⟩ := List.getElem?_eq_some.1 h
  exact List.getElem?_set_self hk

theorem mem_set_self {α : Type} (l : List α) (k : Nat) (r r2 : α)
    (h : l[k]? = some r) : r2 ∈ l.set k r2 :=
  List.getElem?_mem (set_getElem_self l k r r2 h)

theorem mem_set_other {α : Type} (l : List α) (k : Nat) (r r2 r0 : α)
    (h : l[k]? = some r) (h0 : r0 ∈ l) (hne : r0 ≠ r) : r0 ∈ l.set k r2 := by
  obtain ⟨j, hj⟩ := List.mem_iff_getElem?.1 h0
  have hjk : k ≠ j := by
    intro hkj
    rw [hkj, hj] at h
    exact hne (Option.some.inj h)
  have : (l.set k r2)[j]? = some r0 := by rw [List.getElem?_set_ne hjk, hj]
  exact List.getElem?_mem this

theorem getElem_append_some {α : Type} (l l2 : List α) (k : Nat) (r : α)
    (h : l[k]? = some r) : (l ++ l2)[k]? = some r := by
  obtain ⟨hk, _⟩ := List.getElem?_eq_some.1 h
  rw [List.getElem?_append_left hk, h]

theorem nodup_concat {α : Type} (l : List α) (a : α)
    (hl : l.Nodup) (ha : a ∉ l) : (l ++ [a]).Nodup := by
  rw [List.nodup_append]
  refine ⟨hl, List.nodup_singleton a, ?_⟩
  intro x hx hx2
  rw [List.mem_singleton] at hx2
  exact ha (hx2 ▸ hx)

/-- The two ways through `getHandle(info)`. -/
theorem getHandle_cases {D : Type} (C : InfoClass D) (M : ResourceManager D)
    (info : ResourceInfo D) :
    (∃ e, mapFind C.equiv M.handles info = some e ∧ M.getHandle C info = (e.2, M)) ∨
    (mapFind C.equiv M.handles info = none ∧
      M.getHandle C info = ((M.handles.length : Int),
        { M with
            resources := M.resources ++ [info]
            handles := M.handles ++ [(info, (M.handles.length : Int))] })) := by
  cases hm : mapFind C.equiv M.handles info with
  | some e =>
    left
    exact ⟨e, rfl, by simp only [ResourceManager.getHandle, hm]⟩
  | none =>
    right
    exact ⟨rfl, by simp only [ResourceManager.getHandle, hm, mapInsert]⟩

theorem Sound_create (D : Type) (baseDir : String) :
    (ResourceManager.create D baseDir).Sound where
  sizes := rfl
  loaded := fun _ hr => absurd hr (List.not_mem_nil _)
  held := fun _ he => absurd he (List.not_mem_nil _)
  resolved := fun _ hh => absurd hh (List.not_mem_nil _)
  loadedSub := fun _ hh => absurd hh (List.not_mem_nil _)
  resolveOnce := List.nodup_nil
  loadOnce := List.nodup_nil

theorem Sound_getHandle {D : Type} (C : InfoClass D) (M : ResourceManager D)
    (info : ResourceInfo D) (hM : M.Sound) (hc : info.constructed) :
    (M.getHandle C info).2.Sound := by
  rcases getHandle_cases C M info with ⟨e, _, h⟩ | ⟨_, h⟩
  · rw [h]; exact hM
  · rw [h]
    refine ⟨?_, ?_, ?_, ?_, hM.loadedSub, hM.resolveOnce, hM.loadOnce⟩
    · simp [hM.sizes]
    · intro r hr hs
      rcases List.mem_append.1 hr with h1 | h1
      · exact hM.loaded r h1 hs
      · rw [List.mem_singleton] at h1
        rw [h1, hc.1] at hs
        exact absurd hs (by decide)
    · intro e he
      obtain ⟨x, hx, r, hr, h1⟩ := hM.held e he
      exact ⟨x, hx, r, List.mem_append_left _ hr, h1⟩
    · intro h' hh
      obtain ⟨k, r, h1, h2, h3⟩ := hM.resolved h' hh
      exact ⟨k, r, h1, getElem_append_some _ _ _ _ h2, h3⟩

/-- A handle whose info is not loaded is not in the logs. -/
theorem Sound_fresh_handle {D : Type} (M : ResourceManager D) (hM : M.Sound) (k : Nat)
    (r : ResourceInfo D) (hr : M.resources[k]? = some r)
    (hs : r.state = ResourceState.ResourceNotLoaded) :
    (k : Int) ∉ M.resolveCalls ∧ (k : Int) ∉ M.loadCalls := by
  have h1 : (k : Int) ∉ M.resolveCalls := by
    intro hin
    obtain ⟨k2, r2, h2, h3, h4⟩ := hM.resolved _ hin
    have hk : k = k2 := by exact_mod_cast h2
    rw [← hk, hr] at h3
    exact h4 ((Option.some.inj h3) ▸ hs)
  exact ⟨h1, fun hin => h1 (hM.loadedSub _ hin)⟩

/-- The log of `resolve` calls stays right when the info `k` leaves the state
`ResourceNotLoaded`. -/
theorem resolved_set {D : Type} (M : ResourceManager D) (hM : M.Sound) (k : Nat)
    (r r2 : ResourceInfo D) (hr : M.resources[k]? = some r)
    (hs2 : r2.state ≠ ResourceState.ResourceNotLoaded) :
    ∀ h ∈ M.resolveCalls ++ [(k : Int)], ∃ (j : Nat) (r3 : ResourceInfo D), h = (j : Int) ∧
      (M.resources.set k r2)[j]? = some r3 ∧ r3.state ≠ ResourceState.ResourceNotLoaded := by
  intro h hh
  rcases List.mem_append.1 hh with h1 | h1
  · obtain ⟨j, r3, h2, h3, h4⟩ := hM.resolved h h1
    by_cases hjk : k = j
    · refine ⟨j, r2, h2, ?_, hs2⟩
      rw [← hjk]
      exact set_getElem_self _ _ _ _ hr
    · exact ⟨j, r3, h2, by rw [List.getElem?_set_ne hjk, h3], h4⟩
  · rw [List.mem_singleton] at h1
    exact ⟨k, r2, h1, set_getElem_self _ _ _ _ hr, hs2⟩

theorem Sound_find {D : Type} (C : InfoClass D) (M : ResourceManager D) (h : Int)
    (hM : M.Sound) : (M.find C h).2.Sound := by
  rcases find_cases C M h with ⟨_, hf⟩ | ⟨_, _, _, _, hf⟩ | ⟨k, r, hk, hlt, hr, hcase⟩
  · rw [hf]; exact hM
  · rw [hf]; exact hM
  · have hmem : r ∈ M.resources := List.getElem?_mem hr
    rcases hcase with ⟨_, hf⟩ | ⟨hs, e, hm, hf⟩ | ⟨hs, hm, hl, hf⟩ | ⟨hs, hm, p, hl, hf⟩
    · rw [hf]; exact hM
    · rw [hf]
      obtain ⟨hfresh, _⟩ := Sound_fresh_handle M hM k r hr hs
      obtain ⟨he, hsame⟩ := mapFind_some _ _ _ _ hm
      obtain ⟨x, hx, _⟩ := hM.held e he
      have hname : e.1 = C.resolve r M.baseDir := (samePath_eq _ _).1 hsame
      have heq : e = (C.resolve r M.baseDir, some x) := by
        rw [← hname, ← hx]
      refine ⟨?_, ?_, ?_, ?_, ?_, ?_, hM.loadOnce⟩
      · simp [hM.sizes]
      · intro r3 hr3 hs3
        rcases List.mem_or_eq_of_mem_set hr3 with h1 | h1
        · exact hM.loaded r3 h1 hs3
        · rw [h1]
          exact ⟨x, hx, by rw [← heq]; exact hm⟩
      · intro e2 he2
        obtain ⟨x2, hx2, r0, hr0, h1, h2, h3⟩ := hM.held e2 he2
        refine ⟨x2, hx2, r0, mem_set_other _ _ _ _ _ hr hr0 ?_, h1, h2, h3⟩
        intro h0
        rw [h0, hs] at h1
        exact absurd h1 (by decide)
      · rw [hk]
        exact resolved_set M hM k r _ hr (by simp)
      · intro h2 hh2
        exact List.mem_append_left _ (hM.loadedSub h2 hh2)
      · rw [hk]
        exact nodup_concat _ _ hM.resolveOnce hfresh
    · rw [hf]
      obtain ⟨hfresh, hfresh2⟩ := Sound_fresh_handle M hM k r hr hs
      refine ⟨?_, ?_, ?_, ?_, ?_, ?_, ?_⟩
      · simp [hM.sizes]
      · intro r3 hr3 hs3
        rcases List.mem_or_eq_of_mem_set hr3 with h1 | h1
        · exact hM.loaded r3 h1 hs3
        · rw [h1] at hs3
          exact absurd hs3 (by simp)
      · intro e2 he2
        obtain ⟨x2, hx2, r0, hr0, h1, h2, h3⟩ := hM.held e2 he2
        refine ⟨x2, hx2, r0, mem_set_other _ _ _ _ _ hr hr0 ?_, h1, h2, h3⟩
        intro h0
        rw [h0, hs] at h1
        exact absurd h1 (by decide)
      · rw [hk]
        exact resolved_set M hM k r _ hr (by simp)
      · intro h2 hh2
        rcases List.mem_append.1 hh2 with h3 | h3
        · exact List.mem_append_left _ (hM.loadedSub h2 h3)
        · exact List.mem_append_right _ h3
      · rw [hk]
        exact nodup_concat _ _ hM.resolveOnce hfresh
      · rw [hk]
        exact nodup_concat _ _ hM.loadOnce hfresh2
    · rw [hf]
      obtain ⟨hfresh, hfresh2⟩ := Sound_fresh_handle M hM k r hr hs
      refine ⟨?_, ?_, ?_, ?_, ?_, ?_, ?_⟩
      · simp [hM.sizes]
      · intro r3 hr3 hs3
        rcases List.mem_or_eq_of_mem_set hr3 with h1 | h1
        · obtain ⟨x, hx, hfind⟩ := hM.loaded r3 h1 hs3
          exact ⟨x, hx, mapFind_append_some _ _ _ _ _ hfind⟩
        · rw [h1]
          refine ⟨p, rfl, ?_⟩
          show mapFind samePath (M.loadedResources ++ [(C.resolve r M.baseDir, some p)])
            (C.resolve r M.baseDir) = some (C.resolve r M.baseDir, some p)
          rw [mapFind_append_none _ _ _ _ hm]
          simp [mapFind, samePath]
      · intro e2 he2
        rcases List.mem_append.1 he2 with h4 | h4
        · obtain ⟨x2, hx2, r0, hr0, h1, h2, h3⟩ := hM.held e2 h4
          refine ⟨x2, hx2, r0, mem_set_other _ _ _ _ _ hr hr0 ?_, h1, h2, h3⟩
          intro h0
          rw [h0, hs] at h1
          exact absurd h1 (by decide)
        · rw [List.mem_singleton] at h4
          rw [h4]
          exact ⟨p, rfl, _, mem_set_self _ _ _ _ hr, rfl, rfl, rfl⟩
      · rw [hk]
        exact resolved_set M hM k r _ hr (by simp)
      · intro h2 hh2
        rcases List.mem_append.1 hh2 with h3 | h3
        · exact List.mem_append_left _ (hM.loadedSub h2 h3)
        · exact List.mem_append_right _ h3
      · rw [hk]
        exact nodup_concat _ _ hM.resolveOnce hfresh
      · rw [hk]
        exact nodup_concat _ _ hM.loadOnce hfresh2

theorem Sound_call {D : Type} (C : InfoClass D) (M : ResourceManager D) (c : Call D)
    (hM : M.Sound) (hc : c.constructed) : (M.call C c).Sound := by
  cases c with
  | getHandle info => exact Sound_getHandle C M info hM hc
  | find h => exact Sound_find C M h hM

theorem Sound_run {D : Type} (C : InfoClass D) (calls : List (Call D)) :
    ∀ (M : ResourceManager D), M.Sound → (∀ c ∈ calls, c.constructed) →
      (M.run C calls).Sound := by
  induction calls with
  | nil => intro M hM _; exact hM
  | cons c rest ih =>
    intro M hM hc
    exact ih (M.call C c) (Sound_call C M c hM (hc c (List.mem_cons_self _ _)))
      (fun c2 hc2 => hc c2 (List.mem_cons_of_mem _ hc2))

theorem getResourceInfo_eq_some {D : Type} (M : ResourceManager D) (h : Int)
    (r : ResourceInfo D) :
    M.getResourceInfo h = some r ↔
      ∃ k : Nat, h = (k : Int) ∧ k < M.handles.length ∧ M.resources[k]? = some r := by
  unfold ResourceManager.getResourceInfo
  by_cases hr : h ≥ (M.handles.length : Int) ∨ h < 0
  · rw [if_pos hr]
    constructor
    · intro h1; exact absurd h1 (by simp)
    · rintro ⟨k, hk, hlt, _⟩
      omega
  · rw [if_neg hr]
    obtain ⟨k, hk, hlt, htn⟩ := handle_in_range h _ hr
    rw [htn]
    constructor
    · intro h1; exact ⟨k, hk, hlt, h1⟩
    · rintro ⟨k2, hk2, _, h2⟩
      have : k = k2 := by omega
      rw [this]; exact h2

theorem call_baseDir {D : Type} (C : InfoClass D) (M : ResourceManager D) (c : Call D) :
    (M.call C c).baseDir = M.baseDir := by
  cases c with
  | getHandle info =>
    rcases getHandle_cases C M info with ⟨e, _, h⟩ | ⟨_, h⟩ <;>
      simp only [ResourceManager.call, h]
  | find h =>
    rcases find_cases C M h with ⟨_, hf⟩ | ⟨_, _, _, _, hf⟩ | ⟨k, r, hk, hlt, hr, hcase⟩
    · simp only [ResourceManager.call, hf]
    · simp only [ResourceManager.call, hf]
    · rcases hcase with ⟨_, hf⟩ | ⟨hs, e, hm, hf⟩ | ⟨hs, hm, hl, hf⟩ | ⟨hs, hm, p, hl, hf⟩ <;>
        simp only [ResourceManager.call, hf]

/-- What a call does to the info of a handle: nothing, or the info leaves the state
`ResourceNotLoaded`, with the path that `resolve` returned for it as its resolved name. -/
theorem entry_call {D : Type} (C : InfoClass D) (M : ResourceManager D) (c : Call D)
    (h : Int) (r : ResourceInfo D) (hr : M.getResourceInfo h = some r) :
    (M.call C c).getResourceInfo h = some r ∨
    (r.state = ResourceState.ResourceNotLoaded ∧ c = Call.find h ∧
      ∃ r2, (M.call C c).getResourceInfo h = some r2 ∧
        (r2.state = ResourceState.ResourceLoaded ∨
          r2.state = ResourceState.ResourceLoadingFailed) ∧
        r2.resolvedName = C.resolve r M.baseDir ∧ r2.data = r.data) := by
  obtain ⟨k, hk, hlt, hres⟩ := (getResourceInfo_eq_some M h r).1 hr
  cases c with
  | getHandle info =>
    left
    rcases getHandle_cases C M info with ⟨e, _, hg⟩ | ⟨_, hg⟩
    · simp only [ResourceManager.call, hg]; exact hr
    · simp only [ResourceManager.call, hg]
      rw [getResourceInfo_eq_some]
      exact ⟨k, hk, by simp; omega, getElem_append_some _ _ _ _ hres⟩
  | find h2 =>
    rcases find_cases C M h2 with ⟨_, hf⟩ | ⟨_, _, _, _, hf⟩ | ⟨k2, r0, hk2, hlt2, hr0, hcase⟩
    · left; simp only [ResourceManager.call, hf]; exact hr
    · left; simp only [ResourceManager.call, hf]; exact hr
    · by_cases hkk : k2 = k
      · have hh : h2 = h := by rw [hk, hk2, hkk]
        have hrr : r0 = r := by
          rw [hkk, hres] at hr0
          exact (Option.some.inj hr0).symm
        rw [hrr] at hcase
        rw [hkk] at hcase
        rcases hcase with ⟨_, hf⟩ | ⟨hs, e, hm, hf⟩ | ⟨hs, hm, hl, hf⟩ | ⟨hs, hm, p, hl, hf⟩
        · left; simp only [ResourceManager.call, hf]; exact hr
        · right
          refine ⟨hs, by rw [hh], ⟨r.data, ResourceState.ResourceLoaded, C.resolve r M.baseDir, e.2⟩, ?_, Or.inl rfl, rfl, rfl⟩
          simp only [ResourceManager.call, hf]
          rw [getResourceInfo_eq_some]
          exact ⟨k, hk, hlt, set_getElem_self _ _ _ _ hres⟩
        · right
          refine ⟨hs, by rw [hh], ⟨r.data, ResourceState.ResourceLoadingFailed, C.resolve r M.baseDir, none⟩, ?_,
            Or.inr rfl, rfl, rfl⟩
          simp only [ResourceManager.call, hf]
          rw [getResourceInfo_eq_some]
          exact ⟨k, hk, hlt, set_getElem_self _ _ _ _ hres⟩
        · right
          refine ⟨hs, by rw [hh], ⟨r.data, ResourceState.ResourceLoaded, C.resolve r M.baseDir, some p⟩, ?_, Or.inl rfl,
            rfl, rfl⟩
          simp only [ResourceManager.call, hf]
          rw [getResourceInfo_eq_some]
          exact ⟨k, hk, hlt, set_getElem_self _ _ _ _ hres⟩
      · left
        rcases hcase with ⟨_, hf⟩ | ⟨hs, e, hm, hf⟩ | ⟨hs, hm, hl, hf⟩ | ⟨hs, hm, p, hl, hf⟩
        · simp only [ResourceManager.call, hf]; exact hr
        all_goals
          simp only [ResourceManager.call, hf]
          rw [getResourceInfo_eq_some]
          exact ⟨k, hk, hlt, by rw [List.getElem?_set_ne hkk, hres]⟩

/-- An info that has left the state `ResourceNotLoaded` is never written again. -/
theorem entry_run {D : Type} (C : InfoClass D) (calls : List (Call D)) :
    ∀ (M : ResourceManager D) (h : Int) (r : ResourceInfo D),
      M.getResourceInfo h = some r → r.state ≠ ResourceState.ResourceNotLoaded →
      (M.run C calls).getResourceInfo h = some r := by
  induction calls with
  | nil => intro M h r hr _; exact hr
  | cons c rest ih =>
    intro M h r hr hs
    rcases entry_call C M c h r hr with h1 | ⟨h1, _⟩
    · exact ih (M.call C c) h r h1 hs
    · exact absurd h1 hs

/-- The path that an info resolves to does not change. -/
theorem resolvedPath_call {D : Type} (C : InfoClass D) (M : ResourceManager D) (c : Call D)
    (h : Int) (p : String) (hp : M.resolvedPath C h = some p) :
    (M.call C c).resolvedPath C h = some p := by
  unfold ResourceManager.resolvedPath at hp ⊢
  cases hr : M.getResourceInfo h with
  | none => rw [hr] at hp; exact absurd hp (by simp)
  | some r =>
    rw [hr] at hp
    rcases entry_call C M c h r hr with h1 | ⟨hs, _, r2, h2, h3, h4, _⟩
    · rw [h1, call_baseDir]; exact hp
    · rw [h2]
      have hs2 : r2.state ≠ ResourceState.ResourceNotLoaded := by
        rcases h3 with h3 | h3 <;> rw [h3] <;> decide
      simp only [if_neg hs2, h4]
      simpa [hs] using hp

theorem resolvedPath_run {D : Type} (C : InfoClass D) (calls : List (Call D)) :
    ∀ (M : ResourceManager D) (h : Int) (p : String),
      M.resolvedPath C h = some p → (M.run C calls).resolvedPath C h = some p := by
  induction calls with
  | nil => intro M h p hp; exact hp
  | cons c rest ih =>
    intro M h p hp
    exact ih (M.call C c) h p (resolvedPath_call C M c h p hp)

/-- What the map `loadedResources` has under a path, it keeps. -/
theorem loadedResources_call {D : Type} (C : InfoClass D) (M : ResourceManager D)
    (c : Call D) (path : String) (e : String × Option Nat)
    (he : mapFind samePath M.loadedResources path = some e) :
    mapFind samePath (M.call C c).loadedResources path = some e := by
  cases c with
  | getHandle info =>
    rcases getHandle_cases C M info with ⟨_, _, hg⟩ | ⟨_, hg⟩ <;>
      simp only [ResourceManager.call, hg] <;> exact he
  | find h =>
    rcases find_cases C M h with ⟨_, hf⟩ | ⟨_, _, _, _, hf⟩ | ⟨k, r, hk, hlt, hr, hcase⟩
    · simp only [ResourceManager.call, hf]; exact he
    · simp only [ResourceManager.call, hf]; exact he
    · rcases hcase with ⟨_, hf⟩ | ⟨hs, e, hm, hf⟩ | ⟨hs, hm, hl, hf⟩ | ⟨hs, hm, p, hl, hf⟩
      · simp only [ResourceManager.call, hf]; exact he
      · simp only [ResourceManager.call, hf]; exact he
      · simp only [ResourceManager.call, hf]; exact he
      · simp only [ResourceManager.call, hf]
        exact mapFind_append_some _ _ _ _ _ he

theorem loadedResources_run {D : Type} (C : InfoClass D) (calls : List (Call D)) :
    ∀ (M : ResourceManager D) (path : String) (e : String × Option Nat),
      mapFind samePath M.loadedResources path = some e →
      mapFind samePath (M.run C calls).loadedResources path = some e := by
  induction calls with
  | nil => intro M path e he; exact he
  | cons c rest ih =>
    intro M path e he
    exact ih (M.call C c) path e (loadedResources_call C M c path e he)

theorem find_first_index {α : Type} (p : α → Bool) :
    ∀ (l : List α) (b : α), l.find? p = some b →
      ∃ k : Nat, l[k]? = some b ∧ p b = true ∧
        ∀ j : Nat, j < k → ∀ a, l[j]? = some a → p a = false := by
  intro l
  induction l with
  | nil => intro b h; simp at h
  | cons x rest ih =>
    intro b h
    by_cases hx : p x = true
    · simp only [List.find?, hx] at h
      have hb : x = b := Option.some.inj h
      exact ⟨0, by simp [hb], hb ▸ hx, fun j hj => absurd hj (Nat.not_lt_zero j)⟩
    · have hx2 : p x = false := by simpa using hx
      simp only [List.find?, hx2] at h
      obtain ⟨k, h1, h2, h3⟩ := ih b h
      refine ⟨k + 1, by simpa using h1, h2, ?_⟩
      intro j hj a ha
      cases j with
      | zero =>
        have : x = a := by simpa using ha
        rw [← this]; exact hx2
      | succ j => exact h3 j (by omega) a (by simpa using ha)

theorem find_of_first {α : Type} (p : α → Bool) :
    ∀ (l : List α) (k : Nat) (b : α), l[k]? = some b → p b = true →
      (∀ j : Nat, j < k → ∀ a, l[j]? = some a → p a = false) → l.find? p = some b := by
  intro l
  induction l with
  | nil => intro k b h; simp at h
  | cons x rest ih =>
    intro k b h hb hfirst
    cases k with
    | zero =>
      have : x = b := by simpa using h
      simp [List.find?, this, hb]
    | succ k =>
      have hx : p x = false := hfirst 0 (by omega) x (by simp)
      simp only [List.find?, hx]
      exact ih k b (by simpa using h) hb
        (fun j hj a ha => hfirst (j + 1) (by omega) a (by simpa using ha))

theorem equiv_symm {D : Type} (C : InfoClass D) (a b : ResourceInfo D) :
    C.equiv a b = C.equiv b a := by
  unfold InfoClass.equiv
  exact Bool.and_comm _ _

theorem equiv_refl {D : Type} (C : InfoClass D) (hC : C.StrictWeakOrder)
    (a : ResourceInfo D) : C.equiv a a = true := by
  unfold InfoClass.equiv
  rw [hC.irrefl]
  rfl

/-- An entry of the handle map of a densely numbered manager is an info of the table with
its position. -/
theorem Dense_entry {D : Type} (C : InfoClass D) (M : ResourceManager D) (hM : M.Dense C)
    (k : Nat) (e : ResourceInfo D × Int) (he : M.handles[k]? = some e) :
    M.resources[k]? = some e.1 ∧ e.2 = (k : Int) := by
  have hk : k < M.resources.length := by
    rw [hM.sizes]
    exact (List.getElem?_eq_some.1 he).1
  have h1 := hM.numbered k _ (List.getElem?_eq_getElem hk)
  rw [he] at h1
  have h2 := Option.some.inj h1
  rw [h2]
  exact ⟨List.getElem?_eq_getElem hk, rfl⟩

/-- What the handle map of a densely numbered manager gives for a key. -/
theorem Dense_mapFind {D : Type} (C : InfoClass D) (M : ResourceManager D) (hM : M.Dense C)
    (info : ResourceInfo D) (e : ResourceInfo D × Int)
    (he : mapFind C.equiv M.handles info = some e) :
    ∃ k : Nat, e.2 = (k : Int) ∧ k < M.handles.length ∧ M.resources[k]? = some e.1 ∧
      C.equiv e.1 info = true := by
  obtain ⟨k, h1, h2, _⟩ := find_first_index _ _ _ he
  obtain ⟨h3, h4⟩ := Dense_entry C M hM k e h1
  exact ⟨k, h4, (List.getElem?_eq_some.1 h1).1, h3, h2⟩

/-- The info at the position `k` of the table has the handle `k`, and asking for it
changes nothing. -/
theorem Dense_getHandle {D : Type} (C : InfoClass D) (hC : C.StrictWeakOrder)
    (M : ResourceManager D) (hM : M.Dense C) (k : Nat) (r : ResourceInfo D)
    (hr : M.resources[k]? = some r) : M.getHandle C r = ((k : Int), M) := by
  have hfind : mapFind C.equiv M.handles r = some (r, (k : Int)) := by
    refine find_of_first _ _ k _ (hM.numbered k r hr) (equiv_refl C hC r) ?_
    intro j hj e he
    obtain ⟨h3, _⟩ := Dense_entry C M hM j e he
    exact hM.apart j k e.1 r hj h3 hr
  simp only [ResourceManager.getHandle, hfind]

theorem Dense_create {D : Type} (C : InfoClass D) (baseDir : String) :
    (ResourceManager.create D baseDir).Dense C where
  sizes := rfl
  numbered := fun k r h => by simp [ResourceManager.create] at h
  apart := fun i j a b _ h => by simp [ResourceManager.create] at h

/-- A call of `getHandle` keeps the numbering, and tells whether the table had an
equivalent info. -/
theorem Dense_step {D : Type} (C : InfoClass D) (hC : C.StrictWeakOrder)
    (M : ResourceManager D) (hM : M.Dense C) (info : ResourceInfo D) :
    (M.getHandle C info).2.Dense C ∧
    (M.getHandle C info).2.resources =
      (if M.resources.any (fun r => C.equiv r info) then M.resources
        else M.resources ++ [info]) ∧
    (M.getHandle C info).2.getHandle C info =
      ((M.getHandle C info).1, (M.getHandle C info).2) ∧
    (∀ other h, M.getHandle C other = (h, M) →
      (M.getHandle C info).2.getHandle C other = (h, (M.getHandle C info).2)) := by
  rcases getHandle_cases C M info with ⟨e, hm, hg⟩ | ⟨hm, hg⟩
  · obtain ⟨k, _, _, h3, h4⟩ := Dense_mapFind C M hM info e hm
    have hany : M.resources.any (fun r => C.equiv r info) = true :=
      List.any_eq_true.2 ⟨e.1, List.getElem?_mem h3, h4⟩
    rw [hg, hany]
    exact ⟨hM, rfl, hg, fun other h ho => ho⟩
  · have hnone := mapFind_none _ _ _ hm
    have hall : ∀ (i : Nat) (a : ResourceInfo D), M.resources[i]? = some a →
        C.equiv a info = false := fun i a ha =>
      hnone _ (List.getElem?_mem (hM.numbered i a ha))
    have hany : M.resources.any (fun r => C.equiv r info) = false := by
      rw [Bool.eq_false_iff]
      intro h
      obtain ⟨a, ha, hq⟩ := List.any_eq_true.1 h
      obtain ⟨i, hi⟩ := List.mem_iff_getElem?.1 ha
      rw [hall i a hi] at hq
      exact absurd hq (by simp)
    have hD : ResourceManager.Dense C
        { M with
            resources := M.resources ++ [info]
            handles := M.handles ++ [(info, (M.handles.length : Int))] } := by
      refine ⟨by simp [hM.sizes], ?_, ?_⟩
      · intro k r hk
        show (M.handles ++ [(info, (M.handles.length : Int))])[k]? = some (r, (k : Int))
        have hk2 : (M.resources ++ [info])[k]? = some r := hk
        by_cases hlt : k < M.resources.length
        · rw [List.getElem?_append_left hlt] at hk2
          exact getElem_append_some _ _ _ _ (hM.numbered k r hk2)
        · have hlen := (List.getElem?_eq_some.1 hk2).1
          have hkeq : k = M.resources.length := by
            simp at hlen
            omega
          rw [hkeq, List.getElem?_concat_length] at hk2
          rw [hkeq, hM.sizes, List.getElem?_concat_length, ← Option.some.inj hk2]
      · intro i j a b hij ha hb
        have ha2 : (M.resources ++ [info])[i]? = some a := ha
        have hb2 : (M.resources ++ [info])[j]? = some b := hb
        have hjlen := (List.getElem?_eq_some.1 hb2).1
        have hilt : i < M.resources.length := by
          simp at hjlen
          omega
        rw [List.getElem?_append_left hilt] at ha2
        by_cases hjlt : j < M.resources.length
        · rw [List.getElem?_append_left hjlt] at hb2
          exact hM.apart i j a b hij ha2 hb2
        · have hjeq : j = M.resources.length := by
            simp at hjlen
            omega
          rw [hjeq, List.getElem?_concat_length] at hb2
          rw [← Option.some.inj hb2]
          exact hall i a ha2
    rw [hg, hany]
    refine ⟨hD, by simp, ?_, ?_⟩
    · have hfind : mapFind C.equiv (M.handles ++ [(info, (M.handles.length : Int))]) info =
          some (info, (M.handles.length : Int)) := by
        rw [mapFind_append_none _ _ _ _ hm]
        simp [mapFind, equiv_refl C hC info]
      simp only [ResourceManager.getHandle, hfind]
    · intro other h ho
      rcases getHandle_cases C M other with ⟨e, hm2, hg2⟩ | ⟨_, hg2⟩
      · rw [hg2] at ho
        have he : e.2 = h := congrArg Prod.fst ho
        have hfind := mapFind_append_some C.equiv M.handles
          [(info, (M.handles.length : Int))] other e hm2
        simp only [ResourceManager.getHandle, hfind, he]
      · rw [hg2] at ho
        have h2 := congrArg (fun p => p.2.resources.length) ho
        simp at h2

/-- A sequence of `getHandle` calls on a densely numbered manager: the numbering is kept,
the table grows by the distinct new infos, handles given before stay, and every handle
returned is the handle that the final manager gives for the same info. -/
theorem getHandles_spec {D : Type} (C : InfoClass D) (hC : C.StrictWeakOrder) :
    ∀ (infos : List (ResourceInfo D)) (M : ResourceManager D), M.Dense C →
      (M.getHandles C infos).2.Dense C ∧
      (M.getHandles C infos).2.resources = C.distinctFrom M.resources infos ∧
      (∀ other h, M.getHandle C other = (h, M) →
        (M.getHandles C infos).2.getHandle C other = (h, (M.getHandles C infos).2)) ∧
      (∀ (j : Nat) (info : ResourceInfo D), infos[j]? = some info →
        ∃ h, (M.getHandles C infos).1[j]? = some h ∧
          (M.getHandles C infos).2.getHandle C info = (h, (M.getHandles C infos).2)) := by
  intro infos
  induction infos with
  | nil =>
    intro M hM
    exact ⟨hM, rfl, fun _ _ ho => ho, fun j info hj => by simp at hj⟩
  | cons info rest ih =>
    intro M hM
    obtain ⟨h1, h2, h3, h4⟩ := Dense_step C hC M hM info
    obtain ⟨i1, i2, i3, i4⟩ := ih (M.getHandle C info).2 h1
    have hunf : M.getHandles C (info :: rest) =
        ((M.getHandle C info).1 :: ((M.getHandle C info).2.getHandles C rest).1,
          ((M.getHandle C info).2.getHandles C rest).2) := rfl
    rw [hunf]
    refine ⟨i1, ?_, ?_, ?_⟩
    · show ((M.getHandle C info).2.getHandles C rest).2.resources = _
      rw [i2, h2]
      by_cases hany : M.resources.any (fun r => C.equiv r info) = true
      · simp only [InfoClass.distinctFrom, hany, if_true]
      · simp only [InfoClass.distinctFrom, hany]
        rfl
    · intro other h ho
      exact i3 other h (h4 other h ho)
    · intro j x hj
      cases j with
      | zero =>
        have hx : info = x := by simpa using hj
        rw [← hx]
        exact ⟨(M.getHandle C info).1, by simp, i3 info _ h3⟩
      | succ j =>
        obtain ⟨h, h5, h6⟩ := i4 j x (by simpa using hj)
        exact ⟨h, by simpa using h5, h6⟩

/-- C26: the handles of a resource manager are a dense, stable numbering. Let `M` be the
manager and `hs` the handles returned after the calls `getHandle(info)` for the infos of a
sequence, in order, on an empty manager, for an info class whose `operator<` is a strict
weak ordering. Then the table `resources` holds the distinct infos of the sequence in the
order of their first occurrence and has the size of the handle map; the distinct info at
the position `k` (counted from 0) has the handle `k`, and `getResourceInfo(k)` is that
info; for every info of the sequence a repeated `getHandle` returns the handle returned
in the sequence and changes nothing, and `getResourceInfo` of that handle is an info of
the table equivalent to it; and two infos of the sequence get the same handle exactly
when they are equivalent. -/
theorem getHandle_dense {D : Type} (C : InfoClass D) (hC : C.StrictWeakOrder)
    (baseDir : String) (infos : List (ResourceInfo D)) (hs : List Int)
    (M : ResourceManager D)
    (hhs : hs = ((ResourceManager.create D baseDir).getHandles C infos).1)
    (hM : M = ((ResourceManager.create D baseDir).getHandles C infos).2) :
    M.resources = C.distinct infos ∧
    M.resources.length = M.handles.length ∧
    (∀ (k : Nat) (info : ResourceInfo D), (C.distinct infos)[k]? = some info →
      M.getHandle C info = ((k : Int), M) ∧ M.getResourceInfo (k : Int) = some info) ∧
    (∀ (j : Nat) (info : ResourceInfo D), infos[j]? = some info →
      hs[j]? = some (M.getHandle C info).1 ∧ (M.getHandle C info).2 = M ∧
      ∃ r, M.getResourceInfo (M.getHandle C info).1 = some r ∧ r ∈ C.distinct infos ∧
        C.equiv r info = true) ∧
    (∀ a ∈ infos, ∀ b ∈ infos,
      ((M.getHandle C a).1 = (M.getHandle C b).1 ↔ C.equiv a b = true)) := by
  obtain ⟨hD, hres, _, hret⟩ := getHandles_spec C hC infos _ (Dense_create C baseDir)
  rw [← hM] at hD hres hret
  rw [← hhs] at hret
  have hres2 : M.resources = C.distinct infos := hres
  -- a registered info is found under the position of an equivalent info of the table
  have hreg : ∀ info ∈ infos, ∃ (k : Nat) (r : ResourceInfo D),
      M.getHandle C info = ((k : Int), M) ∧ k < M.handles.length ∧
      M.resources[k]? = some r ∧ C.equiv r info = true := by
    intro info hin
    obtain ⟨j, hj⟩ := List.mem_iff_getElem?.1 hin
    obtain ⟨h, _, h2⟩ := hret j info hj
    rcases getHandle_cases C M info with ⟨e, hm, hg⟩ | ⟨_, hg⟩
    · obtain ⟨k, h3, h4, h5, h6⟩ := Dense_mapFind C M hD info e hm
      exact ⟨k, e.1, by rw [hg, h3], h4, h5, h6⟩
    · rw [hg] at h2
      have h3 := congrArg (fun p => p.2.resources.length) h2
      simp at h3
  refine ⟨hres2, hD.sizes, ?_, ?_, ?_⟩
  · intro k info hk
    rw [← hres2] at hk
    refine ⟨Dense_getHandle C hC M hD k info hk, ?_⟩
    rw [getResourceInfo_eq_some]
    exact ⟨k, rfl, by rw [← hD.sizes]; exact (List.getElem?_eq_some.1 hk).1, hk⟩
  · intro j info hj
    obtain ⟨h, h1, h2⟩ := hret j info hj
    obtain ⟨k, r, h3, h4, h5, h6⟩ := hreg info (List.getElem?_mem hj)
    rw [h2] at h3 ⊢
    refine ⟨h1, rfl, r, ?_, ?_, h6⟩
    · rw [getResourceInfo_eq_some]
      exact ⟨k, congrArg Prod.fst h3, h4, h5⟩
    · rw [← hres2]
      exact List.getElem?_mem h5
  · intro a ha b hb
    obtain ⟨ka, ra, h1, _, h3, h4⟩ := hreg a ha
    obtain ⟨kb, rb, g1, _, g3, g4⟩ := hreg b hb
    rw [h1, g1]
    constructor
    · intro heq
      have heq2 : (ka : Int) = (kb : Int) := heq
      have hk : ka = kb := by exact_mod_cast heq2
      rw [hk, g3] at h3
      rw [← Option.some.inj h3] at h4
      rw [equiv_symm] at h4
      exact hC.equiv_trans a rb b h4 g4
    · intro heq
      have hab : C.equiv ra rb = true := by
        have h5 := hC.equiv_trans ra a b h4 heq
        rw [equiv_symm C rb b] at g4
        exact hC.equiv_trans ra b rb h5 g4
      have hk : ka = kb := by
        rcases Nat.lt_trichotomy ka kb with hlt | heq2 | hgt
        · rw [hD.apart ka kb ra rb hlt h3 g3] at hab
          exact absurd hab (by simp)
        · exact heq2
        · rw [equiv_symm, hD.apart kb ka rb ra hgt g3 h3] at hab
          exact absurd hab (by simp)
      show ((ka : Int) = (kb : Int))
      rw [hk]

/-- The ordering of the texture infos of the examples is a strict weak ordering. -/
theorem textures_order : Example.textures.StrictWeakOrder where
  irrefl := fun a => by simp [Example.textures]
  trans := fun a b c => by
    simp only [Example.textures, decide_eq_true_eq]
    omega
  equiv_trans := fun a b c => by
    simp only [InfoClass.equiv, Example.textures, Bool.and_eq_true, Bool.not_eq_eq_eq_not,
      Bool.not_true, decide_eq_false_iff_not]
    omega

/-- Witness for C26: the texture infos 2, 1, 2, 3 are registered in this order; the handles
returned are 0, 1, 0, 2, the table holds the infos 2, 1, 3, and the two tables have the
size 3. -/
theorem getHandle_dense_witness :
    ((ResourceManager.create Nat "base").getHandles Example.textures
      [{ data := 2 }, { data := 1 }, { data := 2 }, { data := 3 }]).1 = [0, 1, 0, 2] ∧
    (((ResourceManager.create Nat "base").getHandles Example.textures
      [{ data := 2 }, { data := 1 }, { data := 2 }, { data := 3 }]).2.resources.map
        (fun r => r.data)) = [2, 1, 3] ∧
    ((ResourceManager.create Nat "base").getHandles Example.textures
      [{ data := 2 }, { data := 1 }, { data := 2 }, { data := 3 }]).2.resources.length =
    ((ResourceManager.create Nat "base").getHandles Example.textures
      [{ data := 2 }, { data := 1 }, { data := 2 }, { data := 3 }]).2.handles.length :=
  have h := getHandle_dense Example.textures textures_order "base"
    [{ data := 2 }, { data := 1 }, { data := 2 }, { data := 3 }] _ _ rfl rfl
  ⟨by decide, by decide, h.2.1⟩

/-- What `find(h)` does for a handle with the info `r`. -/
theorem find_of_entry {D : Type} (C : InfoClass D) (M : ResourceManager D) (h : Int)
    (r : ResourceInfo D) (hr : M.getResourceInfo h = some r) :
    (r.state ≠ ResourceState.ResourceNotLoaded → M.find C h = (r.returned, M)) ∧
    (r.state = ResourceState.ResourceNotLoaded → ∀ e,
      mapFind samePath M.loadedResources (C.resolve r M.baseDir) = some e →
      (M.find C h).1 = e.2 ∧ (M.find C h).2.loadCalls = M.loadCalls) := by
  obtain ⟨k, hk, hlt, hres⟩ := (getResourceInfo_eq_some M h r).1 hr
  rcases find_cases C M h with ⟨hout, _⟩ | ⟨k2, hk2, _, hnone, _⟩ | ⟨k2, r0, hk2, _, hr0, hcase⟩
  · omega
  · have : k2 = k := by omega
    rw [this, hres] at hnone
    exact absurd hnone (by simp)
  · have hkk : k2 = k := by omega
    have hrr : r0 = r := by
      rw [hkk, hres] at hr0
      exact (Option.some.inj hr0).symm
    rw [hrr] at hcase
    rcases hcase with ⟨hs, hf⟩ | ⟨hs, e, hm, hf⟩ | ⟨hs, hm, hl, hf⟩ | ⟨hs, hm, p, hl, hf⟩
    · exact ⟨fun _ => hf, fun h1 => absurd h1 hs⟩
    · refine ⟨fun h1 => absurd hs h1, fun _ e2 he2 => ?_⟩
      rw [hm] at he2
      rw [hf, ← Option.some.inj he2]
      exact ⟨rfl, rfl⟩
    · refine ⟨fun h1 => absurd hs h1, fun _ e2 he2 => ?_⟩
      rw [hm] at he2
      exact absurd he2 (by simp)
    · refine ⟨fun h1 => absurd hs h1, fun _ e2 he2 => ?_⟩
      rw [hm] at he2
      exact absurd he2 (by simp)

/-- After a `find(h)` that returned a resource, the info of `h` is loaded and holds it. -/
theorem find_some_entry {D : Type} (C : InfoClass D) (M : ResourceManager D) (h : Int)
    (x : Nat) (hx : (M.find C h).1 = some x) :
    ∃ r, (M.find C h).2.getResourceInfo h = some r ∧
      r.state = ResourceState.ResourceLoaded ∧ r.resource = some x := by
  rcases find_cases C M h with ⟨_, hf⟩ | ⟨_, _, _, _, hf⟩ | ⟨k, r, hk, hlt, hr, hcase⟩
  · rw [hf] at hx; exact absurd hx (by simp)
  · rw [hf] at hx; exact absurd hx (by simp)
  · rcases hcase with ⟨hs, hf⟩ | ⟨hs, e, hm, hf⟩ | ⟨hs, hm, hl, hf⟩ | ⟨hs, hm, p, hl, hf⟩
    · rw [hf] at hx ⊢
      have hx2 : r.returned = some x := hx
      unfold ResourceInfo.returned at hx2
      by_cases hl : r.state = ResourceState.ResourceLoaded
      · rw [if_pos hl] at hx2
        exact ⟨r, (getResourceInfo_eq_some M h r).2 ⟨k, hk, hlt, hr⟩, hl, hx2⟩
      · rw [if_neg hl] at hx2
        exact absurd hx2 (by simp)
    · rw [hf] at hx ⊢
      have hx2 : e.2 = some x := hx
      refine ⟨⟨r.data, ResourceState.ResourceLoaded, C.resolve r M.baseDir, e.2⟩, ?_, rfl, hx2⟩
      rw [getResourceInfo_eq_some]
      exact ⟨k, hk, hlt, set_getElem_self _ _ _ _ hr⟩
    · rw [hf] at hx; exact absurd hx (by simp)
    · rw [hf] at hx ⊢
      have hx2 : some p = some x := hx
      refine ⟨⟨r.data, ResourceState.ResourceLoaded, C.resolve r M.baseDir, some p⟩, ?_, rfl,
        hx2⟩
      rw [getResourceInfo_eq_some]
      exact ⟨k, hk, hlt, set_getElem_self _ _ _ _ hr⟩

/-- C27: the load state machine of the resource manager. Let `M` be a manager after any
sequence of `getHandle` calls, on infos in the state of their constructor, and `find`
calls, and `h` a handle. Then `find(h)` returns the null pointer and changes nothing when
`h < 0` or `h` is not below the number of handles. For a valid `h`: a `find(h)` on an
info that is not loaded leaves it loaded or failed; on an info in another state it
changes nothing (so a failed load is not tried again); it returns a non-null resource
exactly when the state after the call is `ResourceLoaded`; any call leaves the info of
`h` as it is, except a `find(h)` on an info that is not loaded; an info that has left the
state `ResourceNotLoaded` is never changed again by any further calls; and `resolve` and
`load` have each been called at most once for `h`. -/
theorem find_state_machine {D : Type} (C : InfoClass D) (baseDir : String)
    (calls : List (Call D)) (hc : ∀ c ∈ calls, c.constructed) (h : Int)
    (M : ResourceManager D) (hM : M = (ResourceManager.create D baseDir).run C calls) :
    ((h < 0 ∨ h ≥ (M.handles.length : Int)) → M.find C h = (none, M)) ∧
    (0 ≤ h → h < (M.handles.length : Int) →
      ∃ r r2, M.getResourceInfo h = some r ∧ (M.find C h).2.getResourceInfo h = some r2 ∧
        (r.state = ResourceState.ResourceNotLoaded →
          r2.state = ResourceState.ResourceLoaded ∨
          r2.state = ResourceState.ResourceLoadingFailed) ∧
        (r.state ≠ ResourceState.ResourceNotLoaded → (M.find C h).2 = M) ∧
        ((M.find C h).1 ≠ none ↔ r2.state = ResourceState.ResourceLoaded)) ∧
    (∀ (r : ResourceInfo D) (c : Call D), M.getResourceInfo h = some r →
      (M.call C c).getResourceInfo h = some r ∨
      (r.state = ResourceState.ResourceNotLoaded ∧ c = Call.find h ∧
        ∃ r2, (M.call C c).getResourceInfo h = some r2 ∧
          (r2.state = ResourceState.ResourceLoaded ∨
            r2.state = ResourceState.ResourceLoadingFailed))) ∧
    (∀ r, M.getResourceInfo h = some r → r.state ≠ ResourceState.ResourceNotLoaded →
      ∀ more : List (Call D), (M.run C more).getResourceInfo h = some r) ∧
    M.resolveCalls.count h ≤ 1 ∧ M.loadCalls.count h ≤ 1 := by
  have hS : M.Sound := by
    rw [hM]
    exact Sound_run C calls _ (Sound_create D baseDir) hc
  refine ⟨?_, ?_, ?_, ?_, ?_, ?_⟩
  rotate_left 2
  · intro r c hr
    rcases entry_call C M c h r hr with h1 | ⟨h1, h2, r2, h3, h4, _, _⟩
    · exact Or.inl h1
    · exact Or.inr ⟨h1, h2, r2, h3, h4⟩
  rotate_right 2
  · intro hout
    rcases find_cases C M h with ⟨_, hf⟩ | ⟨_, _, _, _, hf⟩ | ⟨k, r, hk, hlt, _, _⟩
    · exact hf
    · exact hf
    · omega
  · intro h0 hlt
    obtain ⟨k, hk⟩ := Int.eq_ofNat_of_zero_le h0
    have hklt : k < M.handles.length := by omega
    have hkr : k < M.resources.length := by rw [hS.sizes]; exact hklt
    have hr : M.getResourceInfo h = some (M.resources[k]) :=
      (getResourceInfo_eq_some M h _).2 ⟨k, hk, hklt, List.getElem?_eq_getElem hkr⟩
    have hfind : M.call C (Call.find h) = (M.find C h).2 := rfl
    have hcase := entry_call C M (Call.find h) h _ hr
    rw [hfind] at hcase
    by_cases hs : (M.resources[k]).state = ResourceState.ResourceNotLoaded
    · rcases hcase with h1 | ⟨_, _, r2, h2, h3, _, _⟩
      · exfalso
        rcases find_cases C M h with ⟨hout, _⟩ | ⟨k2, hk2, _, hnone, _⟩ |
          ⟨k2, r0, hk2, _, hr0, hc2⟩
        · omega
        · have : k2 = k := by omega
          rw [this, List.getElem?_eq_getElem hkr] at hnone
          exact absurd hnone (by simp)
        · have hkk : k2 = k := by omega
          have hrr : r0 = M.resources[k] := by
            rw [hkk, List.getElem?_eq_getElem hkr] at hr0
            exact (Option.some.inj hr0).symm
          rw [hrr, hkk] at hc2
          have hget : ∀ r3, (M.resources.set k r3)[k]? = some r3 := fun r3 =>
            List.getElem?_set_self hkr
          rcases hc2 with ⟨hs2, _⟩ | ⟨_, e, _, hf⟩ | ⟨_, _, _, hf⟩ | ⟨_, _, p, _, hf⟩
          · exact hs2 hs
          all_goals
            rw [hf, getResourceInfo_eq_some] at h1
            obtain ⟨k3, hk3, _, h4⟩ := h1
            have hk3k : k3 = k := by omega
            rw [hk3k] at h4
            have h5 : (M.resources.set k _)[k]? = some (M.resources[k]) := h4
            rw [hget] at h5
            have h6 := congrArg ResourceInfo.state (Option.some.inj h5)
            rw [hs] at h6
            exact absurd h6 (by simp)
      · refine ⟨_, r2, hr, h2, fun _ => h3, fun hne => absurd hs hne, ?_⟩
        rcases find_cases C M h with ⟨hout, _⟩ | ⟨k2, hk2, _, hnone, _⟩ |
          ⟨k2, r0, hk2, _, hr0, hc2⟩
        · omega
        · have : k2 = k := by omega
          rw [this, List.getElem?_eq_getElem hkr] at hnone
          exact absurd hnone (by simp)
        · have hkk : k2 = k := by omega
          have hget : ∀ r3, (M.resources.set k r3)[k]? = some r3 := fun r3 =>
            List.getElem?_set_self hkr
          rw [hkk] at hc2
          rcases hc2 with ⟨hs2, hf⟩ | ⟨_, e, hm, hf⟩ | ⟨_, _, _, hf⟩ | ⟨_, _, p, _, hf⟩
          · rw [hkk, List.getElem?_eq_getElem hkr] at hr0
            rw [← Option.some.inj hr0] at hs2
            exact absurd hs hs2
          · rw [hf, getResourceInfo_eq_some] at h2
            obtain ⟨k3, hk3, _, h4⟩ := h2
            have hk3k : k3 = k := by omega
            rw [hk3k] at h4
            have h5 : (M.resources.set k _)[k]? = some r2 := h4
            rw [hget] at h5
            obtain ⟨he, _⟩ := mapFind_some _ _ _ _ hm
            obtain ⟨y, hy, _⟩ := hS.held e he
            rw [hf, ← Option.some.inj h5]
            simp [hy]
          · rw [hf, getResourceInfo_eq_some] at h2
            obtain ⟨k3, hk3, _, h4⟩ := h2
            have hk3k : k3 = k := by omega
            rw [hk3k] at h4
            have h5 : (M.resources.set k _)[k]? = some r2 := h4
            rw [hget] at h5
            rw [hf, ← Option.some.inj h5]
            simp
          · rw [hf, getResourceInfo_eq_some] at h2
            obtain ⟨k3, hk3, _, h4⟩ := h2
            have hk3k : k3 = k := by omega
            rw [hk3k] at h4
            have h5 : (M.resources.set k _)[k]? = some r2 := h4
            rw [hget] at h5
            rw [hf, ← Option.some.inj h5]
            simp
    · have hf := (find_of_entry C M h _ hr).1 hs
      refine ⟨_, M.resources[k], hr, by rw [hf]; exact hr, fun h1 => absurd h1 hs,
        fun _ => by rw [hf], ?_⟩
      rw [hf]
      show (M.resources[k]).returned ≠ none ↔ _
      unfold ResourceInfo.returned
      constructor
      · intro h1
        by_contra h2
        rw [if_neg h2] at h1
        exact h1 rfl
      · intro h1
        obtain ⟨y, hy, _⟩ := hS.loaded _ (List.getElem_mem hkr) h1
        rw [if_pos h1, hy]
        simp
  · intro r hr hs more
    exact entry_run C more M h r hr hs
  · exact List.nodup_iff_count_le_one.1 hS.resolveOnce h
  · exact List.nodup_iff_count_le_one.1 hS.loadOnce h

/-- Witness for C27 on the texture manager of the examples: handle 5 is out of range;
handle 0 failed to load, and a further `find(0)` returns the null pointer and changes
nothing; `resolve` and `load` were called once for it. -/
theorem find_state_machine_witness :
    Example.manager.find Example.textures 5 = (none, Example.manager) ∧
    Example.manager.stateOf 0 = some ResourceState.ResourceLoadingFailed ∧
    (Example.manager.find Example.textures 0).2 = Example.manager ∧
    Example.manager.resolveCalls.count 0 ≤ 1 ∧ Example.manager.loadCalls.count 0 ≤ 1 :=
  have h5 := find_state_machine Example.textures "base" Example.calls (by decide) 5
    Example.manager rfl
  have h0 := find_state_machine Example.textures "base" Example.calls (by decide) 0
    Example.manager rfl
  ⟨h5.1 (Or.inr (by decide)), by decide,
    (find_of_entry Example.textures Example.manager 0
      ⟨2, ResourceState.ResourceLoadingFailed, "base/tex.png", none⟩ (by decide)).1
      (by decide) ▸ rfl,
    h0.2.2.2.2⟩

/-- C28 fails as stated: in the texture manager of the examples the infos of the handles 0
and 1 resolve to the same path; loading failed for handle 0 before `find(1)` loaded the
resource 7; the later `find(0)` returns the null pointer, not that resource. -/
theorem find_failed_not_shared :
    ((ResourceManager.create Nat "base").run Example.textures
        [Call.getHandle { data := 2 }, Call.getHandle { data := 1 }, Call.find 0]).resolvedPath
        Example.textures 0 =
      ((ResourceManager.create Nat "base").run Example.textures
        [Call.getHandle { data := 2 }, Call.getHandle { data := 1 }, Call.find 0]).resolvedPath
        Example.textures 1 ∧
    (((ResourceManager.create Nat "base").run Example.textures
        [Call.getHandle { data := 2 }, Call.getHandle { data := 1 }, Call.find 0]).find
        Example.textures 1).1 = some 7 ∧
    (((ResourceManager.create Nat "base").run Example.textures
        [Call.getHandle { data := 2 }, Call.getHandle { data := 1 }, Call.find 0]).find
        Example.textures 1).2 = Example.manager ∧
    Example.manager.loadCalls = [0, 1] ∧
    (Example.manager.find Example.textures 0).1 = none := by
  decide

/-- C28, amended: the resource manager shares resources by resolved name, except with an
info whose own load failed. Let the manager be built by `getHandle` calls, on infos in
the state of their constructor, and `find` calls. If `find(h1)` returned the resource `x`
and, after any further such calls, the info of `h2` resolves to the same path as that of
`h1`, then `find(h2)` returns `x` without a call of `load`, unless the state of `h2` is
`ResourceLoadingFailed`; in that state `find(h2)` returns the null pointer and changes
nothing. Every entry of the map `loadedResources` is a non-null resource that an info in
the state `ResourceLoaded` holds under the path of the entry. -/
theorem find_shares_resource {D : Type} (C : InfoClass D) (baseDir : String)
    (before between : List (Call D)) (hb : ∀ c ∈ before, c.constructed)
    (hbt : ∀ c ∈ between, c.constructed) (h1 h2 : Int) (x : Nat)
    (M M1 M2 : ResourceManager D)
    (hM : M = (ResourceManager.create D baseDir).run C before)
    (hM1 : M1 = (M.find C h1).2) (hM2 : M2 = M1.run C between) :
    ((M.find C h1).1 = some x → M2.resolvedPath C h2 = M1.resolvedPath C h1 →
      (M2.stateOf h2 ≠ some ResourceState.ResourceLoadingFailed →
        (M2.find C h2).1 = some x ∧ (M2.find C h2).2.loadCalls = M2.loadCalls) ∧
      (M2.stateOf h2 = some ResourceState.ResourceLoadingFailed →
        M2.find C h2 = (none, M2))) ∧
    (∀ e ∈ M.loadedResources, ∃ y, e.2 = some y ∧
      ∃ h r, M.getResourceInfo h = some r ∧ r.state = ResourceState.ResourceLoaded ∧
        r.resolvedName = e.1 ∧ r.resource = some y) := by
  have hS : M.Sound := by
    rw [hM]
    exact Sound_run C before _ (Sound_create D baseDir) hb
  have hS1 : M1.Sound := by
    rw [hM1]
    exact Sound_find C M h1 hS
  have hS2 : M2.Sound := by
    rw [hM2]
    exact Sound_run C between _ hS1 hbt
  constructor
  · intro hx hpath
    obtain ⟨r1, hr1, hl1, hx1⟩ := find_some_entry C M h1 x hx
    rw [← hM1] at hr1
    obtain ⟨k1, _, _, hk1⟩ := (getResourceInfo_eq_some M1 h1 r1).1 hr1
    obtain ⟨y, hy, hmap⟩ := hS1.loaded r1 (List.getElem?_mem hk1) hl1
    have hyx : y = x := by
      rw [hx1] at hy
      exact (Option.some.inj hy).symm
    rw [hyx] at hmap
    have hp1 : M1.resolvedPath C h1 = some r1.resolvedName := by
      unfold ResourceManager.resolvedPath
      rw [hr1]
      simp [hl1]
    rw [hp1] at hpath
    have hmap2 : mapFind samePath M2.loadedResources r1.resolvedName =
        some (r1.resolvedName, some x) := by
      rw [hM2]
      exact loadedResources_run C between M1 _ _ hmap
    cases hr2 : M2.getResourceInfo h2 with
    | none =>
      unfold ResourceManager.resolvedPath at hpath
      rw [hr2] at hpath
      exact absurd hpath (by simp)
    | some r2 =>
      have hst : M2.stateOf h2 = some r2.state := by
        unfold ResourceManager.stateOf
        rw [hr2]; rfl
      have hfe := find_of_entry C M2 h2 r2 hr2
      unfold ResourceManager.resolvedPath at hpath
      rw [hr2] at hpath
      dsimp only at hpath
      constructor
      · intro hnf
        by_cases hs : r2.state = ResourceState.ResourceNotLoaded
        · rw [if_pos hs] at hpath
          have hname := Option.some.inj hpath
          have := hfe.2 hs (r1.resolvedName, some x) (by rw [hname]; exact hmap2)
          exact this
        · rw [if_neg hs] at hpath
          have hname := Option.some.inj hpath
          have hl2 : r2.state = ResourceState.ResourceLoaded := by
            cases hstate : r2.state with
            | ResourceNotLoaded => exact absurd hstate hs
            | ResourceLoaded => rfl
            | ResourceLoadingFailed =>
              rw [hst, hstate] at hnf
              exact absurd rfl hnf
          obtain ⟨k2, _, _, hk2⟩ := (getResourceInfo_eq_some M2 h2 r2).1 hr2
          obtain ⟨z, hz, hmapz⟩ := hS2.loaded r2 (List.getElem?_mem hk2) hl2
          rw [hname, hmap2] at hmapz
          have hzx : x = z := by
            have := Option.some.inj hmapz
            exact Option.some.inj (congrArg Prod.snd this)
          rw [hfe.1 hs]
          refine ⟨?_, rfl⟩
          show r2.returned = some x
          unfold ResourceInfo.returned
          rw [if_pos hl2, hz, hzx]
      · intro hf
        rw [hst] at hf
        have hs2 := Option.some.inj hf
        have hs : r2.state ≠ ResourceState.ResourceNotLoaded := by
          rw [hs2]; decide
        rw [hfe.1 hs]
        unfold ResourceInfo.returned
        rw [hs2]
        rfl
  · intro e he
    obtain ⟨y, hy, r, hr, h3, h4, h5⟩ := hS.held e he
    obtain ⟨k, hk⟩ := List.mem_iff_getElem?.1 hr
    have hklt : k < M.handles.length := by
      rw [← hS.sizes]
      exact (List.getElem?_eq_some.1 hk).1
    exact ⟨y, hy, (k : Int), r, (getResourceInfo_eq_some M _ r).2 ⟨k, rfl, hklt, hk⟩,
      h3, h4, h5⟩

/-- Witness for the amended C28: two infos that resolve to the texture file are
registered, `find(1)` loads the resource 7 for the second, a third info is registered,
and `find(0)` then returns the resource 7 without a call of `load`. -/
theorem find_shares_resource_witness :
    (((ResourceManager.create Nat "base").run Example.textures
        [Call.getHandle { data := 3 }, Call.getHandle { data := 1 }]).find
        Example.textures 1).1 = some 7 ∧
    (((((ResourceManager.create Nat "base").run Example.textures
        [Call.getHandle { data := 3 }, Call.getHandle { data := 1 }]).find
        Example.textures 1).2.run Example.textures [Call.getHandle { data := 4 }]).find
        Example.textures 0).1 = some 7 ∧
    (((((ResourceManager.create Nat "base").run Example.textures
        [Call.getHandle { data := 3 }, Call.getHandle { data := 1 }]).find
        Example.textures 1).2.run Example.textures [Call.getHandle { data := 4 }]).find
        Example.textures 0).2.loadCalls = [1] :=
  have h := (find_shares_resource Example.textures "base"
    [Call.getHandle { data := 3 }, Call.getHandle { data := 1 }]
    [Call.getHandle { data := 4 }] (by decide) (by decide) 1 0 7 _ _ _ rfl rfl rfl).1
    (by decide) (by decide)
  ⟨by decide, (h.1 (by decide)).1, (h.1 (by decide)).2.trans (by decide)⟩

end Celestia
